import Mathlib

/-!
Tetris playfield engine: board, pieces, line clearing and the game loop.

A shallow embedding of `Board.cpp`, `Tetromino.cpp` and `Game.cpp`.  Machine
integers are natural numbers with an explicit reduction modulo `2 ^ w`
wherever the C++ code stores into a `uint8_t` / `uint16_t` / `uint32_t` /
`uint64_t`.  Calls that only draw on the LED matrix or play sounds touch
neither the board, the pieces nor the counters and are left out.
-/

namespace Tetris

/-! ## Constants of `Board.h` -/

def BOARD_WIDTH : Nat := 28
def BOARD_HEIGHT : Nat := 40
def BOARD_OFFSET_X : Nat := 3
def BOARD_OFFSET_Y : Nat := 21

/-- Code of an empty cell (`NO_TETRO` of `enum TetrominoType`). -/
def NO_TETRO : Nat := 0

/-! ## The packed board -/

/-- The member `uint8_t field[BOARD_HEIGHT][(BOARD_WIDTH * 3 + 7) / 8]`: a
list of 40 rows of 11 bytes.  An index outside of the array is undefined
behaviour in C++; here such a read yields 0 and such a write does nothing,
and the functions below stay inside the array whenever they are given
`x < 28` and `y < 40`. -/
structure Board where
  field : List (List Nat)
deriving DecidableEq, Repr

/-- Number of bytes of one storage row, `(BOARD_WIDTH * 3 + 7) / 8 = 11`. -/
def ROW_BYTES : Nat := (BOARD_WIDTH * 3 + 7) / 8

/-- The array has `BOARD_HEIGHT` rows of `ROW_BYTES` bytes and every entry
is a `uint8_t`. -/
def Board.WF (b : Board) : Prop :=
  b.field.length = BOARD_HEIGHT ∧
    ∀ row ∈ b.field, row.length = ROW_BYTES ∧ ∀ v ∈ row, v < 256

instance (b : Board) : Decidable b.WF := by
  unfold Board.WF; infer_instance

/-- The read `field[y][i]`. -/
def Board.byte (b : Board) (y i : Nat) : Nat := (b.field.getD y []).getD i 0

/-- The store `field[y][i] = v` into a `uint8_t` slot. -/
def Board.store (b : Board) (y i v : Nat) : Board :=
  ⟨b.field.set y ((b.field.getD y []).set i (v % 256))⟩

/-- Bitwise complement `~m` of a non-negative `int` (16 bits on the AVR
target), as a bit pattern. -/
def bitNot (m : Nat) : Nat := 65535 ^^^ m

/-- The method `Board::getBitIndex`: `return x * 3;` as `uint16_t`. -/
def getBitIndex (x : Nat) : Nat := (x * 3) % 65536

/-- The method `Board::getFieldType`. -/
def Board.getFieldType (b : Board) (x y : Nat) : Nat :=
  let bitIndex := getBitIndex x
  let byteIndex := bitIndex / 8
  let bitOffset := bitIndex % 8
  let value := ((b.byte y byteIndex >>> bitOffset) &&& 7) % 256
  if bitOffset > 5 then
    (value ||| ((b.byte y (byteIndex + 1) <<< (8 - bitOffset)) &&& 7)) % 256
  else
    value

/-- The method `Board::setField`; `type` is the numeric value of the
`TetrominoType` passed in. -/
def Board.setField (b : Board) (x y type : Nat) : Board :=
  let bitIndex := getBitIndex x
  let byteIndex := bitIndex / 8
  let bitOffset := bitIndex % 8
  let b1 := b.store y byteIndex
    (b.byte y byteIndex &&& bitNot (((1 <<< 3) - 1) <<< bitOffset))
  let b2 := b1.store y byteIndex
    (b1.byte y byteIndex ||| (((type % 256) &&& 7) <<< bitOffset))
  if bitOffset > 5 then
    let b3 := b2.store y (byteIndex + 1)
      (b2.byte y (byteIndex + 1) &&& bitNot ((1 <<< (bitOffset - 5)) - 1))
    b3.store y (byteIndex + 1)
      (b3.byte y (byteIndex + 1) ||| (((type % 256) &&& 7) >>> (8 - bitOffset)))
  else
    b2

/-- The board built by the constructor `Board::Board()`: every byte zero. -/
def Board.empty : Board :=
  ⟨List.replicate BOARD_HEIGHT (List.replicate ROW_BYTES 0)⟩

/-! ## Pieces and the shape table (`Tetromino.h`, `Tetromino.cpp`) -/

/-- The data members of `class Tetromino`. -/
structure Tetromino where
  type : Nat
  color : Nat
  rotation : Nat
  offsetX : Nat
  offsetY : Nat
deriving DecidableEq, Repr

/-- The table `TETROMINOES[8][4]`; the eighth row has no initialiser and is
zero-filled. -/
def TETROMINOES : List (List Nat) :=
  [[0b0000000000000000000000000000000011111111111111110000000000000000,
    0b0011000000110000001100000011000000110000001100000011000000110000,
    0b0000000000000000000000000000000011111111111111110000000000000000,
    0b0011000000110000001100000011000000110000001100000011000000110000],
   [0b0000000000000000000000000000000000111100001111000011110000111100,
    0b0000000000000000000000000000000000111100001111000011110000111100,
    0b0000000000000000000000000000000000111100001111000011110000111100,
    0b0000000000000000000000000000000000111100001111000011110000111100],
   [0b0000000000000000000000000000000011111100111111000011000000110000,
    0b0000000000000000001100000011000000111100001111000011000000110000,
    0b0000000000000000001100000011000011111100111111000000000000000000,
    0b0000000000000000001100000011000011110000111100000011000000110000],
   [0b0000000000000000000000000000000011000000110000001111110011111100,
    0b0000000000000000000011000000110000001100000011000011110000111100,
    0b0000000000000000000000000000000011111100111111000000110000001100,
    0b0000000000000000001111000011110000110000001100000011000000110000],
   [0b0000000000000000000000000000000000000011000000110011111100111111,
    0b0000000000000000001111000011110000001100000011000000110000001100,
    0b0000000000000000000000000000000000111111001111110011000000110000,
    0b0000000000000000001100000011000000110000001100000011110000111100],
   [0b0000000000000000000000000000000000111100001111001111000011110000,
    0b0000000000000000110000001100000011110000111100000011000000110000,
    0b0000000000000000000000000000000000111100001111001111000011110000,
    0b0000000000000000110000001100000011110000111100000011000000110000],
   [0b0000000000000000000000000000000000111100001111000000111100001111,
    0b0000000000000000000011000000110000111100001111000011000000110000,
    0b0000000000000000000000000000000000111100001111000000111100001111,
    0b0000000000000000000011000000110000111100001111000011000000110000],
   [0, 0, 0, 0]]

/-- The element `TETROMINOES[i][r]`. -/
def tableWord (i r : Nat) : Nat := (TETROMINOES.getD i []).getD r 0

/-- The avr-libc read `pgm_read_byte((const uint8_t*)ptr + row)` where `ptr`
points at the 64-bit word `w`, stored least significant byte first. -/
def pgm_read_byte (w row : Nat) : Nat := (w >>> (8 * row)) % 256

/-- One pass of the loop body of `pgm_read_qword`. -/
def pgm_read_qword_step (w qword row : Nat) : Nat :=
  let rowBits := pgm_read_byte w row
  let rowBits := (((rowBits &&& 0xF0) >>> 4) ||| ((rowBits &&& 0x0F) <<< 4)) % 256
  let rowBits := (((rowBits &&& 0xCC) >>> 2) ||| ((rowBits &&& 0x33) <<< 2)) % 256
  let rowBits := (((rowBits &&& 0xAA) >>> 1) ||| ((rowBits &&& 0x55) <<< 1)) % 256
  (qword ||| (rowBits <<< ((7 - row) * 8))) % 2 ^ 64

/-- The function `pgm_read_qword`, applied to the stored word `w`. -/
def pgm_read_qword (w : Nat) : Nat :=
  (List.range 8).foldl (pgm_read_qword_step w) 0

/-- The decoded shape `pgm_read_qword(&(TETROMINOES[type - 1][rotation]))`. -/
def shapeOf (type rotation : Nat) : Nat :=
  pgm_read_qword (tableWord (type - 1) rotation)

/-- The test `shape & (1ULL << i)`. -/
def shapeBit (shape i : Nat) : Bool := shape &&& ((1 <<< i) % 2 ^ 64) != 0

/-! ## Collision test and placement (`Board.cpp`) -/

/-- The body of the loop of `Board::checkCollision` for bit `i`; `true`
stands for `return true`. -/
def Board.collidesAt (b : Board) (shape boardX boardY i : Nat) : Bool :=
  if shapeBit shape i then
    let row := i / 8
    let col := i % 8
    let fieldX := (boardX + col) % 256
    let fieldY := (boardY + row) % 256
    if fieldX ≥ BOARD_WIDTH ∨ fieldY ≥ BOARD_HEIGHT then true
    else if b.getFieldType fieldX fieldY ≠ NO_TETRO then true
    else false
  else false

/-- The method `Board::checkCollision`.  The loop over `i = 0 .. 63` returns
`true` at the first bit whose body does and `false` when none does. -/
def Board.checkCollision (b : Board) (tetromino : Tetromino)
    (targetX targetY targetRotation : Nat) : Bool :=
  let boardX := (targetX + 256 - BOARD_OFFSET_X) % 256
  let boardY := (targetY + 256 - BOARD_OFFSET_Y) % 256
  let shape := shapeOf tetromino.type targetRotation
  (List.range 64).any (b.collidesAt shape boardX boardY)

/-- The body of the loop of `Board::placeTetromino` for bit `i`. -/
def Board.placeAt (b : Board) (shape boardX boardY type i : Nat) : Board :=
  if shapeBit shape i then
    let row := i / 8
    let col := i % 8
    let fieldX := (boardX + col) % 256
    let fieldY := (boardY + row) % 256
    if fieldX < BOARD_WIDTH ∧ fieldY < BOARD_HEIGHT then
      b.setField fieldX fieldY type
    else b
  else b

/-- The method `Board::placeTetromino`. -/
def Board.placeTetromino (b : Board) (tetromino : Tetromino) : Board :=
  let boardX := (tetromino.offsetX + 256 - BOARD_OFFSET_X) % 256
  let boardY := (tetromino.offsetY + 256 - BOARD_OFFSET_Y) % 256
  let shape := shapeOf tetromino.type tetromino.rotation
  (List.range 64).foldl
    (fun acc i => acc.placeAt shape boardX boardY tetromino.type i) b

/-! ## Line clearing (`Board::clearFullLines`) -/

/-- The `isFull` flag computed by the first inner loop for the row pair
`y`, `y + 1`: it stays `true` unless some column has an empty cell in one of
the two storage rows. -/
def Board.isFullAt (b : Board) (y : Nat) : Bool :=
  (List.range BOARD_WIDTH).all fun x =>
    !(b.getFieldType x y == NO_TETRO || b.getFieldType x ((y + 1) % 256) == NO_TETRO)

/-- Body of the column loop that copies the row pair above into `row`,
`row + 1`. -/
def Board.shiftCell (b : Board) (row x : Nat) : Board :=
  let b1 := b.setField x row (b.getFieldType x (row - 2))
  b1.setField x ((row + 1) % 256) (b1.getFieldType x (row - 1))

/-- The column loop of the shift for one value of `row`. -/
def Board.shiftRow (b : Board) (row : Nat) : Board :=
  (List.range BOARD_WIDTH).foldl (fun acc x => acc.shiftCell row x) b

/-- The loop `for (uint8_t row = y; row > 1; row -= 2)`; `none` when the
fuel is used up before the loop condition fails. -/
def Board.shiftLoop : Nat → Board → Nat → Option Board
  | 0, _, _ => none
  | fuel + 1, b, row =>
    if row > 1 then Board.shiftLoop fuel (b.shiftRow row) ((row + 256 - 2) % 256)
    else some b

/-- The loop that empties the two top storage rows. -/
def Board.clearTop (b : Board) : Board :=
  (List.range BOARD_WIDTH).foldl
    (fun acc x => (acc.setField x 0 NO_TETRO).setField x 1 NO_TETRO) b

/-- Iterations granted to the shift loop: `row` runs through at most the 20
even values `38, 36, .., 2` before the exit test. -/
def SHIFT_FUEL : Nat := BOARD_HEIGHT / 2 + 1

/-- The outer loop `for (uint8_t y = 0; y < BOARD_HEIGHT; y += 2)` with the
`y -= 2` of the full-row branch; `none` when the fuel is used up. -/
def Board.clearLoop : Nat → Board → Nat → Nat → Option (Board × Nat)
  | 0, _, _, _ => none
  | fuel + 1, b, y, clearedRows =>
    if y < BOARD_HEIGHT then
      if b.isFullAt y then
        match b.shiftLoop SHIFT_FUEL y with
        | none => none
        | some b1 =>
          let y1 := (y + 256 - 2) % 256
          Board.clearLoop fuel b1.clearTop ((y1 + 2) % 256) ((clearedRows + 1) % 256)
      else Board.clearLoop fuel b ((y + 2) % 256) clearedRows
    else some (b, clearedRows)

/-- Iterations granted to the outer loop: each of the 20 row pairs is passed
once and cleared at most once, and one more test ends the loop. -/
def CLEAR_FUEL : Nat := BOARD_HEIGHT + 1

/-- The method `Board::clearFullLines`: the board afterwards and the value
returned. -/
def Board.clearFullLines (b : Board) : Option (Board × Nat) :=
  b.clearLoop CLEAR_FUEL 0 0

/-! ## Piece movement (`Tetromino.cpp`) -/

/-- The method `Tetromino::moveLeft`: the value returned and the piece
afterwards. -/
def Tetromino.moveLeft (t : Tetromino) (board : Board) : Bool × Tetromino :=
  if board.checkCollision t ((t.offsetX + 256 - 2) % 256) t.offsetY t.rotation then (false, t)
  else (true, { t with offsetX := (t.offsetX + 256 - 2) % 256 })

/-- The method `Tetromino::moveRight`. -/
def Tetromino.moveRight (t : Tetromino) (board : Board) : Bool × Tetromino :=
  if board.checkCollision t ((t.offsetX + 2) % 256) t.offsetY t.rotation then (false, t)
  else (true, { t with offsetX := (t.offsetX + 2) % 256 })

/-- The method `Tetromino::moveDown`. -/
def Tetromino.moveDown (t : Tetromino) (board : Board) : Bool × Tetromino :=
  if board.checkCollision t t.offsetX ((t.offsetY + 2) % 256) t.rotation then (false, t)
  else (true, { t with offsetY := (t.offsetY + 2) % 256 })

/-- The method `Tetromino::rotate`. -/
def Tetromino.rotate (t : Tetromino) (board : Board) : Bool × Tetromino :=
  let nextRotation := ((t.rotation + 1) % 4) % 256
  if board.checkCollision t t.offsetX t.offsetY nextRotation then (false, t)
  else (true, { t with rotation := nextRotation })

/-- The method `Tetromino::setOffset`. -/
def Tetromino.setOffset (t : Tetromino) (x y : Nat) : Tetromino :=
  { t with offsetX := x % 256, offsetY := y % 256 }

/-! ## Colours (`Display.h`, `Display.cpp`) -/

def MAGENTA : Nat := 0
def BLUE : Nat := 1
def CYAN : Nat := 2
def GREEN : Nat := 3
def YELLOW : Nat := 4
def ORANGE : Nat := 5
def RED : Nat := 6
def BLACK : Nat := 7

/-- The table `displayColors[NUM_COLORS]`. -/
def displayColors : List Nat :=
  [0xF81F, 0x001F, 0x07FF, 0x07E0, 0xFFE0, 0xFB40, 0xF800, 0x0000, 0x4208, 0xFFFF]

/-- The method `Display::getColor`. -/
def Display.getColor (color : Nat) : Nat := displayColors.getD color 0

/-! ## The game loop (`Game.h`, `Game.cpp`)

The members that drive the MP3 player, the buzzer and the display
(`mp3Player`, `currentRowsCleared`, `isRowClearSound`, `levelUpDelay`, ...)
are written by the methods below but never read by the game logic; they are
left out together with the calls that only draw or play sounds. -/

/-- The data members of `class Game` after `init()`.  `currentTetromino` and
`nextTetromino` hold the objects the two pointers point to, and
`nextIsCurrent` records the pointer comparison
`currentTetromino == nextTetromino`: when it is true both pointers name one
object, so a write through one of them is seen through the other. -/
structure Game where
  board : Board
  currentTetromino : Tetromino
  nextTetromino : Tetromino
  nextIsCurrent : Bool
  score : Nat
  level : Nat
  clearedRows : Nat
  totalClearedRows : Nat
  fallSpeed : Nat
  lastFallTime : Nat
  isPaused : Bool
  gameOver : Bool
deriving DecidableEq, Repr

/-- A write to the object `*currentTetromino`. -/
def Game.withCurrent (g : Game) (t : Tetromino) : Game :=
  { g with
    currentTetromino := t
    nextTetromino := if g.nextIsCurrent then t else g.nextTetromino }

/-- The method `Game::createTetromino`, applied to the value `r` returned by
`random(18)`.  The `switch` has no `default`; outside of `0 .. 17`, which
`random(18)` never returns, the C++ code leaves `type` and `color`
uninitialised and this definition yields the empty code. -/
def Game.createTetromino (r : Nat) : Tetromino :=
  let tc : Nat × Nat :=
    if r = 0 then (1, Display.getColor CYAN)
    else if r = 1 ∨ r = 2 then (2, Display.getColor YELLOW)
    else if r = 3 ∨ r = 4 ∨ r = 5 then (3, Display.getColor MAGENTA)
    else if r = 6 ∨ r = 7 ∨ r = 8 then (4, Display.getColor BLUE)
    else if r = 9 ∨ r = 10 ∨ r = 11 then (5, Display.getColor ORANGE)
    else if r = 12 ∨ r = 13 ∨ r = 14 then (6, Display.getColor GREEN)
    else if r = 15 ∨ r = 16 ∨ r = 17 then (7, Display.getColor RED)
    else (NO_TETRO, 0)
  { type := tc.1, color := tc.2, rotation := 0, offsetX := 0, offsetY := 0 }

/-- The method `Game::updateScore`. -/
def Game.updateScore (g : Game) (rowsCleared : Nat) : Game :=
  if rowsCleared > 0 then
    if rowsCleared = 1 then { g with score := (g.score + 2 * g.level) % 65536 }
    else if rowsCleared = 2 then { g with score := (g.score + 6 * g.level) % 65536 }
    else if rowsCleared = 3 then { g with score := (g.score + 10 * g.level) % 65536 }
    else if rowsCleared = 4 then { g with score := (g.score + 20 * g.level) % 65536 }
    else g
  else g

/-- The method `Game::updateLevelAndSpeed`. -/
def Game.updateLevelAndSpeed (g : Game) : Game :=
  if g.clearedRows ≥ 10 then
    { g with
      level := (g.level + 1) % 256
      clearedRows := (g.clearedRows - 10) % 65536
      fallSpeed := if g.fallSpeed > 100 then g.fallSpeed - 100 else 100 }
  else g

/-- The bookkeeping of `Game::run` after a piece has been committed:
`totalClearedRows += rowsCleared; clearedRows += rowsCleared;
updateScore(rowsCleared); updateLevelAndSpeed();`. -/
def Game.commitRows (g : Game) (rowsCleared : Nat) : Game :=
  let g1 := { g with totalClearedRows := (g.totalClearedRows + rowsCleared) % 65536 }
  let g2 := { g1 with clearedRows := (g1.clearedRows + rowsCleared) % 65536 }
  (g2.updateScore rowsCleared).updateLevelAndSpeed

/-- The method `Game::togglePause`. -/
def Game.togglePause (g : Game) : Game :=
  { g with isPaused := !g.isPaused }

/-- The method `Game::keyAction`.  The keys `#` and `*` only change the
volume of the MP3 player. -/
def Game.keyAction (g : Game) (key : Char) : Game :=
  if key = '6' then g.withCurrent (g.currentTetromino.moveLeft g.board).2
  else if key = '5' then g.withCurrent (g.currentTetromino.rotate g.board).2
  else if key = '4' then g.withCurrent (g.currentTetromino.moveRight g.board).2
  else if key = '2' then g.withCurrent (g.currentTetromino.moveDown g.board).2
  else if key = 'B' then g.togglePause
  else g

/-- The method `Game::run`, for the clock value `currentTime` returned by
`millis()` and the value `rnd` returned by `random(18)` should a new piece be
created.  The result is `none` when `clearFullLines` uses up its fuel, and
when a piece is committed while `currentTetromino == nextTetromino`: the C++
code then deletes the object and goes on using it through `nextTetromino`,
which is undefined behaviour. -/
def Game.run (g : Game) (currentTime rnd : Nat) : Option Game :=
  if g.isPaused then some g
  else if (currentTime + 2 ^ 32 - g.lastFallTime) % 2 ^ 32 ≥ g.fallSpeed then
    let moved := g.currentTetromino.moveDown g.board
    if !moved.1 then
      match (g.board.placeTetromino g.currentTetromino).clearFullLines with
      | none => none
      | some (board2, rowsCleared) =>
        let g1 := ({ g with board := board2 }).commitRows rowsCleared
        if g.nextIsCurrent then none
        else
          let cur := g.nextTetromino.setOffset 13 17
          let g2 := { g1 with currentTetromino := cur, nextTetromino := cur,
                              nextIsCurrent := true }
          if board2.checkCollision cur cur.offsetX cur.offsetY cur.rotation then
            some { g2 with gameOver := true }
          else
            some { g2 with nextTetromino := Game.createTetromino rnd,
                           nextIsCurrent := false, lastFallTime := currentTime }
    else some { g.withCurrent moved.2 with lastFallTime := currentTime }
  else some g

/-- The state after the constructor `Game::Game()` and `init()`, for the
values `r1`, `r2` that `random(18)` returns for the two pieces. -/
def Game.init (r1 r2 : Nat) : Game :=
  { board := Board.empty
    currentTetromino := (Game.createTetromino r1).setOffset 13 17
    nextTetromino := Game.createTetromino r2
    nextIsCurrent := false
    score := 0
    level := 1
    clearedRows := 0
    totalClearedRows := 0
    fallSpeed := 1000
    lastFallTime := 0
    isPaused := false
    gameOver := false }

/-! ## Clearing the board and resetting the game -/

/-- The store `field[y][x] = v` for indices that may run past the end of a
row: the rows of the array lie one after the other in memory, so the byte
addressed is number `y * ROW_BYTES + x` of the array.  A store behind the last
byte of the array lands outside of the board and leaves it as it is. -/
def Board.storeFlat (b : Board) (y x v : Nat) : Board :=
  if y * ROW_BYTES + x < BOARD_HEIGHT * ROW_BYTES then
    b.store ((y * ROW_BYTES + x) / ROW_BYTES) ((y * ROW_BYTES + x) % ROW_BYTES) v
  else b

/-- The index pairs `(y, x)` that the loops
`for (y = 0; y < BOARD_HEIGHT; y++) for (x = 0; x < (BOARD_WIDTH + 1) / 2; x++)`
of `Board::Board()` and `Board::clear()` run through, in order. -/
def clearIndices : List (Nat × Nat) :=
  (List.range BOARD_HEIGHT).flatMap fun y =>
    (List.range ((BOARD_WIDTH + 1) / 2)).map fun x => (y, x)

/-- The method `Board::clear`: `field[y][x] = 0` for every pair of
`clearIndices`. -/
def Board.clear (b : Board) : Board :=
  clearIndices.foldl (fun acc yx => acc.storeFlat yx.1 yx.2 0) b

/-- The constructor `Board::Board()`, which runs the same two loops on the
memory `b` it finds. -/
def Board.construct (b : Board) : Board :=
  clearIndices.foldl (fun acc yx => acc.storeFlat yx.1 yx.2 0) b

/-- The method `Game::resetGame`.  Both pieces are deleted and both pointers
are null afterwards (hence equal); the fields `currentTetromino` and
`nextTetromino` then name no object, and their values here are without
meaning until `init()` creates new pieces.  The three bytes that
`Board::clear` writes behind the array are not part of this state. -/
def Game.resetGame (g : Game) : Game :=
  { g with
    nextIsCurrent := true
    board := g.board.clear
    level := 1
    score := 0
    totalClearedRows := 0
    clearedRows := 0
    fallSpeed := 1000
    lastFallTime := 0
    isPaused := false
    gameOver := false }

/-- The states of a game: those after `init()`, and those that a call of
`run()` or of `keyAction` leads to from such a state; `random(18)` returns a
value below 18. -/
inductive Reachable : Game → Prop
  | init (r1 r2 : Nat) (h1 : r1 < 18) (h2 : r2 < 18) : Reachable (Game.init r1 r2)
  | run (g g' : Game) (currentTime rnd : Nat) (hrnd : rnd < 18) (hg : Reachable g)
      (hrun : g.run currentTime rnd = some g') : Reachable g'
  | key (g : Game) (key : Char) (hg : Reachable g) : Reachable (g.keyAction key)

/-! ## The board operations with checked cell accesses

The same code as above, with every call of `getFieldType` and `setField`
replaced by a version that yields `none` when its precondition `x < 28`,
`y < 40` is violated.  An operation yields `none` when one of its calls does,
or when a loop uses up its fuel. -/

/-- The call `getFieldType(x, y)`, checked. -/
def Board.getFieldTypeChk (b : Board) (x y : Nat) : Option Nat :=
  if x < BOARD_WIDTH ∧ y < BOARD_HEIGHT then some (b.getFieldType x y) else none

/-- The call `setField(x, y, type)`, checked. -/
def Board.setFieldChk (b : Board) (x y type : Nat) : Option Board :=
  if x < BOARD_WIDTH ∧ y < BOARD_HEIGHT then some (b.setField x y type) else none

/-- The body of the loop of `Board::checkCollision` for bit `i`. -/
def Board.collidesAtChk (b : Board) (shape boardX boardY i : Nat) : Option Bool :=
  if shapeBit shape i then
    let row := i / 8
    let col := i % 8
    let fieldX := (boardX + col) % 256
    let fieldY := (boardY + row) % 256
    if fieldX ≥ BOARD_WIDTH ∨ fieldY ≥ BOARD_HEIGHT then some true
    else (b.getFieldTypeChk fieldX fieldY).bind fun v =>
      if v ≠ NO_TETRO then some true else some false
  else some false

/-- The loop of `Board::checkCollision` over the bits in `is`; it returns at
the first bit whose body returns `true`. -/
def Board.checkCollisionLoopChk (b : Board) (shape boardX boardY : Nat) :
    List Nat → Option Bool
  | [] => some false
  | i :: is =>
    (b.collidesAtChk shape boardX boardY i).bind fun c =>
      if c then some true else Board.checkCollisionLoopChk b shape boardX boardY is

/-- The method `Board::checkCollision`. -/
def Board.checkCollisionChk (b : Board) (tetromino : Tetromino)
    (targetX targetY targetRotation : Nat) : Option Bool :=
  let boardX := (targetX + 256 - BOARD_OFFSET_X) % 256
  let boardY := (targetY + 256 - BOARD_OFFSET_Y) % 256
  let shape := shapeOf tetromino.type targetRotation
  b.checkCollisionLoopChk shape boardX boardY (List.range 64)

/-- The body of the loop of `Board::placeTetromino` for bit `i`. -/
def Board.placeAtChk (b : Board) (shape boardX boardY type i : Nat) : Option Board :=
  if shapeBit shape i then
    let row := i / 8
    let col := i % 8
    let fieldX := (boardX + col) % 256
    let fieldY := (boardY + row) % 256
    if fieldX < BOARD_WIDTH ∧ fieldY < BOARD_HEIGHT then
      b.setFieldChk fieldX fieldY type
    else some b
  else some b

/-- The method `Board::placeTetromino`. -/
def Board.placeTetrominoChk (b : Board) (tetromino : Tetromino) : Option Board :=
  let boardX := (tetromino.offsetX + 256 - BOARD_OFFSET_X) % 256
  let boardY := (tetromino.offsetY + 256 - BOARD_OFFSET_Y) % 256
  let shape := shapeOf tetromino.type tetromino.rotation
  (List.range 64).foldlM
    (fun acc i => acc.placeAtChk shape boardX boardY tetromino.type i) b

/-- The test `getFieldType(x, y) == NO_TETRO || getFieldType(x, y + 1) ==
NO_TETRO` of the first inner loop of `Board::clearFullLines`; the second call
is made only when the first cell is occupied. -/
def Board.emptyCellChk (b : Board) (y x : Nat) : Option Bool :=
  (b.getFieldTypeChk x y).bind fun v =>
    if v == NO_TETRO then some true
    else (b.getFieldTypeChk x ((y + 1) % 256)).bind fun w => some (w == NO_TETRO)

/-- The first inner loop of `Board::clearFullLines` over the columns in
`xs`, with its `break`: the value of `isFull`. -/
def Board.isFullLoopChk (b : Board) (y : Nat) : List Nat → Option Bool
  | [] => some true
  | x :: xs =>
    (b.emptyCellChk y x).bind fun e =>
      if e then some false else Board.isFullLoopChk b y xs

/-- The `isFull` flag for the row pair `y`, `y + 1`. -/
def Board.isFullAtChk (b : Board) (y : Nat) : Option Bool :=
  b.isFullLoopChk y (List.range BOARD_WIDTH)

/-- Body of the column loop of the shift: the two copies, and the reads of
the two copied cells made for the arguments of `drawPixel`. -/
def Board.shiftCellChk (b : Board) (row x : Nat) : Option Board :=
  (b.getFieldTypeChk x (row - 2)).bind fun v1 =>
  (b.setFieldChk x row v1).bind fun b1 =>
  (b1.getFieldTypeChk x (row - 1)).bind fun v2 =>
  (b1.setFieldChk x ((row + 1) % 256) v2).bind fun b2 =>
  (b2.getFieldTypeChk x row).bind fun _ =>
  (b2.getFieldTypeChk x ((row + 1) % 256)).bind fun _ =>
  some b2

/-- The column loop of the shift for one value of `row`. -/
def Board.shiftRowChk (b : Board) (row : Nat) : Option Board :=
  (List.range BOARD_WIDTH).foldlM (fun acc x => acc.shiftCellChk row x) b

/-- The loop `for (uint8_t row = y; row > 1; row -= 2)`. -/
def Board.shiftLoopChk : Nat → Board → Nat → Option Board
  | 0, _, _ => none
  | fuel + 1, b, row =>
    if row > 1 then
      (b.shiftRowChk row).bind fun b1 => Board.shiftLoopChk fuel b1 ((row + 256 - 2) % 256)
    else some b

/-- The loop that empties the two top storage rows. -/
def Board.clearTopChk (b : Board) : Option Board :=
  (List.range BOARD_WIDTH).foldlM
    (fun acc x => (acc.setFieldChk x 0 NO_TETRO).bind fun b1 => b1.setFieldChk x 1 NO_TETRO) b

/-- The outer loop of `Board::clearFullLines`. -/
def Board.clearLoopChk : Nat → Board → Nat → Nat → Option (Board × Nat)
  | 0, _, _, _ => none
  | fuel + 1, b, y, clearedRows =>
    if y < BOARD_HEIGHT then
      (b.isFullAtChk y).bind fun full =>
        if full then
          (b.shiftLoopChk SHIFT_FUEL y).bind fun b1 =>
          b1.clearTopChk.bind fun b2 =>
            let y1 := (y + 256 - 2) % 256
            Board.clearLoopChk fuel b2 ((y1 + 2) % 256) ((clearedRows + 1) % 256)
        else Board.clearLoopChk fuel b ((y + 2) % 256) clearedRows
    else some (b, clearedRows)

/-- The method `Board::clearFullLines`. -/
def Board.clearFullLinesChk (b : Board) : Option (Board × Nat) :=
  b.clearLoopChk CLEAR_FUEL 0 0

/-! ## Auxiliary notions used in the statements -/

/-- Bit `i` of storage row `y`, counting through the bytes of the row. -/
def Board.rowBit (b : Board) (y i : Nat) : Bool :=
  (b.byte y (i / 8)).testBit (i % 8)

/-- The low byte written by `setField`: the two stores into
`field[y][byteIndex]`, applied to the old byte `B`. -/
def lowByte (B c off : Nat) : Nat :=
  ((B &&& bitNot (((1 <<< 3) - 1) <<< off)) % 256 ||| (((c % 256) &&& 7) <<< off)) % 256

/-- The high byte written by `setField` for a cell that straddles two bytes:
the two stores into `field[y][byteIndex + 1]`, applied to the old byte `B`. -/
def highByte (B c off : Nat) : Nat :=
  ((B &&& bitNot ((1 <<< (off - 5)) - 1)) % 256 |||
    (((c % 256) &&& 7) >>> (8 - off))) % 256

/-- The codes of storage row `y`, columns `0 .. 27`. -/
def Board.storageRow (b : Board) (y : Nat) : List Nat :=
  (List.range BOARD_WIDTH).map fun x => b.getFieldType x y

/-- Display row `d`: the codes of the storage rows `2 * d` and `2 * d + 1`. -/
def Board.displayRow (b : Board) (d : Nat) : List Nat × List Nat :=
  (b.storageRow (2 * d), b.storageRow (2 * d + 1))

/-- Number of display rows, `BOARD_HEIGHT / 2 = 20`. -/
def DISPLAY_ROWS : Nat := BOARD_HEIGHT / 2

/-- The display rows of the board from top to bottom. -/
def Board.displayRows (b : Board) : List (List Nat × List Nat) :=
  (List.range DISPLAY_ROWS).map b.displayRow

/-- A display row is full when both of its storage rows have every column
non-empty. -/
def rowIsFull (r : List Nat × List Nat) : Bool :=
  r.1.all (fun c => c != NO_TETRO) && r.2.all (fun c => c != NO_TETRO)

/-- A display row whose 2 x 28 cells are all empty. -/
def emptyDisplayRow : List Nat × List Nat :=
  (List.replicate BOARD_WIDTH NO_TETRO, List.replicate BOARD_WIDTH NO_TETRO)

/-- Whether display row `d` of the board is full. -/
def Board.isFullRow (b : Board) (d : Nat) : Bool := rowIsFull (b.displayRow d)

/-- The indices of the display rows among the first `m` that are not full,
in increasing order. -/
def Board.keptRows (b : Board) (m : Nat) : List Nat :=
  (List.range m).filter fun d => !b.isFullRow d

/-- The number of full display rows among the first `m`. -/
def Board.fullCount (b : Board) (m : Nat) : Nat :=
  ((List.range m).filter fun d => b.isFullRow d).length

/-- State of the board when the outer loop of `clearFullLines` has dealt with
the first `m` display rows of the board `b0` it started from: the full ones
are gone, as many empty rows sit on top, the other rows follow in order, and
the rows from `m` on are untouched. -/
def ClearInv (b0 : Board) (m : Nat) (B : Board) : Prop :=
  B.WF ∧ ∀ i, i < 20 →
    B.displayRow i =
      if i < b0.fullCount m then emptyDisplayRow
      else if i < m then b0.displayRow ((b0.keptRows m).getD (i - b0.fullCount m) 0)
      else b0.displayRow i

/-- A piece as `createTetromino`, `setOffset`, the moves and `rotate` leave
it: kind `1 .. 7`, rotation `0 .. 3`, offsets in `uint8_t` range. -/
def Tetromino.Valid (t : Tetromino) : Prop :=
  1 ≤ t.type ∧ t.type ≤ 7 ∧ t.rotation ≤ 3 ∧ t.offsetX < 256 ∧ t.offsetY < 256

instance (t : Tetromino) : Decidable t.Valid := by
  unfold Tetromino.Valid; infer_instance

/-- The property carried along every sequence of `run` and `keyAction`
calls: both pieces are valid, `currentTetromino == nextTetromino` holds
exactly when the game is over, and while the game is not over the current
piece does not collide. -/
def Game.Inv (g : Game) : Prop :=
  g.currentTetromino.Valid ∧ g.nextTetromino.Valid ∧ g.nextIsCurrent = g.gameOver ∧
    (g.gameOver = false →
      g.board.checkCollision g.currentTetromino g.currentTetromino.offsetX
        g.currentTetromino.offsetY g.currentTetromino.rotation = false)

/-- The three swaps that `pgm_read_qword` applies to the byte `rowBits`
(nibbles, bit pairs, neighbouring bits), each stored back into a `uint8_t`. -/
def reverseByte (B : Nat) : Nat :=
  let rowBits := (((B &&& 0xF0) >>> 4) ||| ((B &&& 0x0F) <<< 4)) % 256
  let rowBits := (((rowBits &&& 0xCC) >>> 2) ||| ((rowBits &&& 0x33) <<< 2)) % 256
  (((rowBits &&& 0xAA) >>> 1) ||| ((rowBits &&& 0x55) <<< 1)) % 256

/-- The occupied cells `(row, col)` of a decoded 8x8 bitmap. -/
def occupiedCells (s : Nat) : List (Int × Int) :=
  ((List.range 64).filter fun i => s.testBit i).map fun i =>
    (((i / 8 : Nat) : Int), ((i % 8 : Nat) : Int))

/-- A quarter turn of the 8x8 frame: cell `(row, col)` goes to
`(7 - col, row)`. -/
def rotateCell (p : Int × Int) : Int × Int := (7 - p.2, p.1)

/-- The cell `p` moved by `d`. -/
def translateCell (d p : Int × Int) : Int × Int := (p.1 + d.1, p.2 + d.2)

/-- The board is uniform on the 2 x 2 blocks aligned to even rows and
columns: every cell equals its horizontal and its vertical neighbour in the
block. -/
def Board.Uniform (b : Board) : Prop :=
  ∀ x, x < BOARD_WIDTH → ∀ y, y < BOARD_HEIGHT →
    b.getFieldType x y = b.getFieldType (x ^^^ 1) y ∧
    b.getFieldType x y = b.getFieldType x (y ^^^ 1)

instance (b : Board) : Decidable b.Uniform := by
  unfold Board.Uniform; infer_instance

/-- A display row is uniform when its two storage rows are equal and each
column equals its neighbour in the aligned pair of columns. -/
def rowIsUniform (r : List Nat × List Nat) : Prop :=
  r.1 = r.2 ∧ ∀ x, x < BOARD_WIDTH → r.1.getD x 0 = r.1.getD (x ^^^ 1) 0

instance (r : List Nat × List Nat) : Decidable (rowIsUniform r) := by
  unfold rowIsUniform; infer_instance

/-- The alignment carried along every sequence of `run` and `keyAction`
calls: odd offsets of the current piece, a well-formed and uniform board. -/
def Game.Aligned (g : Game) : Prop :=
  g.currentTetromino.offsetX % 2 = 1 ∧ g.currentTetromino.offsetY % 2 = 1 ∧
    g.board.WF ∧ g.board.Uniform

/-! ## Sample boards -/

/-- A board whose bottom display row (storage rows 38 and 39) is filled with
code 7 and whose other rows are empty. -/
def bottomRowFull : Board :=
  ⟨List.replicate 38 (List.replicate 11 0) ++
    List.replicate 2 (List.replicate 10 255 ++ [15])⟩

/-- A board whose two bottom display rows (storage rows 36 to 39) are filled
with code 7 and whose other rows are empty. -/
def bottomTwoRowsFull : Board :=
  ⟨List.replicate 36 (List.replicate 11 0) ++
    List.replicate 4 (List.replicate 10 255 ++ [15])⟩

/-! ## Sample states -/

/-- A new game whose current piece, an O piece, has fallen to the floor
(board rows 36 to 39). -/
def landedGame : Game :=
  { Game.init 1 4 with currentTetromino := (Game.createTetromino 1).setOffset 13 53 }

/-- A board on which a tower reaches the top: a horizontal I piece on the
floor (columns 4 to 11), nine O pieces stacked on it in columns 8 to 11 (rows
2 to 37), and a horizontal I piece that landed on the tower right after its
spawn (rows 0 and 1, columns 10 to 17). -/
def towerBoard : Board :=
  ⟨List.replicate 2 [0, 0, 0, 64, 146, 36, 9, 0, 0, 0, 0] ++
    List.replicate 36 [0, 0, 0, 146, 4, 0, 0, 0, 0, 0, 0] ++
    List.replicate 2 [0, 144, 36, 73, 2, 0, 0, 0, 0, 0, 0]⟩

/-- The state `run()` leaves behind when the O piece promoted from
`nextTetromino` collides at its spawn position on `towerBoard`: `gameOver` is
set and both pointers name the promoted piece. -/
def gameOverState : Game :=
  { board := towerBoard
    currentTetromino := (Game.createTetromino 1).setOffset 13 17
    nextTetromino := (Game.createTetromino 1).setOffset 13 17
    nextIsCurrent := true
    score := 0
    level := 1
    clearedRows := 0
    totalClearedRows := 0
    fallSpeed := 1000
    lastFallTime := 40000
    isPaused := false
    gameOver := true }

/-- A new game right after the pause key: `init()` followed by
`keyAction('B')`. -/
def pausedGame : Game := (Game.init 1 4).keyAction 'B'

/-- A state late in a game: level 100 with a score close to the 16-bit
limit. -/
def highScoreGame : Game :=
  { Game.init 1 4 with score := 65000, level := 100 }

/-- A state at the highest level an 8-bit counter can hold, with ten rows
cleared at that level. -/
def maxLevelGame : Game :=
  { Game.init 1 4 with level := 255, clearedRows := 10, totalClearedRows := 2550,
                       fallSpeed := 100 }

/-- A board whose top display row (storage rows 0 and 1) is filled with code
7 and whose other rows are empty. -/
def topRowFull : Board :=
  ⟨List.replicate 2 (List.replicate 10 255 ++ [15]) ++
    List.replicate 38 (List.replicate 11 0)⟩

/-- A new game whose current piece, an O piece, has fallen to `offsetY = y`
without any other change. -/
def fallingGame (y : Nat) : Game :=
  { Game.init 1 4 with currentTetromino := (Game.createTetromino 1).setOffset 13 y }

/-- A board whose bottom display row (storage rows 38 and 39) is filled with
code 7 except for the columns 12 to 15, and whose other rows are empty. -/
def gapBoard : Board :=
  ⟨List.replicate 38 (List.replicate 11 0) ++
    List.replicate 2 [255, 255, 255, 255, 15, 0, 255, 255, 255, 255, 15]⟩

/-- A state at level 3 with nine rows cleared at that level, in which an O
piece has landed in the gap of `gapBoard`: its commit completes the bottom
display row and raises the level. -/
def levelUpGame : Game :=
  { Game.init 1 4 with
    board := gapBoard
    currentTetromino := (Game.createTetromino 1).setOffset 13 53
    score := 100
    level := 3
    clearedRows := 9
    totalClearedRows := 29
    fallSpeed := 800 }

/-! ## Bit-level facts about the packed encoding -/

theorem testBit_seven (j : Nat) : Nat.testBit 7 j = decide (j < 3) := by
  have h := Nat.testBit_two_pow_sub_one 3 j
  simpa using h

theorem testBit_65535 (j : Nat) : Nat.testBit 65535 j = decide (j < 16) := by
  have h := Nat.testBit_two_pow_sub_one 16 j
  simpa using h

theorem testBit_mod_256 (v j : Nat) :
    (v % 256).testBit j = (decide (j < 8) && v.testBit j) :=
  Nat.testBit_mod_two_pow v 8 j

theorem testBit_byte_high {v j : Nat} (hv : v < 256) (hj : 8 ≤ j) :
    v.testBit j = false := by
  apply Nat.testBit_lt_two_pow
  calc v < 2 ^ 8 := hv
    _ ≤ 2 ^ j := Nat.pow_le_pow_right (by decide) hj

theorem lowByte_testBit (B c off j : Nat) (hj : j < 8) :
    (lowByte B c off).testBit j
      = if off ≤ j ∧ j < off + 3 then c.testBit (j - off) else B.testBit j := by
  unfold lowByte
  simp only [testBit_mod_256, Nat.testBit_or, Nat.testBit_and, bitNot, Nat.testBit_xor,
    Nat.testBit_shiftLeft, testBit_65535, show (1 <<< 3) - 1 = 7 from rfl, testBit_seven]
  have h16 : j < 16 := by omega
  by_cases h1 : off ≤ j
  · by_cases h2 : j < off + 3
    · have h3 : j - off < 3 := by omega
      have h4 : j - off < 8 := by omega
      simp [hj, h16, h1, h2, h3, h4]
    · have h3 : ¬ j - off < 3 := by omega
      simp [hj, h16, h1, h2, h3]
  · simp [hj, h16, h1]

theorem highByte_testBit (B c off j : Nat) (hoff : off < 8) (h5 : 5 < off) (hj : j < 8) :
    (highByte B c off).testBit j
      = if j < off - 5 then c.testBit (j + (8 - off)) else B.testBit j := by
  unfold highByte
  simp only [testBit_mod_256, Nat.testBit_or, Nat.testBit_and, bitNot, Nat.testBit_xor,
    Nat.testBit_shiftRight, testBit_65535, Nat.one_shiftLeft, Nat.testBit_two_pow_sub_one,
    testBit_seven]
  have h16 : j < 16 := by omega
  by_cases h1 : j < off - 5
  · have h3 : 8 - off + j < 3 := by omega
    have h4 : 8 - off + j < 8 := by omega
    have h6 : 8 - off + j = j + (8 - off) := by omega
    have h7 : j + (8 - off) < 3 := by omega
    have h8 : j + (8 - off) < 8 := by omega
    simp [hj, h16, h1, h3, h4, h6, h7, h8]
  · have h3 : ¬ 8 - off + j < 3 := by omega
    simp [hj, h16, h1, h3]

/-! ## Reads and writes of single bytes -/

theorem WF_row_length {b : Board} (h : b.WF) {y : Nat} (hy : y < 40) :
    (b.field.getD y []).length = 11 := by
  have hl : y < b.field.length := by rw [h.1]; exact hy
  rw [List.getD_eq_getElem _ _ hl]
  exact (h.2 _ (List.getElem_mem _)).1

theorem byte_lt {b : Board} (h : b.WF) (y i : Nat) : b.byte y i < 256 := by
  unfold Board.byte
  by_cases hy : y < b.field.length
  · rw [List.getD_eq_getElem _ _ hy]
    by_cases hi : i < (b.field[y]).length
    · rw [List.getD_eq_getElem _ _ hi]
      exact (h.2 _ (List.getElem_mem _)).2 _ (List.getElem_mem _)
    · rw [List.getD_eq_default _ _ (Nat.le_of_not_lt hi)]; decide
  · rw [List.getD_eq_default _ _ (Nat.le_of_not_lt hy)]; simp [List.getD]

theorem byte_store {b : Board} (h : b.WF) {y i : Nat} (hy : y < 40) (hi : i < 11)
    (v y' i' : Nat) :
    (b.store y i v).byte y' i' = if y' = y ∧ i' = i then v % 256 else b.byte y' i' := by
  have hl : y < b.field.length := by rw [h.1]; exact hy
  have hr := WF_row_length h hy
  unfold Board.store Board.byte
  by_cases e1 : y' = y
  · subst e1
    by_cases e2 : i' = i
    · subst e2
      have hr' : i' < (b.field[y']).length := by
        rw [List.getD_eq_getElem _ _ hl] at hr; omega
      simp [List.getD_eq_getElem?_getD, List.getElem?_set, hl, hr']
    · have e3 : ¬ i = i' := fun e => e2 e.symm
      simp [List.getD_eq_getElem?_getD, List.getElem?_set, hl, e2, e3]
  · have e3 : ¬ y = y' := fun e => e1 e.symm
    simp [List.getD_eq_getElem?_getD, List.getElem?_set, e1, e3]

theorem store_WF {b : Board} (h : b.WF) (y i v : Nat) : (b.store y i v).WF := by
  by_cases hy : y < b.field.length
  · have hmem : b.field.getD y [] ∈ b.field := by
      rw [List.getD_eq_getElem _ _ hy]; exact List.getElem_mem _
    refine ⟨?_, ?_⟩
    · simp only [Board.store, List.length_set]; exact h.1
    · intro row hrow
      simp only [Board.store] at hrow
      rcases List.mem_or_eq_of_mem_set hrow with hmem' | heq
      · exact h.2 row hmem'
      · subst heq
        refine ⟨?_, ?_⟩
        · rw [List.length_set]; exact (h.2 _ hmem).1
        · intro w hw
          rcases List.mem_or_eq_of_mem_set hw with hw1 | hw2
          · exact (h.2 _ hmem).2 w hw1
          · rw [hw2]; exact Nat.mod_lt _ (by decide)
  · have e : b.store y i v = b := by
      unfold Board.store
      rw [List.set_eq_of_length_le (Nat.le_of_not_lt hy)]
    rw [e]; exact h

/-! ## Cells: `getFieldType` and `setField` -/

theorem getBitIndex_eq {x : Nat} (hx : x < 28) : getBitIndex x = 3 * x := by
  unfold getBitIndex; omega

theorem setField_WF {b : Board} (h : b.WF) (x y c : Nat) : (b.setField x y c).WF := by
  unfold Board.setField
  dsimp only
  split
  · exact store_WF (store_WF (store_WF (store_WF h _ _ _) _ _ _) _ _ _) _ _ _
  · exact store_WF (store_WF h _ _ _) _ _ _

theorem setField_byte {b : Board} (h : b.WF) {x y : Nat} (hx : x < 28) (hy : y < 40)
    (c y' i' : Nat) :
    (b.setField x y c).byte y' i' =
      if y' = y ∧ i' = 3 * x / 8 then
        lowByte (b.byte y (3 * x / 8)) c (3 * x % 8)
      else if y' = y ∧ i' = 3 * x / 8 + 1 ∧ 5 < 3 * x % 8 then
        highByte (b.byte y (3 * x / 8 + 1)) c (3 * x % 8)
      else b.byte y' i' := by
  unfold Board.setField lowByte highByte
  rw [getBitIndex_eq hx]
  have hi : 3 * x / 8 < 11 := by omega
  have w1 := store_WF h y (3 * x / 8)
    (b.byte y (3 * x / 8) &&& bitNot (((1 <<< 3) - 1) <<< (3 * x % 8)))
  by_cases h5 : 5 < 3 * x % 8
  · have hi' : 3 * x / 8 + 1 < 11 := by omega
    simp only [gt_iff_lt, h5, if_true, and_true]
    simp only [byte_store (store_WF (store_WF w1 _ _ _) _ _ _) hy hi',
      byte_store (store_WF w1 _ _ _) hy hi', byte_store w1 hy hi, byte_store h hy hi]
    by_cases h1 : y' = y ∧ i' = 3 * x / 8
    · obtain ⟨rfl, rfl⟩ := h1
      simp
    · by_cases h2 : y' = y ∧ i' = 3 * x / 8 + 1
      · obtain ⟨rfl, rfl⟩ := h2
        simp
      · simp [h1, h2]
  · simp only [gt_iff_lt, h5, if_false, and_false]
    simp only [byte_store w1 hy hi, byte_store h hy hi]
    by_cases h1 : y' = y ∧ i' = 3 * x / 8
    · obtain ⟨rfl, rfl⟩ := h1
      simp
    · simp [h1]

theorem rowBit_setField {b : Board} (h : b.WF) {x y : Nat} (hx : x < 28) (hy : y < 40)
    (c y' i : Nat) :
    (b.setField x y c).rowBit y' i =
      if y' = y ∧ 3 * x ≤ i ∧ i < 3 * x + 3 then c.testBit (i - 3 * x)
      else b.rowBit y' i := by
  unfold Board.rowBit
  rw [setField_byte h hx hy]
  have hi8 : i % 8 < 8 := Nat.mod_lt _ (by decide)
  have ho8 : 3 * x % 8 < 8 := Nat.mod_lt _ (by decide)
  by_cases hyy : y' = y
  · subst hyy
    by_cases h1 : i / 8 = 3 * x / 8
    · rw [if_pos ⟨rfl, h1⟩, lowByte_testBit _ _ _ _ hi8]
      by_cases h2 : 3 * x ≤ i ∧ i < 3 * x + 3
      · have h3 : 3 * x % 8 ≤ i % 8 ∧ i % 8 < 3 * x % 8 + 3 := by omega
        have h4 : i % 8 - 3 * x % 8 = i - 3 * x := by omega
        rw [if_pos h3, if_pos ⟨rfl, h2⟩, h4]
      · have h3 : ¬ (3 * x % 8 ≤ i % 8 ∧ i % 8 < 3 * x % 8 + 3) := by omega
        have h2' : ¬ (y' = y' ∧ 3 * x ≤ i ∧ i < 3 * x + 3) := fun h => h2 h.2
        rw [if_neg h3, if_neg h2', h1]
    · have h1' : ¬ (y' = y' ∧ i / 8 = 3 * x / 8) := fun h => h1 h.2
      rw [if_neg h1']
      by_cases h2 : i / 8 = 3 * x / 8 + 1 ∧ 5 < 3 * x % 8
      · rw [if_pos ⟨rfl, h2⟩, highByte_testBit _ _ _ _ ho8 h2.2 hi8]
        by_cases h3 : 3 * x ≤ i ∧ i < 3 * x + 3
        · have h4 : i % 8 < 3 * x % 8 - 5 := by omega
          have h6 : i % 8 + (8 - 3 * x % 8) = i - 3 * x := by omega
          rw [if_pos h4, if_pos ⟨rfl, h3⟩, h6]
        · have h4 : ¬ i % 8 < 3 * x % 8 - 5 := by omega
          have h3' : ¬ (y' = y' ∧ 3 * x ≤ i ∧ i < 3 * x + 3) := fun h => h3 h.2
          rw [if_neg h4, if_neg h3', h2.1]
      · have h2' : ¬ (y' = y' ∧ i / 8 = 3 * x / 8 + 1 ∧ 5 < 3 * x % 8) := fun h => h2 h.2
        have h3 : ¬ (y' = y' ∧ 3 * x ≤ i ∧ i < 3 * x + 3) := by
          rintro ⟨-, h⟩; omega
        rw [if_neg h2', if_neg h3]
  · have h1 : ¬ (y' = y ∧ i / 8 = 3 * x / 8) := fun h => hyy h.1
    have h2 : ¬ (y' = y ∧ i / 8 = 3 * x / 8 + 1 ∧ 5 < 3 * x % 8) := fun h => hyy h.1
    have h3 : ¬ (y' = y ∧ 3 * x ≤ i ∧ i < 3 * x + 3) := fun h => hyy h.1
    rw [if_neg h1, if_neg h2, if_neg h3]

theorem testBit_getFieldType {b : Board} (h : b.WF) {x : Nat} (hx : x < 28) (y j : Nat) :
    (b.getFieldType x y).testBit j = (decide (j < 3) && b.rowBit y (3 * x + j)) := by
  unfold Board.getFieldType Board.rowBit
  rw [getBitIndex_eq hx]
  have hB0 : b.byte y (3 * x / 8) < 256 := byte_lt h _ _
  by_cases h3 : j < 3
  · by_cases h5 : 5 < 3 * x % 8
    · simp only [gt_iff_lt, h5, if_true, testBit_mod_256, Nat.testBit_or, Nat.testBit_and,
        Nat.testBit_shiftRight, Nat.testBit_shiftLeft, testBit_seven, h3, decide_True,
        Bool.and_true, Bool.true_and, show j < 8 by omega]
      by_cases h8 : 3 * x % 8 + j < 8
      · have e1 : (3 * x + j) / 8 = 3 * x / 8 := by omega
        have e2 : (3 * x + j) % 8 = 3 * x % 8 + j := by omega
        have e3 : ¬ (j ≥ 8 - 3 * x % 8) := by omega
        simp [e1, e2, e3]
      · have e1 : (3 * x + j) / 8 = 3 * x / 8 + 1 := by omega
        have e2 : (3 * x + j) % 8 = j - (8 - 3 * x % 8) := by omega
        have e3 : j ≥ 8 - 3 * x % 8 := by omega
        have e4 : (b.byte y (3 * x / 8)).testBit (3 * x % 8 + j) = false :=
          testBit_byte_high hB0 (by omega)
        simp [e1, e2, e3, e4]
    · have e1 : (3 * x + j) / 8 = 3 * x / 8 := by omega
      have e2 : (3 * x + j) % 8 = 3 * x % 8 + j := by omega
      simp only [gt_iff_lt, h5, if_false, testBit_mod_256, Nat.testBit_and,
        Nat.testBit_shiftRight, testBit_seven, h3, decide_True,
        Bool.and_true, Bool.true_and, show j < 8 by omega, e1, e2]
  · have hj : decide (j < 3) = false := by simp [h3]
    rw [hj, Bool.false_and]
    dsimp only
    split
    · simp [testBit_mod_256, Nat.testBit_or, Nat.testBit_and, testBit_seven, hj]
    · simp [testBit_mod_256, Nat.testBit_and, testBit_seven, hj]

theorem getFieldType_lt_8 {b : Board} (h : b.WF) {x : Nat} (hx : x < 28) (y : Nat) :
    b.getFieldType x y < 8 := by
  apply Nat.lt_of_testBit 3
  · rw [testBit_getFieldType h hx]; simp
  · decide
  · intro j hj
    rw [testBit_getFieldType h hx]
    have : ¬ j < 3 := by omega
    simp [this]
    exact @Nat.testBit_lt_two_pow 8 j (by
      calc 8 < 2 ^ 4 := by decide
        _ ≤ 2 ^ j := Nat.pow_le_pow_right (by decide) (by omega))

theorem getFieldType_setField_same {b : Board} (h : b.WF) {x y : Nat} (hx : x < 28)
    (hy : y < 40) (c : Nat) :
    (b.setField x y c).getFieldType x y = c % 8 := by
  apply Nat.eq_of_testBit_eq
  intro j
  rw [testBit_getFieldType (setField_WF h x y c) hx, rowBit_setField h hx hy]
  have h8 := Nat.testBit_mod_two_pow c 3 j
  simp only [show (2:Nat) ^ 3 = 8 from rfl] at h8
  rw [h8]
  by_cases h3 : j < 3
  · have : y = y ∧ 3 * x ≤ 3 * x + j ∧ 3 * x + j < 3 * x + 3 := ⟨rfl, by omega, by omega⟩
    rw [if_pos this]
    simp [h3]
  · simp [h3]

theorem getFieldType_setField_other {b : Board} (h : b.WF) {x y x' : Nat} (hx : x < 28)
    (hy : y < 40) (hx' : x' < 28) (y' c : Nat) (hne : ¬ (x' = x ∧ y' = y)) :
    (b.setField x y c).getFieldType x' y' = b.getFieldType x' y' := by
  apply Nat.eq_of_testBit_eq
  intro j
  rw [testBit_getFieldType (setField_WF h x y c) hx', testBit_getFieldType h hx',
    rowBit_setField h hx hy]
  by_cases h3 : j < 3
  · have : ¬ (y' = y ∧ 3 * x ≤ 3 * x' + j ∧ 3 * x' + j < 3 * x + 3) := by
      rintro ⟨h1, h2, h4⟩
      exact hne ⟨by omega, h1⟩
    rw [if_neg this]
  · simp [h3]

/-- With `x < 28` and `y < 40` the bytes touched by `getFieldType` and
`setField` are inside the array: `byteIndex < 11`, and `byteIndex + 1 < 11`
for a cell that straddles two bytes. -/
theorem byteIndex_in_range {x : Nat} (hx : x < 28) :
    getBitIndex x / 8 < ROW_BYTES ∧
      (5 < getBitIndex x % 8 → getBitIndex x / 8 + 1 < ROW_BYTES) := by
  rw [getBitIndex_eq hx]
  unfold ROW_BYTES BOARD_WIDTH
  omega

/-! ## C1 and C2: round trip and frame of `setField` -/

/-- C1: for every board, every `x < 28`, `y < 40` and code `c` in `0..7`,
`getFieldType x y` after `setField x y c` returns exactly `c`; this covers
the columns whose 3-bit field straddles two bytes (`x = 2, 5, 10, 13, 18, 21,
26`, which are exactly the columns with `3 * x % 8 > 5`). -/
theorem C1_setField_getFieldType_roundtrip (b : Board) (hb : b.WF) (x y c : Nat)
    (hx : x < BOARD_WIDTH) (hy : y < BOARD_HEIGHT) (hc : c ≤ 7) :
    (b.setField x y c).getFieldType x y = c ∧
      (5 < getBitIndex x % 8 ↔ x ∈ [2, 5, 10, 13, 18, 21, 26]) := by
  refine ⟨?_, ?_⟩
  · rw [getFieldType_setField_same hb hx hy]
    omega
  · rw [getBitIndex_eq hx]
    have key : ∀ n, n < 28 → (5 < 3 * n % 8 ↔ n ∈ [2, 5, 10, 13, 18, 21, 26]) := by
      decide
    exact key x hx

theorem C1_witness :
    Board.empty.WF ∧ 26 < BOARD_WIDTH ∧ 39 < BOARD_HEIGHT ∧ 5 ≤ 7 ∧
      ((Board.empty.setField 26 39 5).getFieldType 26 39 = 5 ∧
        (5 < getBitIndex 26 % 8 ↔ 26 ∈ [2, 5, 10, 13, 18, 21, 26])) :=
  ⟨by decide, by decide, by decide, by decide,
    C1_setField_getFieldType_roundtrip Board.empty (by decide) 26 39 5
      (by decide) (by decide) (by decide)⟩

/-- C2: for every board, every valid `(x, y)` and code `c`, `setField x y c`
leaves `getFieldType x' y'` unchanged for every other valid cell
`(x', y') ≠ (x, y)`: neighbours sharing a byte in the same row as well as all
cells of other rows. -/
theorem C2_setField_frame (b : Board) (hb : b.WF) (x y c x' y' : Nat)
    (hx : x < BOARD_WIDTH) (hy : y < BOARD_HEIGHT)
    (hx' : x' < BOARD_WIDTH) (hy' : y' < BOARD_HEIGHT) (hne : (x', y') ≠ (x, y)) :
    (b.setField x y c).getFieldType x' y' = b.getFieldType x' y' := by
  have _ := hy'
  apply getFieldType_setField_other hb hx hy hx'
  rintro ⟨rfl, rfl⟩
  exact hne rfl

theorem C2_witness :
    Board.empty.WF ∧ 2 < BOARD_WIDTH ∧ 0 < BOARD_HEIGHT ∧ 3 < BOARD_WIDTH ∧
      0 < BOARD_HEIGHT ∧ ((3, 0) : Nat × Nat) ≠ (2, 0) ∧
      (Board.empty.setField 2 0 7).getFieldType 3 0 = Board.empty.getFieldType 3 0 :=
  ⟨by decide, by decide, by decide, by decide, by decide, by decide,
    C2_setField_frame Board.empty (by decide) 2 0 7 3 0
      (by decide) (by decide) (by decide) (by decide) (by decide)⟩

/-! ## Shapes -/

theorem shapeBit_eq_testBit (s : Nat) {i : Nat} (hi : i < 64) :
    shapeBit s i = s.testBit i := by
  unfold shapeBit
  have hp : (1 <<< i) % 2 ^ 64 = 2 ^ i := by
    rw [Nat.one_shiftLeft]
    exact Nat.mod_eq_of_lt (Nat.pow_lt_pow_right (by decide) hi)
  rw [hp, Nat.and_two_pow]
  have h2 : 2 ^ i ≠ 0 := Nat.pos_iff_ne_zero.mp (Nat.two_pow_pos i)
  cases s.testBit i <;> simp [h2]

/-- Every one of the 28 decoded shapes has an occupied bit in one of the
columns `0 .. 3` of its 8x8 frame. -/
theorem shape_has_low_col {k r : Nat} (hk1 : 1 ≤ k) (hk7 : k ≤ 7) (hr : r ≤ 3) :
    ∃ i, i < 64 ∧ (shapeOf k r).testBit i = true ∧ i % 8 ≤ 3 := by
  interval_cases k <;> interval_cases r <;>
    first
      | exact ⟨32, by decide⟩
      | exact ⟨34, by decide⟩
      | exact ⟨18, by decide⟩
      | exact ⟨2, by decide⟩
      | exact ⟨16, by decide⟩
      | exact ⟨50, by decide⟩

/-! ## Collision test -/

theorem collidesAt_true_iff (b : Board) (shape boardX boardY : Nat) {i : Nat} (hi : i < 64) :
    b.collidesAt shape boardX boardY i = true ↔
      shape.testBit i = true ∧
        (28 ≤ (boardX + i % 8) % 256 ∨ 40 ≤ (boardY + i / 8) % 256 ∨
          b.getFieldType ((boardX + i % 8) % 256) ((boardY + i / 8) % 256) ≠ 0) := by
  unfold Board.collidesAt
  rw [shapeBit_eq_testBit _ hi]
  unfold BOARD_WIDTH BOARD_HEIGHT NO_TETRO
  by_cases hs : shape.testBit i = true
  · simp only [hs, if_true, true_and, ge_iff_le]
    by_cases h1 : 28 ≤ (boardX + i % 8) % 256 ∨ 40 ≤ (boardY + i / 8) % 256
    · rw [if_pos h1]
      simp only [true_iff]
      rcases h1 with h1 | h1
      · exact Or.inl h1
      · exact Or.inr (Or.inl h1)
    · rw [if_neg h1]
      push_neg at h1
      by_cases h2 : b.getFieldType ((boardX + i % 8) % 256) ((boardY + i / 8) % 256) = 0
      · simp [h2]; omega
      · simp [h2]
  · simp [hs]

theorem checkCollision_true_iff (b : Board) (t : Tetromino) (tx ty r : Nat) :
    b.checkCollision t tx ty r = true ↔
      ∃ i, i < 64 ∧ (shapeOf t.type r).testBit i = true ∧
        (28 ≤ ((tx + 256 - 3) % 256 + i % 8) % 256 ∨
          40 ≤ ((ty + 256 - 21) % 256 + i / 8) % 256 ∨
          b.getFieldType (((tx + 256 - 3) % 256 + i % 8) % 256)
            (((ty + 256 - 21) % 256 + i / 8) % 256) ≠ 0) := by
  unfold Board.checkCollision
  simp only [List.any_eq_true, List.mem_range]
  unfold BOARD_OFFSET_X BOARD_OFFSET_Y
  constructor
  · rintro ⟨i, hi, hc⟩
    exact ⟨i, hi, (collidesAt_true_iff b _ _ _ hi).1 hc⟩
  · rintro ⟨i, hi, hc⟩
    exact ⟨i, hi, (collidesAt_true_iff b _ _ _ hi).2 hc⟩

/-- C3: for every board, kind `k` in `1..7`, rotation `r` in `0..3` and 8-bit
`targetX`, `targetY`, `checkCollision` returns true if and only if some set
bit `(row, col)` of the decoded shape has its integer cell
`(targetX - 3 + col, targetY - 21 + row)` outside `[0,28) x [0,40)` or
holding a non-empty code.  The cell is computed in the integers, so the
equivalence also covers the positions where the 8-bit subtraction or addition
of the code wraps around. -/
theorem C3_checkCollision_iff (b : Board) (t : Tetromino) (targetX targetY r : Nat)
    (hk1 : 1 ≤ t.type) (hk7 : t.type ≤ 7) (hr : r ≤ 3)
    (hx : targetX < 256) (hy : targetY < 256) :
    b.checkCollision t targetX targetY r = true ↔
      ∃ row col, row < 8 ∧ col < 8 ∧ (shapeOf t.type r).testBit (8 * row + col) = true ∧
        (¬ (0 ≤ (targetX : Int) - 3 + col ∧ (targetX : Int) - 3 + col < 28 ∧
            0 ≤ (targetY : Int) - 21 + row ∧ (targetY : Int) - 21 + row < 40) ∨
          b.getFieldType ((targetX : Int) - 3 + col).toNat
            ((targetY : Int) - 21 + row).toNat ≠ NO_TETRO) := by
  rw [checkCollision_true_iff]
  unfold NO_TETRO
  constructor
  · rintro ⟨i, hi, hs, hc⟩
    refine ⟨i / 8, i % 8, by omega, by omega, ?_, ?_⟩
    · rw [show 8 * (i / 8) + i % 8 = i by omega]; exact hs
    · by_cases hin : 0 ≤ (targetX : Int) - 3 + (i % 8 : Nat) ∧
          (targetX : Int) - 3 + (i % 8 : Nat) < 28 ∧
          0 ≤ (targetY : Int) - 21 + (i / 8 : Nat) ∧ (targetY : Int) - 21 + (i / 8 : Nat) < 40
      · right
        have ex : ((targetX + 256 - 3) % 256 + i % 8) % 256
            = ((targetX : Int) - 3 + (i % 8 : Nat)).toNat := by omega
        have ey : ((targetY + 256 - 21) % 256 + i / 8) % 256
            = ((targetY : Int) - 21 + (i / 8 : Nat)).toNat := by omega
        rw [← ex, ← ey]
        rcases hc with hc | hc | hc
        · omega
        · omega
        · exact hc
      · left; exact hin
  · rintro ⟨row, col, hrow, hcol, hs, hc⟩
    by_cases hwrap : 256 ≤ (targetX : Int) - 3 + col
    · obtain ⟨j, hj, hjs, hjc⟩ := shape_has_low_col hk1 hk7 hr
      exact ⟨j, hj, hjs, Or.inl (by omega)⟩
    · refine ⟨8 * row + col, by omega, hs, ?_⟩
      have e1 : (8 * row + col) % 8 = col := by omega
      have e2 : (8 * row + col) / 8 = row := by omega
      rw [e1, e2]
      by_cases hin : 0 ≤ (targetX : Int) - 3 + col ∧ (targetX : Int) - 3 + col < 28 ∧
          0 ≤ (targetY : Int) - 21 + row ∧ (targetY : Int) - 21 + row < 40
      · have ex : ((targetX + 256 - 3) % 256 + col) % 256
            = ((targetX : Int) - 3 + col).toNat := by omega
        have ey : ((targetY + 256 - 21) % 256 + row) % 256
            = ((targetY : Int) - 21 + row).toNat := by omega
        rcases hc with hc | hc
        · exact absurd hin hc
        · right; right; rw [ex, ey]; exact hc
      · by_cases hxin : 0 ≤ (targetX : Int) - 3 + col ∧ (targetX : Int) - 3 + col < 28
        · right; left; omega
        · left; omega

theorem C3_witness :
    1 ≤ (Tetromino.mk 5 0 0 255 17).type ∧ (Tetromino.mk 5 0 0 255 17).type ≤ 7 ∧
      0 ≤ 3 ∧ 255 < 256 ∧ 27 < 256 ∧
      (Board.empty.checkCollision (Tetromino.mk 5 0 0 255 17) 255 27 0 = true ↔
        ∃ row col, row < 8 ∧ col < 8 ∧
          (shapeOf (Tetromino.mk 5 0 0 255 17).type 0).testBit (8 * row + col) = true ∧
          (¬ (0 ≤ ((255 : Nat) : Int) - 3 + col ∧ ((255 : Nat) : Int) - 3 + col < 28 ∧
              0 ≤ ((27 : Nat) : Int) - 21 + row ∧ ((27 : Nat) : Int) - 21 + row < 40) ∨
            Board.empty.getFieldType (((255 : Nat) : Int) - 3 + col).toNat
              (((27 : Nat) : Int) - 21 + row).toNat ≠ NO_TETRO)) :=
  ⟨by decide, by decide, by decide, by decide, by decide,
    C3_checkCollision_iff Board.empty (Tetromino.mk 5 0 0 255 17) 255 27 0
      (by decide) (by decide) (by decide) (by decide) (by decide)⟩

/-! ## Placement -/

theorem placeAt_WF {b : Board} (h : b.WF) (shape bx bY k i : Nat) :
    (b.placeAt shape bx bY k i).WF := by
  unfold Board.placeAt
  dsimp only
  split
  · split
    · exact setField_WF h _ _ _
    · exact h
  · exact h

theorem placeAt_getFieldType {b : Board} (h : b.WF) (shape bx bY k : Nat) {i : Nat}
    (hi : i < 64) {x : Nat} (hx : x < 28) (y : Nat) :
    (b.placeAt shape bx bY k i).getFieldType x y =
      if shape.testBit i = true ∧ (bx + i % 8) % 256 < 28 ∧ (bY + i / 8) % 256 < 40 ∧
          (bx + i % 8) % 256 = x ∧ (bY + i / 8) % 256 = y then k % 8
      else b.getFieldType x y := by
  unfold Board.placeAt
  rw [shapeBit_eq_testBit _ hi]
  unfold BOARD_WIDTH BOARD_HEIGHT
  dsimp only
  by_cases hs : shape.testBit i = true
  · rw [if_pos hs]
    by_cases hin : (bx + i % 8) % 256 < 28 ∧ (bY + i / 8) % 256 < 40
    · rw [if_pos hin]
      by_cases hxy : (bx + i % 8) % 256 = x ∧ (bY + i / 8) % 256 = y
      · rw [if_pos ⟨hs, hin.1, hin.2, hxy.1, hxy.2⟩]
        obtain ⟨rfl, rfl⟩ := hxy
        exact getFieldType_setField_same h hin.1 hin.2 k
      · rw [if_neg (fun hh => hxy ⟨hh.2.2.2.1, hh.2.2.2.2⟩)]
        exact getFieldType_setField_other h hin.1 hin.2 hx y k
          (fun hh => hxy ⟨hh.1.symm, hh.2.symm⟩)
    · rw [if_neg hin, if_neg (fun hh => hin ⟨hh.2.1, hh.2.2.1⟩)]
  · rw [if_neg hs, if_neg (fun hh => hs hh.1)]

theorem placeFold_spec (shape bx bY k : Nat) (l : List Nat) (hl : ∀ i ∈ l, i < 64) :
    ∀ b : Board, b.WF →
      (l.foldl (fun acc i => acc.placeAt shape bx bY k i) b).WF ∧
      ∀ x, x < 28 → ∀ y,
        (l.foldl (fun acc i => acc.placeAt shape bx bY k i) b).getFieldType x y =
          if ∃ i ∈ l, shape.testBit i = true ∧ (bx + i % 8) % 256 < 28 ∧
              (bY + i / 8) % 256 < 40 ∧ (bx + i % 8) % 256 = x ∧ (bY + i / 8) % 256 = y
          then k % 8 else b.getFieldType x y := by
  induction l with
  | nil =>
    intro b hb
    exact ⟨hb, fun x _ y => by simp⟩
  | cons i l ih =>
    intro b hb
    have hi : i < 64 := hl i (List.mem_cons_self _ _)
    have ih' := ih (fun j hj => hl j (List.mem_cons_of_mem _ hj))
      (b.placeAt shape bx bY k i) (placeAt_WF hb _ _ _ _ _)
    rw [List.foldl_cons]
    refine ⟨ih'.1, fun x hx y => ?_⟩
    rw [ih'.2 x hx y, placeAt_getFieldType hb _ _ _ _ hi hx]
    by_cases h1 : ∃ j ∈ l, shape.testBit j = true ∧ (bx + j % 8) % 256 < 28 ∧
        (bY + j / 8) % 256 < 40 ∧ (bx + j % 8) % 256 = x ∧ (bY + j / 8) % 256 = y
    · have h2 : ∃ j ∈ i :: l, shape.testBit j = true ∧ (bx + j % 8) % 256 < 28 ∧
          (bY + j / 8) % 256 < 40 ∧ (bx + j % 8) % 256 = x ∧ (bY + j / 8) % 256 = y := by
        obtain ⟨j, hj, hh⟩ := h1
        exact ⟨j, List.mem_cons_of_mem _ hj, hh⟩
      rw [if_pos h1, if_pos h2]
    · rw [if_neg h1]
      by_cases h3 : shape.testBit i = true ∧ (bx + i % 8) % 256 < 28 ∧
          (bY + i / 8) % 256 < 40 ∧ (bx + i % 8) % 256 = x ∧ (bY + i / 8) % 256 = y
      · rw [if_pos h3, if_pos ⟨i, List.mem_cons_self _ _, h3⟩]
      · have h2 : ¬ ∃ j ∈ i :: l, shape.testBit j = true ∧ (bx + j % 8) % 256 < 28 ∧
            (bY + j / 8) % 256 < 40 ∧ (bx + j % 8) % 256 = x ∧ (bY + j / 8) % 256 = y := by
          rintro ⟨j, hj, hh⟩
          rcases List.mem_cons.1 hj with rfl | hj'
          · exact h3 hh
          · exact h1 ⟨j, hj', hh⟩
        rw [if_neg h3, if_neg h2]

theorem placeTetromino_WF {b : Board} (h : b.WF) (t : Tetromino) : (b.placeTetromino t).WF :=
  (placeFold_spec _ _ _ _ (List.range 64) (fun _ hi => List.mem_range.1 hi) b h).1

theorem placeTetromino_getFieldType {b : Board} (h : b.WF) (t : Tetromino) {x : Nat}
    (hx : x < 28) (y : Nat) :
    (b.placeTetromino t).getFieldType x y =
      if ∃ i, i < 64 ∧ (shapeOf t.type t.rotation).testBit i = true ∧
          ((t.offsetX + 256 - 3) % 256 + i % 8) % 256 < 28 ∧
          ((t.offsetY + 256 - 21) % 256 + i / 8) % 256 < 40 ∧
          ((t.offsetX + 256 - 3) % 256 + i % 8) % 256 = x ∧
          ((t.offsetY + 256 - 21) % 256 + i / 8) % 256 = y
      then t.type % 8 else b.getFieldType x y := by
  have key := (placeFold_spec (shapeOf t.type t.rotation) ((t.offsetX + 256 - 3) % 256)
    ((t.offsetY + 256 - 21) % 256) t.type (List.range 64)
    (fun _ hi => List.mem_range.1 hi) b h).2 x hx y
  simp only [List.mem_range] at key
  exact key

/-- When `checkCollision` is false, every occupied bit of the shape lies on an
empty cell inside the board, and its 8-bit coordinates are the integer
ones. -/
theorem no_collision_cells {b : Board} {t : Tetromino} {tx ty r : Nat}
    (hk1 : 1 ≤ t.type) (hk7 : t.type ≤ 7) (hr : r ≤ 3) (hx : tx < 256) (hy : ty < 256)
    (hc : b.checkCollision t tx ty r = false) {i : Nat} (hi : i < 64)
    (hs : (shapeOf t.type r).testBit i = true) :
    ((((tx + 256 - 3) % 256 + i % 8) % 256 : Nat) : Int) = (tx : Int) - 3 + (i % 8 : Nat) ∧
      ((((ty + 256 - 21) % 256 + i / 8) % 256 : Nat) : Int) = (ty : Int) - 21 + (i / 8 : Nat) ∧
      ((tx + 256 - 3) % 256 + i % 8) % 256 < 28 ∧
      ((ty + 256 - 21) % 256 + i / 8) % 256 < 40 ∧
      b.getFieldType (((tx + 256 - 3) % 256 + i % 8) % 256)
        (((ty + 256 - 21) % 256 + i / 8) % 256) = 0 := by
  have hno : ∀ j, j < 64 → (shapeOf t.type r).testBit j = true →
      ((tx + 256 - 3) % 256 + j % 8) % 256 < 28 ∧
      ((ty + 256 - 21) % 256 + j / 8) % 256 < 40 ∧
      b.getFieldType (((tx + 256 - 3) % 256 + j % 8) % 256)
        (((ty + 256 - 21) % 256 + j / 8) % 256) = 0 := by
    intro j hj hjs
    have hneg : ¬ (b.checkCollision t tx ty r = true) := by rw [hc]; decide
    rw [checkCollision_true_iff] at hneg
    by_contra hcon
    apply hneg
    refine ⟨j, hj, hjs, ?_⟩
    by_cases h1 : 28 ≤ ((tx + 256 - 3) % 256 + j % 8) % 256
    · exact Or.inl h1
    · by_cases h2 : 40 ≤ ((ty + 256 - 21) % 256 + j / 8) % 256
      · exact Or.inr (Or.inl h2)
      · refine Or.inr (Or.inr ?_)
        intro h3
        exact hcon ⟨by omega, by omega, h3⟩
  obtain ⟨j, hj, hjs, hjc⟩ := shape_has_low_col hk1 hk7 hr
  have hlow := (hno j hj hjs).1
  have hme := hno i hi hs
  refine ⟨by omega, by omega, hme.1, hme.2.1, hme.2.2⟩

/-- C4: for every board and every piece (kind `k` in `1..7`, rotation in
`0..3`, 8-bit offsets `ox`, `oy`) for which `checkCollision` at the piece's own
position and rotation is false: after `placeTetromino` every cell
`(ox - 3 + col, oy - 21 + row)` belonging to a set bit of the shape is a cell
of the board and holds the code `k`, and every other cell of the board holds
the same code as before. -/
theorem C4_placeTetromino_cells (b : Board) (hb : b.WF) (t : Tetromino)
    (hk1 : 1 ≤ t.type) (hk7 : t.type ≤ 7) (hr : t.rotation ≤ 3)
    (hx : t.offsetX < 256) (hy : t.offsetY < 256)
    (hc : b.checkCollision t t.offsetX t.offsetY t.rotation = false) :
    (∀ row col, row < 8 → col < 8 →
        (shapeOf t.type t.rotation).testBit (8 * row + col) = true →
        ∃ x y, x < BOARD_WIDTH ∧ y < BOARD_HEIGHT ∧
          (x : Int) = (t.offsetX : Int) - 3 + col ∧ (y : Int) = (t.offsetY : Int) - 21 + row ∧
          (b.placeTetromino t).getFieldType x y = t.type) ∧
    (∀ x y, x < BOARD_WIDTH → y < BOARD_HEIGHT →
        (¬ ∃ row col, row < 8 ∧ col < 8 ∧
          (shapeOf t.type t.rotation).testBit (8 * row + col) = true ∧
          (x : Int) = (t.offsetX : Int) - 3 + col ∧ (y : Int) = (t.offsetY : Int) - 21 + row) →
        (b.placeTetromino t).getFieldType x y = b.getFieldType x y) := by
  unfold BOARD_WIDTH BOARD_HEIGHT
  refine ⟨?_, ?_⟩
  · intro row col hrow hcol hs
    have hi : 8 * row + col < 64 := by omega
    have hcell := no_collision_cells hk1 hk7 hr hx hy hc hi hs
    have e1 : (8 * row + col) % 8 = col := by omega
    have e2 : (8 * row + col) / 8 = row := by omega
    rw [e1, e2] at hcell
    refine ⟨_, _, hcell.2.2.1, hcell.2.2.2.1, hcell.1, hcell.2.1, ?_⟩
    rw [placeTetromino_getFieldType hb t hcell.2.2.1, if_pos]
    · omega
    · refine ⟨8 * row + col, hi, hs, ?_⟩
      rw [e1, e2]
      exact ⟨hcell.2.2.1, hcell.2.2.2.1, rfl, rfl⟩
  · intro x y hx' _ hnot
    rw [placeTetromino_getFieldType hb t hx', if_neg]
    rintro ⟨i, hi, hs, -, -, h3, h4⟩
    have hcell := no_collision_cells hk1 hk7 hr hx hy hc hi hs
    apply hnot
    refine ⟨i / 8, i % 8, by omega, by omega, ?_, ?_, ?_⟩
    · rw [show 8 * (i / 8) + i % 8 = i by omega]; exact hs
    · rw [← hcell.1, h3]
    · rw [← hcell.2.1, h4]

theorem C4_witness :
    Board.empty.WF ∧ 1 ≤ (Tetromino.mk 3 0 0 13 17).type ∧
      (Tetromino.mk 3 0 0 13 17).type ≤ 7 ∧ (Tetromino.mk 3 0 0 13 17).rotation ≤ 3 ∧
      (Tetromino.mk 3 0 0 13 17).offsetX < 256 ∧ (Tetromino.mk 3 0 0 13 17).offsetY < 256 ∧
      Board.empty.checkCollision (Tetromino.mk 3 0 0 13 17) 13 17 0 = false ∧
      ((∀ row col, row < 8 → col < 8 →
          (shapeOf 3 0).testBit (8 * row + col) = true →
          ∃ x y, x < BOARD_WIDTH ∧ y < BOARD_HEIGHT ∧
            (x : Int) = ((13 : Nat) : Int) - 3 + col ∧ (y : Int) = ((17 : Nat) : Int) - 21 + row ∧
            (Board.empty.placeTetromino (Tetromino.mk 3 0 0 13 17)).getFieldType x y = 3) ∧
      (∀ x y, x < BOARD_WIDTH → y < BOARD_HEIGHT →
          (¬ ∃ row col, row < 8 ∧ col < 8 ∧
            (shapeOf 3 0).testBit (8 * row + col) = true ∧
            (x : Int) = ((13 : Nat) : Int) - 3 + col ∧ (y : Int) = ((17 : Nat) : Int) - 21 + row) →
          (Board.empty.placeTetromino (Tetromino.mk 3 0 0 13 17)).getFieldType x y
            = Board.empty.getFieldType x y)) :=
  ⟨by decide, by decide, by decide, by decide, by decide, by decide, by decide,
    C4_placeTetromino_cells Board.empty (by decide) (Tetromino.mk 3 0 0 13 17)
      (by decide) (by decide) (by decide) (by decide) (by decide) (by decide)⟩

/-! ## Line clearing: the inner loops -/

theorem shiftCell_WF {b : Board} (h : b.WF) (row x : Nat) : (b.shiftCell row x).WF := by
  unfold Board.shiftCell
  exact setField_WF (setField_WF h _ _ _) _ _ _

theorem shiftCell_getFieldType {b : Board} (h : b.WF) {row x : Nat} (hrow : 2 ≤ row)
    (hrow' : row + 1 < 40) (hx : x < 28) {x' : Nat} (hx' : x' < 28) (y' : Nat) :
    (b.shiftCell row x).getFieldType x' y' =
      if x' = x ∧ y' = row then b.getFieldType x (row - 2)
      else if x' = x ∧ y' = row + 1 then b.getFieldType x (row - 1)
      else b.getFieldType x' y' := by
  unfold Board.shiftCell
  dsimp only
  have e1 : (row + 1) % 256 = row + 1 := by omega
  rw [e1]
  have w1 := setField_WF h x row (b.getFieldType x (row - 2))
  have hr : row < 40 := by omega
  have c1 : b.getFieldType x (row - 2) % 8 = b.getFieldType x (row - 2) :=
    Nat.mod_eq_of_lt (getFieldType_lt_8 h hx _)
  have c2 : b.getFieldType x (row - 1) % 8 = b.getFieldType x (row - 1) :=
    Nat.mod_eq_of_lt (getFieldType_lt_8 h hx _)
  have r1 : (b.setField x row (b.getFieldType x (row - 2))).getFieldType x (row - 1)
      = b.getFieldType x (row - 1) :=
    getFieldType_setField_other h hx hr hx _ _ (by omega)
  rw [r1]
  by_cases h2 : x' = x ∧ y' = row + 1
  · obtain ⟨rfl, rfl⟩ := h2
    rw [getFieldType_setField_same w1 hx' hrow', c2, if_neg (by omega), if_pos ⟨rfl, rfl⟩]
  · rw [getFieldType_setField_other w1 hx hrow' hx' _ _ h2, if_neg h2]
    by_cases h1 : x' = x ∧ y' = row
    · obtain ⟨rfl, rfl⟩ := h1
      rw [getFieldType_setField_same h hx' hr, c1, if_pos ⟨rfl, rfl⟩]
    · rw [getFieldType_setField_other h hx hr hx' _ _ h1, if_neg h1]

theorem shiftFold_spec {row : Nat} (hrow : 2 ≤ row) (hrow' : row + 1 < 40) (l : List Nat)
    (hl : ∀ x ∈ l, x < 28) :
    ∀ b : Board, b.WF →
      (l.foldl (fun acc x => acc.shiftCell row x) b).WF ∧
      ∀ x', x' < 28 → ∀ y',
        (l.foldl (fun acc x => acc.shiftCell row x) b).getFieldType x' y' =
          if x' ∈ l ∧ y' = row then b.getFieldType x' (row - 2)
          else if x' ∈ l ∧ y' = row + 1 then b.getFieldType x' (row - 1)
          else b.getFieldType x' y' := by
  induction l with
  | nil =>
    intro b hb
    exact ⟨hb, fun x' _ y' => by simp⟩
  | cons x l ih =>
    intro b hb
    have hx : x < 28 := hl x (List.mem_cons_self _ _)
    have ih' := ih (fun j hj => hl j (List.mem_cons_of_mem _ hj))
      (b.shiftCell row x) (shiftCell_WF hb _ _)
    rw [List.foldl_cons]
    refine ⟨ih'.1, fun x' hx' y' => ?_⟩
    rw [ih'.2 x' hx' y', shiftCell_getFieldType hb hrow hrow' hx hx',
      shiftCell_getFieldType hb hrow hrow' hx hx', shiftCell_getFieldType hb hrow hrow' hx hx']
    have n1 : ¬ (x' = x ∧ row - 2 = row) := by omega
    have n2 : ¬ (x' = x ∧ row - 2 = row + 1) := by omega
    have n3 : ¬ (x' = x ∧ row - 1 = row) := by omega
    have n4 : ¬ (x' = x ∧ row - 1 = row + 1) := by omega
    rw [if_neg n1, if_neg n2, if_neg n3, if_neg n4]
    simp only [List.mem_cons]
    by_cases hxx : x' = x <;> by_cases hm : x' ∈ l <;> by_cases hy1 : y' = row <;>
      by_cases hy2 : y' = row + 1 <;> simp [hxx, hm, hy1, hy2]

theorem shiftRow_spec {b : Board} (h : b.WF) {row : Nat} (hrow : 2 ≤ row)
    (hrow' : row + 1 < 40) :
    (b.shiftRow row).WF ∧
      ∀ x, x < 28 → ∀ y,
        (b.shiftRow row).getFieldType x y =
          if y = row then b.getFieldType x (row - 2)
          else if y = row + 1 then b.getFieldType x (row - 1)
          else b.getFieldType x y := by
  have key := shiftFold_spec hrow hrow' (List.range BOARD_WIDTH)
    (fun x hx => List.mem_range.1 hx) b h
  refine ⟨key.1, fun x hx y => ?_⟩
  have hm : x ∈ List.range BOARD_WIDTH := List.mem_range.2 hx
  unfold Board.shiftRow
  rw [key.2 x hx y]
  simp only [hm, true_and]

theorem shiftLoop_spec : ∀ fuel : Nat, ∀ b : Board, b.WF → ∀ row, row % 2 = 0 →
    row + 1 < 40 → row < 2 * fuel →
    ∃ b', b.shiftLoop fuel row = some b' ∧ b'.WF ∧
      ∀ x, x < 28 → ∀ y,
        b'.getFieldType x y =
          if 2 ≤ y ∧ y ≤ row + 1 then b.getFieldType x (y - 2) else b.getFieldType x y := by
  intro fuel
  induction fuel with
  | zero => intro b _ row _ _ hf; omega
  | succ fuel ih =>
    intro b hb row hev hrow hf
    unfold Board.shiftLoop
    by_cases h1 : row > 1
    · rw [if_pos h1]
      have hrow2 : 2 ≤ row := h1
      have e : (row + 256 - 2) % 256 = row - 2 := by omega
      rw [e]
      have hs := shiftRow_spec hb hrow2 hrow
      obtain ⟨b', hb', hw', hg⟩ := ih (b.shiftRow row) hs.1 (row - 2) (by omega) (by omega)
        (by omega)
      refine ⟨b', hb', hw', fun x hx y => ?_⟩
      rw [hg x hx y]
      by_cases hy : 2 ≤ y ∧ y ≤ row - 2 + 1
      · rw [if_pos hy, if_pos (by omega), hs.2 x hx, if_neg (by omega), if_neg (by omega)]
      · rw [if_neg hy, hs.2 x hx]
        by_cases hy1 : y = row
        · rw [if_pos hy1, if_pos (by omega), hy1]
        · rw [if_neg hy1]
          by_cases hy2 : y = row + 1
          · rw [if_pos hy2, if_pos (by omega), hy2]; rfl
          · rw [if_neg hy2, if_neg (by omega)]
    · rw [if_neg h1]
      refine ⟨b, rfl, hb, fun x _ y => ?_⟩
      rw [if_neg (by omega)]

theorem clearTopFold_spec (l : List Nat) (hl : ∀ x ∈ l, x < 28) :
    ∀ b : Board, b.WF →
      (l.foldl (fun acc x => (acc.setField x 0 NO_TETRO).setField x 1 NO_TETRO) b).WF ∧
      ∀ x', x' < 28 → ∀ y',
        (l.foldl (fun acc x => (acc.setField x 0 NO_TETRO).setField x 1 NO_TETRO)
            b).getFieldType x' y' =
          if x' ∈ l ∧ (y' = 0 ∨ y' = 1) then 0 else b.getFieldType x' y' := by
  induction l with
  | nil =>
    intro b hb
    exact ⟨hb, fun x' _ y' => by simp⟩
  | cons x l ih =>
    intro b hb
    have hx : x < 28 := hl x (List.mem_cons_self _ _)
    have w1 := setField_WF hb x 0 NO_TETRO
    have w2 := setField_WF w1 x 1 NO_TETRO
    have ih' := ih (fun j hj => hl j (List.mem_cons_of_mem _ hj)) _ w2
    rw [List.foldl_cons]
    refine ⟨ih'.1, fun x' hx' y' => ?_⟩
    rw [ih'.2 x' hx' y']
    by_cases hm : x' ∈ l ∧ (y' = 0 ∨ y' = 1)
    · rw [if_pos hm, if_pos ⟨List.mem_cons_of_mem _ hm.1, hm.2⟩]
    · rw [if_neg hm]
      by_cases hxy : x' = x ∧ (y' = 0 ∨ y' = 1)
      · rw [if_pos ⟨by rw [hxy.1]; exact List.mem_cons_self _ _, hxy.2⟩]
        obtain ⟨rfl, hy⟩ := hxy
        rcases hy with rfl | rfl
        · rw [getFieldType_setField_other w1 hx' (by decide) hx' _ _ (by omega),
            getFieldType_setField_same hb hx' (by decide)]
          rfl
        · rw [getFieldType_setField_same w1 hx' (by decide)]
          rfl
      · have hm' : ¬ (x' ∈ x :: l ∧ (y' = 0 ∨ y' = 1)) := by
          rintro ⟨hh, hy⟩
          rcases List.mem_cons.1 hh with e | e
          · exact hxy ⟨e, hy⟩
          · exact hm ⟨e, hy⟩
        rw [if_neg hm',
          getFieldType_setField_other w1 hx (by decide) hx' _ _ (by
            rintro ⟨e1, e2⟩; exact hxy ⟨e1, Or.inr e2⟩),
          getFieldType_setField_other hb hx (by decide) hx' _ _ (by
            rintro ⟨e1, e2⟩; exact hxy ⟨e1, Or.inl e2⟩)]

theorem clearTop_spec {b : Board} (h : b.WF) :
    b.clearTop.WF ∧
      ∀ x, x < 28 → ∀ y,
        b.clearTop.getFieldType x y = if y = 0 ∨ y = 1 then 0 else b.getFieldType x y := by
  have key := clearTopFold_spec (List.range BOARD_WIDTH)
    (fun x hx => List.mem_range.1 hx) b h
  refine ⟨key.1, fun x hx y => ?_⟩
  have hm : x ∈ List.range BOARD_WIDTH := List.mem_range.2 hx
  unfold Board.clearTop
  rw [key.2 x hx y]
  simp only [hm, true_and]

/-! ## Line clearing: display rows -/

theorem storageRow_congr {b1 b2 : Board} {y1 y2 : Nat}
    (h : ∀ x, x < 28 → b1.getFieldType x y1 = b2.getFieldType x y2) :
    b1.storageRow y1 = b2.storageRow y2 := by
  unfold Board.storageRow
  apply List.map_congr_left
  intro x hx
  exact h x (List.mem_range.1 hx)

theorem storageRow_empty {b : Board} {y : Nat}
    (h : ∀ x, x < 28 → b.getFieldType x y = 0) :
    b.storageRow y = List.replicate BOARD_WIDTH NO_TETRO := by
  unfold Board.storageRow
  have e : List.replicate BOARD_WIDTH NO_TETRO
      = (List.range BOARD_WIDTH).map (fun _ => NO_TETRO) := by
    rw [List.map_const', List.length_range]
  rw [e]
  apply List.map_congr_left
  intro x hx
  exact h x (List.mem_range.1 hx)

theorem isFullAt_eq_isFullRow (b : Board) {d : Nat} (hd : d < 20) :
    b.isFullAt (2 * d) = b.isFullRow d := by
  unfold Board.isFullAt Board.isFullRow rowIsFull Board.displayRow Board.storageRow
  have e : (2 * d + 1) % 256 = 2 * d + 1 := by omega
  rw [e, Bool.eq_iff_iff]
  simp only [List.all_eq_true, List.mem_range, Bool.and_eq_true, List.mem_map,
    Bool.not_eq_true', Bool.or_eq_false_iff, bne_iff_ne, ne_eq, beq_eq_false_iff_ne,
    forall_exists_index, and_imp, forall_apply_eq_imp_iff₂]
  constructor
  · intro h
    exact ⟨fun x hx => (h x hx).1, fun x hx => (h x hx).2⟩
  · intro h x hx
    exact ⟨h.1 x hx, h.2 x hx⟩

theorem emptyDisplayRow_not_full : rowIsFull emptyDisplayRow = false := by decide

theorem fullCount_succ (b : Board) (m : Nat) :
    b.fullCount (m + 1) = b.fullCount m + if b.isFullRow m = true then 1 else 0 := by
  unfold Board.fullCount
  rw [List.range_succ, List.filter_append, List.length_append]
  by_cases h : b.isFullRow m = true
  · simp [List.filter_cons, h]
  · simp [List.filter_cons, h]

theorem keptRows_succ (b : Board) (m : Nat) :
    b.keptRows (m + 1) =
      if b.isFullRow m = true then b.keptRows m else b.keptRows m ++ [m] := by
  unfold Board.keptRows
  rw [List.range_succ, List.filter_append]
  by_cases h : b.isFullRow m = true
  · simp [List.filter_cons, h]
  · simp [List.filter_cons, h]

theorem fullCount_add_keptRows (b : Board) (m : Nat) :
    b.fullCount m + (b.keptRows m).length = m := by
  induction m with
  | zero => simp [Board.fullCount, Board.keptRows]
  | succ m ih =>
    rw [fullCount_succ, keptRows_succ]
    by_cases h : b.isFullRow m = true
    · rw [if_pos h, if_pos h]; omega
    · rw [if_neg h, if_neg h, List.length_append, List.length_singleton]; omega

theorem keptRows_getD_not_full (b : Board) (m : Nat) {j : Nat}
    (hj : j < (b.keptRows m).length) :
    b.isFullRow ((b.keptRows m).getD j 0) = false := by
  rw [List.getD_eq_getElem _ _ hj]
  have hmem : (b.keptRows m)[j] ∈ b.keptRows m := List.getElem_mem _
  unfold Board.keptRows at hmem
  have := (List.mem_filter.1 hmem).2
  simpa using this

/-- The effect of one removal (shift loop followed by the emptying of the top
row pair) on the display rows. -/
theorem clearAt_spec {B : Board} (h : B.WF) {d : Nat} (hd : d < 20) :
    ∃ B1, B.shiftLoop SHIFT_FUEL (2 * d) = some B1 ∧ B1.clearTop.WF ∧
      ∀ i, B1.clearTop.displayRow i =
        if i = 0 then emptyDisplayRow
        else if i ≤ d then B.displayRow (i - 1) else B.displayRow i := by
  obtain ⟨B1, hB1, hw1, hg1⟩ := shiftLoop_spec SHIFT_FUEL B h (2 * d) (by omega) (by omega)
    (by unfold SHIFT_FUEL BOARD_HEIGHT; omega)
  have hct := clearTop_spec hw1
  refine ⟨B1, hB1, hct.1, fun i => ?_⟩
  unfold Board.displayRow emptyDisplayRow
  by_cases hi0 : i = 0
  · subst hi0
    rw [if_pos rfl]
    have e1 : B1.clearTop.storageRow (2 * 0) = List.replicate BOARD_WIDTH NO_TETRO :=
      storageRow_empty (fun x hx => by rw [hct.2 x hx, if_pos (by omega)])
    have e2 : B1.clearTop.storageRow (2 * 0 + 1) = List.replicate BOARD_WIDTH NO_TETRO :=
      storageRow_empty (fun x hx => by rw [hct.2 x hx, if_pos (by omega)])
    rw [e1, e2]
  · rw [if_neg hi0]
    by_cases hid : i ≤ d
    · rw [if_pos hid]
      have e1 : B1.clearTop.storageRow (2 * i) = B.storageRow (2 * (i - 1)) :=
        storageRow_congr (fun x hx => by
          rw [hct.2 x hx, if_neg (by omega), hg1 x hx, if_pos (by omega),
            show 2 * i - 2 = 2 * (i - 1) by omega])
      have e2 : B1.clearTop.storageRow (2 * i + 1) = B.storageRow (2 * (i - 1) + 1) :=
        storageRow_congr (fun x hx => by
          rw [hct.2 x hx, if_neg (by omega), hg1 x hx, if_pos (by omega),
            show 2 * i + 1 - 2 = 2 * (i - 1) + 1 by omega])
      rw [e1, e2]
    · rw [if_neg hid]
      have e1 : B1.clearTop.storageRow (2 * i) = B.storageRow (2 * i) :=
        storageRow_congr (fun x hx => by
          rw [hct.2 x hx, if_neg (by omega), hg1 x hx, if_neg (by omega)])
      have e2 : B1.clearTop.storageRow (2 * i + 1) = B.storageRow (2 * i + 1) :=
        storageRow_congr (fun x hx => by
          rw [hct.2 x hx, if_neg (by omega), hg1 x hx, if_neg (by omega)])
      rw [e1, e2]

/-! ## Line clearing: the outer loop -/

theorem fullCount_le (b : Board) (m : Nat) : b.fullCount m ≤ m := by
  have := fullCount_add_keptRows b m
  omega

theorem clearInv_init {b : Board} (h : b.WF) : ClearInv b 0 b := by
  refine ⟨h, fun i _ => ?_⟩
  have e : b.fullCount 0 = 0 := by simp [Board.fullCount]
  rw [e, if_neg (by omega), if_neg (by omega)]

theorem clearInv_not_full {b0 B : Board} {m : Nat} (h : ClearInv b0 m B) (hm : m ≤ 20)
    {i : Nat} (hi : i < m) : B.isFullRow i = false := by
  have hlen := fullCount_add_keptRows b0 m
  unfold Board.isFullRow
  rw [h.2 i (by omega)]
  by_cases hc : i < b0.fullCount m
  · rw [if_pos hc]; exact emptyDisplayRow_not_full
  · rw [if_neg hc, if_pos hi]
    exact keptRows_getD_not_full b0 m (by omega)

theorem clearInv_row_at {b0 B : Board} {d : Nat} (h : ClearInv b0 d B) (hd : d < 20) :
    B.displayRow d = b0.displayRow d := by
  have hc := fullCount_le b0 d
  rw [h.2 d hd, if_neg (by omega), if_neg (by omega)]

theorem clearInv_keep {b0 B : Board} {d : Nat} (h : ClearInv b0 d B) (hd : d < 20)
    (hf : B.isFullRow d = false) : ClearInv b0 (d + 1) B := by
  have hlen := fullCount_add_keptRows b0 d
  have hf0 : ¬ b0.isFullRow d = true := by
    have e : b0.isFullRow d = B.isFullRow d := by
      unfold Board.isFullRow; rw [clearInv_row_at h hd]
    rw [e, hf]; decide
  refine ⟨h.1, fun i hi => ?_⟩
  rw [fullCount_succ, keptRows_succ, if_neg hf0, if_neg hf0, Nat.add_zero, h.2 i hi]
  by_cases hc : i < b0.fullCount d
  · rw [if_pos hc, if_pos hc]
  · rw [if_neg hc, if_neg hc]
    by_cases hid : i < d
    · rw [if_pos hid, if_pos (by omega), List.getD_append _ _ _ _ (by omega)]
    · rw [if_neg hid]
      by_cases hid' : i < d + 1
      · have e : i = d := by omega
        subst e
        rw [if_pos hid', List.getD_append_right _ _ _ _ (by omega)]
        have e2 : i - b0.fullCount i - (b0.keptRows i).length = 0 := by omega
        rw [e2]
        rfl
      · rw [if_neg hid']

theorem clearInv_clear {b0 B B2 : Board} {d : Nat} (h : ClearInv b0 d B) (hd : d < 20)
    (hf : B.isFullRow d = true) (hw : B2.WF)
    (hrows : ∀ i, B2.displayRow i =
      if i = 0 then emptyDisplayRow
      else if i ≤ d then B.displayRow (i - 1) else B.displayRow i) :
    ClearInv b0 (d + 1) B2 := by
  have hlen := fullCount_add_keptRows b0 d
  have hf0 : b0.isFullRow d = true := by
    have e : b0.isFullRow d = B.isFullRow d := by
      unfold Board.isFullRow; rw [clearInv_row_at h hd]
    rw [e, hf]
  refine ⟨hw, fun i hi => ?_⟩
  rw [fullCount_succ, keptRows_succ, if_pos hf0, if_pos hf0, hrows i]
  by_cases hi0 : i = 0
  · rw [if_pos hi0, if_pos (by omega)]
  · rw [if_neg hi0]
    by_cases hid : i ≤ d
    · rw [if_pos hid, h.2 (i - 1) (by omega)]
      by_cases hc : i - 1 < b0.fullCount d
      · rw [if_pos hc, if_pos (by omega)]
      · rw [if_neg hc, if_pos (show i - 1 < d by omega),
          if_neg (show ¬ i < b0.fullCount d + 1 by omega), if_pos (show i < d + 1 by omega),
          show i - 1 - b0.fullCount d = i - (b0.fullCount d + 1) by omega]
    · rw [if_neg hid, h.2 i hi, if_neg (show ¬ i < b0.fullCount d by omega),
        if_neg (show ¬ i < d by omega), if_neg (show ¬ i < b0.fullCount d + 1 by omega),
        if_neg (show ¬ i < d + 1 by omega)]

theorem clearLoop_spec (b0 : Board) : ∀ n d, d + n = 20 → ∀ fuel, 2 * n + 1 ≤ fuel →
    ∀ B, ClearInv b0 d B →
    ∃ B', B.clearLoop fuel (2 * d) (b0.fullCount d) = some (B', b0.fullCount 20) ∧
      ClearInv b0 20 B' := by
  intro n
  induction n with
  | zero =>
    intro d hd fuel hfuel B hinv
    have e : d = 20 := by omega
    subst e
    obtain ⟨f, rfl⟩ : ∃ f, fuel = f + 1 := ⟨fuel - 1, by omega⟩
    refine ⟨B, ?_, hinv⟩
    unfold Board.clearLoop
    rw [if_neg (by unfold BOARD_HEIGHT; omega)]
  | succ n ih =>
    intro d hd fuel hfuel B hinv
    have hd20 : d < 20 := by omega
    obtain ⟨f, rfl⟩ : ∃ f, fuel = f + 1 := ⟨fuel - 1, by omega⟩
    unfold Board.clearLoop
    rw [if_pos (by unfold BOARD_HEIGHT; omega), isFullAt_eq_isFullRow B hd20]
    by_cases hfull : B.isFullRow d = true
    · rw [if_pos hfull]
      obtain ⟨B1, hB1, hw2, hrows⟩ := clearAt_spec hinv.1 hd20
      rw [hB1]
      dsimp only
      have hinv2 := clearInv_clear hinv hd20 hfull hw2 hrows
      have hf0 : b0.isFullRow d = true := by
        have e : b0.isFullRow d = B.isFullRow d := by
          unfold Board.isFullRow; rw [clearInv_row_at hinv hd20]
        rw [e, hfull]
      have hcnt : (b0.fullCount d + 1) % 256 = b0.fullCount (d + 1) := by
        have := fullCount_le b0 d
        rw [fullCount_succ, if_pos hf0]
        omega
      have hy : ((2 * d + 256 - 2) % 256 + 2) % 256 = 2 * d := by omega
      rw [hcnt, hy]
      obtain ⟨f', rfl⟩ : ∃ f', f = f' + 1 := ⟨f - 1, by omega⟩
      unfold Board.clearLoop
      rw [if_pos (by unfold BOARD_HEIGHT; omega), isFullAt_eq_isFullRow _ hd20,
        clearInv_not_full hinv2 (by omega) (Nat.lt_succ_self d)]
      rw [if_neg (by decide), show (2 * d + 2) % 256 = 2 * (d + 1) by omega]
      exact ih (d + 1) (by omega) f' (by omega) _ hinv2
    · have hfalse : B.isFullRow d = false := by
        cases hb : B.isFullRow d
        · rfl
        · exact absurd hb hfull
      rw [if_neg hfull, show (2 * d + 2) % 256 = 2 * (d + 1) by omega]
      have hinv2 := clearInv_keep hinv hd20 hfalse
      have hf0 : ¬ b0.isFullRow d = true := by
        have e : b0.isFullRow d = B.isFullRow d := by
          unfold Board.isFullRow; rw [clearInv_row_at hinv hd20]
        rw [e, hfalse]; decide
      have hcnt : b0.fullCount d = b0.fullCount (d + 1) := by
        rw [fullCount_succ, if_neg hf0]
        rfl
      rw [hcnt]
      exact ih (d + 1) (by omega) f (by omega) _ hinv2

/-- The result of `clearFullLines` in terms of the display rows of the
input: the loop ends within its fuel, returns the number of full rows, and
leaves the kept rows under as many empty ones. -/
theorem clearFullLines_spec {b : Board} (h : b.WF) :
    ∃ b', b.clearFullLines = some (b', b.fullCount 20) ∧ b'.WF ∧
      ∀ i, i < 20 →
        b'.displayRow i =
          if i < b.fullCount 20 then emptyDisplayRow
          else b.displayRow ((b.keptRows 20).getD (i - b.fullCount 20) 0) := by
  have key := clearLoop_spec b 20 0 (by omega) CLEAR_FUEL
    (by unfold CLEAR_FUEL BOARD_HEIGHT; omega) b (clearInv_init h)
  obtain ⟨b', hb', hinv⟩ := key
  have e0 : b.fullCount 0 = 0 := by simp [Board.fullCount]
  rw [e0] at hb'
  refine ⟨b', hb', hinv.1, fun i hi => ?_⟩
  rw [hinv.2 i hi]
  by_cases hc : i < b.fullCount 20
  · rw [if_pos hc, if_pos hc]
  · rw [if_neg hc, if_neg hc, if_pos hi]

/-- More fuel does not change the result of the outer loop. -/
theorem clearLoop_fuel_mono : ∀ fuel, ∀ (B : Board) (y c : Nat) (r : Board × Nat),
    B.clearLoop fuel y c = some r → B.clearLoop (fuel + 1) y c = some r := by
  intro fuel
  induction fuel with
  | zero => intro B y c r h; simp [Board.clearLoop] at h
  | succ fuel ih =>
    intro B y c r h
    unfold Board.clearLoop at h ⊢
    by_cases hy : y < BOARD_HEIGHT
    · rw [if_pos hy] at h ⊢
      by_cases hf : B.isFullAt y = true
      · rw [if_pos hf] at h ⊢
        cases hs : B.shiftLoop SHIFT_FUEL y with
        | none => rw [hs] at h; simp at h
        | some B1 =>
          rw [hs] at h
          dsimp only at h ⊢
          exact ih _ _ _ _ h
      · rw [if_neg hf] at h ⊢
        exact ih _ _ _ _ h
    · rw [if_neg hy] at h ⊢
      exact h

/-! ## C5: the result of `clearFullLines` -/

theorem displayRows_filter_full (b : Board) :
    (b.displayRows.filter fun r => rowIsFull r).length = b.fullCount 20 := by
  unfold Board.displayRows Board.fullCount DISPLAY_ROWS BOARD_HEIGHT
  rw [List.filter_map, List.length_map]
  rfl

theorem displayRows_filter_not_full (b : Board) :
    (b.displayRows.filter fun r => !rowIsFull r) = (b.keptRows 20).map b.displayRow := by
  unfold Board.displayRows Board.keptRows DISPLAY_ROWS BOARD_HEIGHT
  rw [List.filter_map]
  rfl

theorem displayRows_eq_of_rows {b b' : Board}
    (h : ∀ i, i < 20 →
      b'.displayRow i =
        if i < b.fullCount 20 then emptyDisplayRow
        else b.displayRow ((b.keptRows 20).getD (i - b.fullCount 20) 0)) :
    b'.displayRows =
      List.replicate (b.fullCount 20) emptyDisplayRow ++ (b.keptRows 20).map b.displayRow := by
  have hlen := fullCount_add_keptRows b 20
  apply List.ext_getElem
  · simp only [Board.displayRows, DISPLAY_ROWS, BOARD_HEIGHT, List.length_map,
      List.length_range, List.length_append, List.length_replicate]
    omega
  · intro i h1 h2
    have hi : i < 20 := by
      simpa [Board.displayRows, DISPLAY_ROWS, BOARD_HEIGHT] using h1
    have e1 : b'.displayRows[i] = b'.displayRow i := by
      simp [Board.displayRows]
    rw [e1, h i hi]
    by_cases hc : i < b.fullCount 20
    · rw [if_pos hc, List.getElem_append_left (by simpa using hc), List.getElem_replicate]
    · rw [if_neg hc, List.getElem_append_right (by simpa using hc), List.getElem_map]
      simp only [List.length_replicate]
      rw [List.getD_eq_getElem _ _ (by omega)]

/-- C5: for every board, `clearFullLines` returns the number `n` of display
rows of the input board that are full (both storage rows `2 * d` and
`2 * d + 1` have all 28 columns non-empty), and the resulting board consists
of `n` completely empty display rows on top followed by the non-full display
rows of the input in their original relative order, each with its cells
unchanged. -/
theorem C5_clearFullLines_result (b : Board) (hb : b.WF) :
    ∃ b' n, b.clearFullLines = some (b', n) ∧
      n = (b.displayRows.filter fun r => rowIsFull r).length ∧
      b'.displayRows =
        List.replicate n emptyDisplayRow ++ b.displayRows.filter fun r => !rowIsFull r := by
  obtain ⟨b', hres, _, hrows⟩ := clearFullLines_spec hb
  refine ⟨b', b.fullCount 20, hres, (displayRows_filter_full b).symm, ?_⟩
  rw [displayRows_filter_not_full]
  exact displayRows_eq_of_rows hrows

theorem C5_witness :
    bottomRowFull.WF ∧
    ∃ b' n, bottomRowFull.clearFullLines = some (b', n) ∧
      n = (bottomRowFull.displayRows.filter fun r => rowIsFull r).length ∧
      b'.displayRows =
        List.replicate n emptyDisplayRow ++
          bottomRowFull.displayRows.filter fun r => !rowIsFull r :=
  ⟨by decide, C5_clearFullLines_result bottomRowFull (by decide)⟩

/-! ## C6 and C7: one block of adjacent full rows -/

theorem range_split {d k : Nat} (hdk : d + k ≤ 20) :
    List.range 20
      = List.range' 0 d ++ (List.range' d k ++ List.range' (d + k) (20 - (d + k))) := by
  have e1 : List.range' d k ++ List.range' (d + k) (20 - (d + k)) = List.range' d (20 - d) := by
    rw [List.range'_append_1]; congr 1; omega
  have e2 : List.range' 0 d ++ List.range' d (20 - d) = List.range' 0 20 := by
    have h := List.range'_append_1 0 d (20 - d)
    rw [Nat.zero_add] at h
    rw [h]; congr 1; omega
  rw [List.range_eq_range', e1, e2]

theorem keptRows_block (b : Board) {d k : Nat} (hdk : d + k ≤ 20)
    (hfull : ∀ i, i < 20 → (b.isFullRow i = true ↔ d ≤ i ∧ i < d + k)) :
    b.keptRows 20 = List.range' 0 d ++ List.range' (d + k) (20 - (d + k)) := by
  unfold Board.keptRows
  rw [range_split hdk, List.filter_append, List.filter_append]
  have h1 : (List.range' 0 d).filter (fun i => !b.isFullRow i) = List.range' 0 d := by
    rw [List.filter_eq_self]
    intro a ha
    rw [List.mem_range'_1] at ha
    have := hfull a (by omega)
    cases hb : b.isFullRow a
    · rfl
    · have := this.1 hb; omega
  have h2 : (List.range' d k).filter (fun i => !b.isFullRow i) = [] := by
    rw [List.filter_eq_nil_iff]
    intro a ha
    rw [List.mem_range'_1] at ha
    have := (hfull a (by omega)).2 ⟨ha.1, ha.2⟩
    simp [this]
  have h3 : (List.range' (d + k) (20 - (d + k))).filter (fun i => !b.isFullRow i)
      = List.range' (d + k) (20 - (d + k)) := by
    rw [List.filter_eq_self]
    intro a ha
    rw [List.mem_range'_1] at ha
    have := hfull a (by omega)
    cases hb : b.isFullRow a
    · rfl
    · have := this.1 hb; omega
  rw [h1, h2, h3, List.nil_append]

/-- The result of `clearFullLines` when the full display rows are exactly
the `k` adjacent rows `d, .., d + k - 1`. -/
theorem clear_block_spec {b : Board} (hb : b.WF) {d k : Nat} (hdk : d + k ≤ 20)
    (hfull : ∀ i, i < 20 → (b.isFullRow i = true ↔ d ≤ i ∧ i < d + k)) :
    ∃ b', b.clearFullLines = some (b', k) ∧ b'.WF ∧
      (∀ i, i < 20 →
        b'.displayRow i =
          if i < k then emptyDisplayRow
          else if i < d + k then b.displayRow (i - k) else b.displayRow i) ∧
      b'.displayRows =
        List.replicate k emptyDisplayRow ++
          (b.displayRows.take d ++ b.displayRows.drop (d + k)) := by
  obtain ⟨b', hres, hw, hrows⟩ := clearFullLines_spec hb
  have hK := keptRows_block b hdk hfull
  have hlen := fullCount_add_keptRows b 20
  have hc : b.fullCount 20 = k := by
    rw [hK, List.length_append, List.length_range', List.length_range'] at hlen
    omega
  have hlist := displayRows_eq_of_rows hrows
  rw [hc] at hres hrows hlist
  refine ⟨b', hres, hw, fun i hi => ?_, ?_⟩
  rotate_left
  · rw [hlist, hK, List.map_append]
    have t1 : b.displayRows.take d = (List.range' 0 d).map b.displayRow := by
      unfold Board.displayRows DISPLAY_ROWS BOARD_HEIGHT
      rw [show 40 / 2 = 20 from rfl, ← List.map_take, range_split hdk,
        List.take_left' (List.length_range' _ _ _)]
    have t2 : b.displayRows.drop (d + k)
        = (List.range' (d + k) (20 - (d + k))).map b.displayRow := by
      unfold Board.displayRows DISPLAY_ROWS BOARD_HEIGHT
      rw [show 40 / 2 = 20 from rfl, ← List.map_drop, range_split hdk, ← List.append_assoc,
        List.drop_left' (by
          rw [List.length_append, List.length_range', List.length_range'])]
    rw [t1, t2]
  rw [hrows i hi, hK]
  by_cases h1 : i < k
  · rw [if_pos h1, if_pos h1]
  · rw [if_neg h1, if_neg h1]
    by_cases h2 : i < d + k
    · rw [if_pos h2, List.getD_append _ _ _ _ (by rw [List.length_range']; omega),
        List.getD_eq_getElem _ _ (by rw [List.length_range']; omega), List.getElem_range'_1]
      congr 1; omega
    · rw [if_neg h2, List.getD_append_right _ _ _ _ (by rw [List.length_range']; omega),
        List.getD_eq_getElem _ _ (by
          rw [List.length_range', List.length_range']; omega), List.getElem_range'_1]
      congr 1
      rw [List.length_range']
      omega

/-- C6: for every board in which exactly one display row `d` is full,
`clearFullLines` returns 1 and afterwards display row 0 is entirely empty,
each display row `i` with `1 ≤ i ≤ d` equals the input's display row `i - 1`,
and every display row below `d` is unchanged. -/
theorem C6_clear_single_row (b : Board) (hb : b.WF) (d : Nat) (hd : d < DISPLAY_ROWS)
    (hfull : ∀ i, i < DISPLAY_ROWS → (b.isFullRow i = true ↔ i = d)) :
    ∃ b', b.clearFullLines = some (b', 1) ∧
      b'.displayRow 0 = emptyDisplayRow ∧
      (∀ i, 1 ≤ i → i ≤ d → b'.displayRow i = b.displayRow (i - 1)) ∧
      (∀ i, d < i → i < DISPLAY_ROWS → b'.displayRow i = b.displayRow i) := by
  unfold DISPLAY_ROWS BOARD_HEIGHT at hd hfull ⊢
  have hd' : d < 20 := hd
  obtain ⟨b', hres, _, hrows, _⟩ := clear_block_spec hb (show d + 1 ≤ 20 by omega)
    (fun i hi => by rw [hfull i hi]; omega)
  refine ⟨b', hres, ?_, ?_, ?_⟩
  · rw [hrows 0 (by omega), if_pos (by omega)]
  · intro i h1 h2
    rw [hrows i (by omega), if_neg (by omega), if_pos (by omega)]
  · intro i h1 h2
    rw [hrows i h2, if_neg (by omega), if_neg (by omega)]

theorem C6_witness :
    bottomRowFull.WF ∧ 19 < DISPLAY_ROWS ∧
      (∀ i, i < DISPLAY_ROWS → (bottomRowFull.isFullRow i = true ↔ i = 19)) ∧
      ∃ b', bottomRowFull.clearFullLines = some (b', 1) ∧
        b'.displayRow 0 = emptyDisplayRow ∧
        (∀ i, 1 ≤ i → i ≤ 19 → b'.displayRow i = bottomRowFull.displayRow (i - 1)) ∧
        (∀ i, 19 < i → i < DISPLAY_ROWS → b'.displayRow i = bottomRowFull.displayRow i) :=
  ⟨by decide, by decide, by decide,
    C6_clear_single_row bottomRowFull (by decide) 19 (by decide) (by decide)⟩

/-- C7: for every board whose full display rows are exactly the `k` adjacent
rows `d, .., d + k - 1` (two adjacent rows for `k = 2`, every row of the board
for `d = 0`, `k = 20`), `clearFullLines` returns `k` and the resulting board is
the input with all `k` rows deleted at once: the top `k` display rows are
empty, the rows that were above the block are shifted down by `k` display
rows, and the rows below the block are unchanged. -/
theorem C7_clear_adjacent_rows (b : Board) (hb : b.WF) (d k : Nat) (hk : 1 ≤ k)
    (hdk : d + k ≤ DISPLAY_ROWS)
    (hfull : ∀ i, i < DISPLAY_ROWS → (b.isFullRow i = true ↔ d ≤ i ∧ i < d + k)) :
    ∃ b', b.clearFullLines = some (b', k) ∧
      (∀ i, i < k → b'.displayRow i = emptyDisplayRow) ∧
      (∀ i, k ≤ i → i < d + k → b'.displayRow i = b.displayRow (i - k)) ∧
      (∀ i, d + k ≤ i → i < DISPLAY_ROWS → b'.displayRow i = b.displayRow i) ∧
      b'.displayRows =
        List.replicate k emptyDisplayRow ++
          (b.displayRows.take d ++ b.displayRows.drop (d + k)) := by
  have _ := hk
  unfold DISPLAY_ROWS BOARD_HEIGHT at hdk hfull ⊢
  have hdk' : d + k ≤ 20 := hdk
  obtain ⟨b', hres, _, hrows, hlist⟩ := clear_block_spec hb hdk' hfull
  refine ⟨b', hres, ?_, ?_, ?_, ?_⟩
  · intro i h1
    rw [hrows i (by omega), if_pos h1]
  · intro i h1 h2
    rw [hrows i (by omega), if_neg (by omega), if_pos h2]
  · intro i h1 h2
    rw [hrows i h2, if_neg (by omega), if_neg (by omega)]
  · exact hlist

theorem C7_witness :
    bottomTwoRowsFull.WF ∧ 1 ≤ 2 ∧ 18 + 2 ≤ DISPLAY_ROWS ∧
      (∀ i, i < DISPLAY_ROWS →
        (bottomTwoRowsFull.isFullRow i = true ↔ 18 ≤ i ∧ i < 18 + 2)) ∧
      ∃ b', bottomTwoRowsFull.clearFullLines = some (b', 2) ∧
        (∀ i, i < 2 → b'.displayRow i = emptyDisplayRow) ∧
        (∀ i, 2 ≤ i → i < 18 + 2 → b'.displayRow i = bottomTwoRowsFull.displayRow (i - 2)) ∧
        (∀ i, 18 + 2 ≤ i → i < DISPLAY_ROWS →
          b'.displayRow i = bottomTwoRowsFull.displayRow i) ∧
        b'.displayRows =
          List.replicate 2 emptyDisplayRow ++
            (bottomTwoRowsFull.displayRows.take 18 ++ bottomTwoRowsFull.displayRows.drop (18 + 2)) :=
  ⟨by decide, by decide, by decide, by decide,
    C7_clear_adjacent_rows bottomTwoRowsFull (by decide) 18 2 (by decide) (by decide)
      (by decide)⟩

/-! ## C8: at most four rows are cleared after a placement -/

theorem placeTetromino_row_untouched {b : Board} (h : b.WF) (t : Tetromino) {y : Nat}
    (hy : ∀ i, i < 64 → (shapeOf t.type t.rotation).testBit i = true →
      ((t.offsetY + 256 - 21) % 256 + i / 8) % 256 ≠ y) :
    (b.placeTetromino t).storageRow y = b.storageRow y := by
  apply storageRow_congr
  intro x hx
  rw [placeTetromino_getFieldType h t hx, if_neg]
  rintro ⟨i, hi, hs, -, -, -, h4⟩
  exact hy i hi hs h4

theorem window_count (lo : Nat) :
    ((List.range 20).filter fun i => decide (lo ≤ i ∧ i < lo + 4)).length ≤ 4 := by
  by_cases h : lo < 20
  · interval_cases lo <;> decide
  · have e : ((List.range 20).filter fun i => decide (lo ≤ i ∧ i < lo + 4)) = [] := by
      rw [List.filter_eq_nil_iff]
      intro a ha
      rw [List.mem_range] at ha
      simp only [decide_eq_true_eq]
      omega
    rw [e]
    exact Nat.zero_le _

/-- C8: for every board that has no full display row and every piece at a
non-colliding position whose board-relative Y (`offsetY - 21`) is even,
`placeTetromino` followed by `clearFullLines` returns a count between 0 and
4. -/
theorem C8_clear_after_place_le_four (b : Board) (hb : b.WF) (t : Tetromino)
    (hnofull : ∀ i, i < DISPLAY_ROWS → b.isFullRow i = false)
    (hk1 : 1 ≤ t.type) (hk7 : t.type ≤ 7) (hr : t.rotation ≤ 3)
    (hx : t.offsetX < 256) (hy : t.offsetY < 256)
    (hc : b.checkCollision t t.offsetX t.offsetY t.rotation = false)
    (heven : ((t.offsetY : Int) - 21) % 2 = 0) :
    ∃ b' n, (b.placeTetromino t).clearFullLines = some (b', n) ∧ 0 ≤ n ∧ n ≤ 4 := by
  unfold DISPLAY_ROWS BOARD_HEIGHT at hnofull
  have hw := placeTetromino_WF hb t
  obtain ⟨b', hres, _, _⟩ := clearFullLines_spec hw
  refine ⟨b', _, hres, Nat.zero_le _, ?_⟩
  have htouch : ∀ d, d < 20 → (b.placeTetromino t).isFullRow d = true →
      (((t.offsetY : Int) - 21) / 2).toNat ≤ d ∧
        d < (((t.offsetY : Int) - 21) / 2).toNat + 4 := by
    intro d hd hfull
    by_contra hout
    have hun : ∀ y, (y = 2 * d ∨ y = 2 * d + 1) → ∀ i, i < 64 →
        (shapeOf t.type t.rotation).testBit i = true →
        ((t.offsetY + 256 - 21) % 256 + i / 8) % 256 ≠ y := by
      intro y hy' i hi hs heq
      have hcell := no_collision_cells hk1 hk7 hr hx hy hc hi hs
      rw [heq] at hcell
      apply hout
      have h2 := hcell.2.1
      omega
    have e : (b.placeTetromino t).displayRow d = b.displayRow d := by
      unfold Board.displayRow
      rw [placeTetromino_row_untouched hb t (hun _ (Or.inl rfl)),
        placeTetromino_row_untouched hb t (hun _ (Or.inr rfl))]
    have := hnofull d hd
    unfold Board.isFullRow at hfull this
    rw [e, this] at hfull
    exact absurd hfull (by decide)
  unfold Board.fullCount
  refine Nat.le_trans ?_ (window_count (((t.offsetY : Int) - 21) / 2).toNat)
  rw [← List.countP_eq_length_filter, ← List.countP_eq_length_filter]
  apply List.countP_mono_left
  intro d hd hfull
  rw [List.mem_range] at hd
  have := htouch d hd hfull
  simpa using this

theorem C8_witness :
    Board.empty.WF ∧ (∀ i, i < DISPLAY_ROWS → Board.empty.isFullRow i = false) ∧
      1 ≤ (Tetromino.mk 1 0 1 13 53).type ∧ (Tetromino.mk 1 0 1 13 53).type ≤ 7 ∧
      (Tetromino.mk 1 0 1 13 53).rotation ≤ 3 ∧ (Tetromino.mk 1 0 1 13 53).offsetX < 256 ∧
      (Tetromino.mk 1 0 1 13 53).offsetY < 256 ∧
      Board.empty.checkCollision (Tetromino.mk 1 0 1 13 53) 13 53 1 = false ∧
      (((Tetromino.mk 1 0 1 13 53).offsetY : Int) - 21) % 2 = 0 ∧
      ∃ b' n, (Board.empty.placeTetromino (Tetromino.mk 1 0 1 13 53)).clearFullLines
          = some (b', n) ∧ 0 ≤ n ∧ n ≤ 4 :=
  ⟨by decide, by decide, by decide, by decide, by decide, by decide, by decide, by decide,
    by decide,
    C8_clear_after_place_le_four Board.empty (by decide) (Tetromino.mk 1 0 1 13 53)
      (by decide) (by decide) (by decide) (by decide) (by decide) (by decide) (by decide)
      (by decide)⟩

/-! ## C9 and C10: horizontal and vertical moves -/

/-- C9: for every board and piece, `moveLeft` (resp. `moveRight`) returns true
exactly when `checkCollision` at `(offsetX - 2, offsetY)` (resp.
`(offsetX + 2, offsetY)`, both as 8-bit values) with the unchanged rotation is
false; on true `offsetX` becomes that target value and kind, rotation,
`offsetY` and color are unchanged; on false every field of the piece is
unchanged. -/
theorem C9_moveLeft_moveRight (b : Board) (t : Tetromino) :
    (((t.moveLeft b).1 = true ↔
        b.checkCollision t ((t.offsetX + 256 - 2) % 256) t.offsetY t.rotation = false) ∧
      ((t.moveLeft b).1 = true →
        (t.moveLeft b).2.offsetX = (t.offsetX + 256 - 2) % 256 ∧
        (t.moveLeft b).2.type = t.type ∧ (t.moveLeft b).2.rotation = t.rotation ∧
        (t.moveLeft b).2.offsetY = t.offsetY ∧ (t.moveLeft b).2.color = t.color) ∧
      ((t.moveLeft b).1 = false → (t.moveLeft b).2 = t)) ∧
    (((t.moveRight b).1 = true ↔
        b.checkCollision t ((t.offsetX + 2) % 256) t.offsetY t.rotation = false) ∧
      ((t.moveRight b).1 = true →
        (t.moveRight b).2.offsetX = (t.offsetX + 2) % 256 ∧
        (t.moveRight b).2.type = t.type ∧ (t.moveRight b).2.rotation = t.rotation ∧
        (t.moveRight b).2.offsetY = t.offsetY ∧ (t.moveRight b).2.color = t.color) ∧
      ((t.moveRight b).1 = false → (t.moveRight b).2 = t)) := by
  unfold Tetromino.moveLeft Tetromino.moveRight
  refine ⟨?_, ?_⟩
  · cases h : b.checkCollision t ((t.offsetX + 256 - 2) % 256) t.offsetY t.rotation <;> simp
  · cases h : b.checkCollision t ((t.offsetX + 2) % 256) t.offsetY t.rotation <;> simp

/-- A valid piece whose target row is 0 or 1 always collides: each of its
occupied cells would lie above the board. -/
theorem collision_above_board (b : Board) {t : Tetromino} (tx : Nat) {ty r : Nat}
    (hk1 : 1 ≤ t.type) (hk7 : t.type ≤ 7) (hr : r ≤ 3) (hty : ty < 2) :
    b.checkCollision t tx ty r = true := by
  rw [checkCollision_true_iff]
  obtain ⟨j, hj, hjs, _⟩ := shape_has_low_col hk1 hk7 hr
  exact ⟨j, hj, hjs, Or.inr (Or.inl (by omega))⟩

/-- C10: for every board and piece (kind in `1..7`, rotation in `0..3`, 8-bit
`offsetY`), `moveDown` returns true exactly when `checkCollision` at
`(offsetX, offsetY + 2)` with the unchanged rotation is false; on true
`offsetY` increases by 2 (the 8-bit addition does not wrap, since a wrapped
target always collides) and nothing else changes; on false (the piece has
landed) every field of the piece is unchanged. -/
theorem C10_moveDown (b : Board) (t : Tetromino)
    (hk1 : 1 ≤ t.type) (hk7 : t.type ≤ 7) (hr : t.rotation ≤ 3) (hy : t.offsetY < 256) :
    ((t.moveDown b).1 = true ↔
        b.checkCollision t t.offsetX ((t.offsetY + 2) % 256) t.rotation = false) ∧
      ((t.moveDown b).1 = true →
        (t.moveDown b).2 = { t with offsetY := t.offsetY + 2 }) ∧
      ((t.moveDown b).1 = false → (t.moveDown b).2 = t) := by
  unfold Tetromino.moveDown
  cases h : b.checkCollision t t.offsetX ((t.offsetY + 2) % 256) t.rotation
  · have hnowrap : (t.offsetY + 2) % 256 = t.offsetY + 2 := by
      by_contra hw
      have := collision_above_board b t.offsetX hk1 hk7 hr
        (show (t.offsetY + 2) % 256 < 2 by omega)
      rw [h] at this
      exact absurd this (by decide)
    simp [hnowrap]
  · simp

theorem C10_witness :
    1 ≤ (Tetromino.mk 2 0 0 13 17).type ∧ (Tetromino.mk 2 0 0 13 17).type ≤ 7 ∧
      (Tetromino.mk 2 0 0 13 17).rotation ≤ 3 ∧ (Tetromino.mk 2 0 0 13 17).offsetY < 256 ∧
      (((Tetromino.mk 2 0 0 13 17).moveDown Board.empty).1 = true ↔
          Board.empty.checkCollision (Tetromino.mk 2 0 0 13 17) 13 ((17 + 2) % 256) 0
            = false) ∧
      (((Tetromino.mk 2 0 0 13 17).moveDown Board.empty).1 = true →
          ((Tetromino.mk 2 0 0 13 17).moveDown Board.empty).2
            = { Tetromino.mk 2 0 0 13 17 with offsetY := 17 + 2 }) ∧
      (((Tetromino.mk 2 0 0 13 17).moveDown Board.empty).1 = false →
          ((Tetromino.mk 2 0 0 13 17).moveDown Board.empty).2 = Tetromino.mk 2 0 0 13 17) :=
  ⟨by decide, by decide, by decide, by decide,
    C10_moveDown Board.empty (Tetromino.mk 2 0 0 13 17)
      (by decide) (by decide) (by decide) (by decide)⟩

/-! ## C11: rotation -/

/-- A valid piece collides as soon as one occupied bit of the target shape
has its integer cell outside of the board. -/
theorem collision_of_cell_outside (b : Board) {t : Tetromino} {tx ty r : Nat}
    (hk1 : 1 ≤ t.type) (hk7 : t.type ≤ 7) (hr : r ≤ 3) (hx : tx < 256) (hy : ty < 256)
    {row col : Nat} (hrow : row < 8) (hcol : col < 8)
    (hs : (shapeOf t.type r).testBit (8 * row + col) = true)
    (hout : ¬ (0 ≤ (tx : Int) - 3 + col ∧ (tx : Int) - 3 + col < 28 ∧
      0 ≤ (ty : Int) - 21 + row ∧ (ty : Int) - 21 + row < 40)) :
    b.checkCollision t tx ty r = true := by
  rw [checkCollision_true_iff]
  by_cases hwrap : 256 ≤ (tx : Int) - 3 + col
  · obtain ⟨j, hj, hjs, hjc⟩ := shape_has_low_col hk1 hk7 hr
    exact ⟨j, hj, hjs, Or.inl (by omega)⟩
  · refine ⟨8 * row + col, by omega, hs, ?_⟩
    have e1 : (8 * row + col) % 8 = col := by omega
    have e2 : (8 * row + col) / 8 = row := by omega
    rw [e1, e2]
    by_cases hxin : 0 ≤ (tx : Int) - 3 + col ∧ (tx : Int) - 3 + col < 28
    · right; left; omega
    · left; omega

/-- C11: for every board and piece with rotation in `0..3`, `rotate` returns
true exactly when `checkCollision` at the current `(offsetX, offsetY)` with
rotation `(rotation + 1) mod 4` is false; on true the rotation becomes
`(rotation + 1) mod 4` and the position (and kind and color) is unchanged; on
false the whole piece is unchanged.  In particular, for a valid piece, when
the new rotation has an occupied cell whose column is beyond a side wall,
`rotate` returns false and leaves the piece as it was: there is no wall
kick. -/
theorem C11_rotate (b : Board) (t : Tetromino) (hr : t.rotation ≤ 3) :
    ((t.rotate b).1 = true ↔
        b.checkCollision t t.offsetX t.offsetY ((t.rotation + 1) % 4) = false) ∧
      ((t.rotate b).1 = true →
        (t.rotate b).2 = { t with rotation := (t.rotation + 1) % 4 }) ∧
      ((t.rotate b).1 = false → (t.rotate b).2 = t) ∧
      (1 ≤ t.type → t.type ≤ 7 → t.offsetX < 256 → t.offsetY < 256 →
        ∀ row col, row < 8 → col < 8 →
          (shapeOf t.type ((t.rotation + 1) % 4)).testBit (8 * row + col) = true →
          ((t.offsetX : Int) - 3 + col < 0 ∨ 28 ≤ (t.offsetX : Int) - 3 + col) →
          (t.rotate b).1 = false ∧ (t.rotate b).2 = t) := by
  have _ := hr
  have e : ((t.rotation + 1) % 4) % 256 = (t.rotation + 1) % 4 := by omega
  unfold Tetromino.rotate
  simp only [e]
  refine ⟨?_, ?_, ?_, ?_⟩
  · cases h : b.checkCollision t t.offsetX t.offsetY ((t.rotation + 1) % 4) <;> simp
  · cases h : b.checkCollision t t.offsetX t.offsetY ((t.rotation + 1) % 4) <;> simp
  · cases h : b.checkCollision t t.offsetX t.offsetY ((t.rotation + 1) % 4) <;> simp
  · intro hk1 hk7 hx hy row col hrow hcol hs hout
    have hc := collision_of_cell_outside b hk1 hk7 (show (t.rotation + 1) % 4 ≤ 3 by omega)
      hx hy hrow hcol hs (by omega)
    simp [hc]

theorem C11_witness :
    (Tetromino.mk 1 0 1 1 21).rotation ≤ 3 ∧
    ((((Tetromino.mk 1 0 1 1 21).rotate Board.empty).1 = true ↔
        Board.empty.checkCollision (Tetromino.mk 1 0 1 1 21) 1 21 ((1 + 1) % 4) = false) ∧
      (((Tetromino.mk 1 0 1 1 21).rotate Board.empty).1 = true →
        ((Tetromino.mk 1 0 1 1 21).rotate Board.empty).2
          = { Tetromino.mk 1 0 1 1 21 with rotation := (1 + 1) % 4 }) ∧
      (((Tetromino.mk 1 0 1 1 21).rotate Board.empty).1 = false →
        ((Tetromino.mk 1 0 1 1 21).rotate Board.empty).2 = Tetromino.mk 1 0 1 1 21) ∧
      (1 ≤ (Tetromino.mk 1 0 1 1 21).type → (Tetromino.mk 1 0 1 1 21).type ≤ 7 →
        (Tetromino.mk 1 0 1 1 21).offsetX < 256 → (Tetromino.mk 1 0 1 1 21).offsetY < 256 →
        ∀ row col, row < 8 → col < 8 →
          (shapeOf 1 ((1 + 1) % 4)).testBit (8 * row + col) = true →
          (((1 : Nat) : Int) - 3 + col < 0 ∨ 28 ≤ ((1 : Nat) : Int) - 3 + col) →
          ((Tetromino.mk 1 0 1 1 21).rotate Board.empty).1 = false ∧
          ((Tetromino.mk 1 0 1 1 21).rotate Board.empty).2 = Tetromino.mk 1 0 1 1 21)) :=
  ⟨by decide, C11_rotate Board.empty (Tetromino.mk 1 0 1 1 21) (by decide)⟩

/-- The vertical I piece at `offsetX = 1` lies inside the empty board (columns
0 and 1); its next rotation would occupy column `-2`, and `rotate` fails and
leaves the piece as it was. -/
theorem rotate_at_left_wall :
    Board.empty.checkCollision (Tetromino.mk 1 0 1 1 21) 1 21 1 = false ∧
    (shapeOf 1 2).testBit (8 * 4 + 0) = true ∧
    ((Tetromino.mk 1 0 1 1 21).rotate Board.empty) = (false, Tetromino.mk 1 0 1 1 21) := by
  decide

/-! ## C12: the moves never write to the board -/

theorem withCurrent_board (g : Game) (t : Tetromino) : (g.withCurrent t).board = g.board := rfl

/-- C12: `moveLeft`, `moveRight`, `moveDown` and `rotate` only read the board
(they return a flag and the piece), and therefore `keyAction`, for every key,
leaves the board unchanged whether the move succeeds or fails; in particular
this holds when `gameOver` is true. -/
theorem C12_keyAction_board_unchanged (g : Game) (key : Char) :
    (g.keyAction key).board = g.board ∧
      (∀ x y, (g.keyAction key).board.getFieldType x y = g.board.getFieldType x y) ∧
      (g.gameOver = true → (g.keyAction key).board = g.board) := by
  have h : (g.keyAction key).board = g.board := by
    unfold Game.keyAction
    split
    · rfl
    · split
      · rfl
      · split
        · rfl
        · split
          · rfl
          · split
            · rfl
            · rfl
  exact ⟨h, fun x y => by rw [h], fun _ => h⟩

/-! ## C13: the commit tick of `run` -/

/-- The commit tick of `run` in a state whose two pieces are distinct
objects and whose next piece has rotation 0: the piece is written into the
board, `clearFullLines` runs on the result, the next piece becomes the
current piece at `(13, 17)`, and `gameOver` is set exactly when that piece
collides on the board after the clear. -/
theorem run_commit_spec (g : Game) (currentTime rnd : Nat) (hb : g.board.WF)
    (hp : g.isPaused = false) (hgo : g.gameOver = false) (hdist : g.nextIsCurrent = false)
    (hrot : g.nextTetromino.rotation = 0)
    (hfire : g.fallSpeed ≤ (currentTime + 2 ^ 32 - g.lastFallTime) % 2 ^ 32)
    (hland : (g.currentTetromino.moveDown g.board).1 = false) :
    ∃ board2 rowsCleared g',
      (g.board.placeTetromino g.currentTetromino).clearFullLines = some (board2, rowsCleared) ∧
      g.run currentTime rnd = some g' ∧
      g'.board = board2 ∧
      g'.currentTetromino = { g.nextTetromino with offsetX := 13, offsetY := 17 } ∧
      g'.currentTetromino.rotation = 0 ∧
      (g'.gameOver = true ↔ board2.checkCollision g'.currentTetromino 13 17 0 = true) ∧
      (g'.gameOver = false →
        g'.nextTetromino = Game.createTetromino rnd ∧ g'.nextIsCurrent = false) := by
  obtain ⟨board2, hclear, _, _⟩ := clearFullLines_spec (placeTetromino_WF hb g.currentTetromino)
  have hupd_go : ∀ (h : Game) (n : Nat), (h.commitRows n).gameOver = h.gameOver := by
    intro h n
    unfold Game.commitRows Game.updateLevelAndSpeed Game.updateScore
    dsimp only
    repeat' split
    all_goals rfl
  have hupd_b : ∀ (h : Game) (n : Nat), (h.commitRows n).board = h.board := by
    intro h n
    unfold Game.commitRows Game.updateLevelAndSpeed Game.updateScore
    dsimp only
    repeat' split
    all_goals rfl
  unfold Game.run
  simp only [hp, hland, hclear, hdist, ge_iff_le, hfire, if_true, Bool.not_false,
    Bool.false_eq_true, if_false]
  have hcur : g.nextTetromino.setOffset 13 17
      = { g.nextTetromino with offsetX := 13, offsetY := 17 } := rfl
  by_cases hc : board2.checkCollision (g.nextTetromino.setOffset 13 17)
      (g.nextTetromino.setOffset 13 17).offsetX (g.nextTetromino.setOffset 13 17).offsetY
      (g.nextTetromino.setOffset 13 17).rotation = true
  · rw [if_pos hc]
    refine ⟨board2, _, _, rfl, rfl, ?_, hcur, hrot, ?_, ?_⟩
    · exact hupd_b _ _
    · have hc' := hc
      simp only [Tetromino.setOffset, hrot] at hc'
      simp only [true_iff, Tetromino.setOffset, hrot]
      exact hc'
    · intro hfalse
      exact absurd hfalse (by simp)
  · rw [if_neg hc]
    refine ⟨board2, _, _, rfl, rfl, ?_, hcur, hrot, ?_, ?_⟩
    · exact hupd_b _ _
    · have hc' := hc
      simp only [Tetromino.setOffset, hrot] at hc'
      simp only [Tetromino.setOffset, hrot]
      constructor
      · intro h1
        rw [hupd_go] at h1
        rw [hgo] at h1
        exact absurd h1 (by decide)
      · intro h1
        exact absurd h1 hc'
    · intro _
      exact ⟨rfl, rfl⟩

/-! ## C14 to C17: `run` and `keyAction` under pause and game over -/

theorem commitRows_gameOver (h : Game) (n : Nat) : (h.commitRows n).gameOver = h.gameOver := by
  unfold Game.commitRows Game.updateLevelAndSpeed Game.updateScore
  dsimp only
  repeat' split
  all_goals rfl

/-- C14, as stated, fails: in `gameOverState` (`gameOver` true, not paused)
a call to `run()` one fall interval after the last fall step performs a
gravity step and moves the piece from `offsetY = 17` to `offsetY = 19`. -/
theorem C14_counterexample :
    gameOverState.gameOver = true ∧ gameOverState.board.WF ∧
    gameOverState.currentTetromino.offsetY = 17 ∧
    (gameOverState.run 41000 0).map (fun g => g.currentTetromino.offsetY) = some 19 ∧
    (gameOverState.run 41000 0).map (fun g => g.lastFallTime) = some 41000 := by
  decide

/-- C15: while `isPaused` is true, a call to `run()` at any clock value leaves
the whole state unchanged: the board, the current and next piece, score,
level, `clearedRows`, `totalClearedRows`, `fallSpeed`, `lastFallTime` and
`gameOver`. -/
theorem C15_run_paused (g : Game) (currentTime rnd : Nat) (hp : g.isPaused = true) :
    ∃ g', g.run currentTime rnd = some g' ∧
      g'.board = g.board ∧ g'.currentTetromino = g.currentTetromino ∧
      g'.nextTetromino = g.nextTetromino ∧ g'.score = g.score ∧ g'.level = g.level ∧
      g'.clearedRows = g.clearedRows ∧ g'.totalClearedRows = g.totalClearedRows ∧
      g'.fallSpeed = g.fallSpeed ∧ g'.lastFallTime = g.lastFallTime ∧
      g'.gameOver = g.gameOver := by
  refine ⟨g, ?_, rfl, rfl, rfl, rfl, rfl, rfl, rfl, rfl, rfl, rfl⟩
  unfold Game.run
  rw [if_pos hp]

theorem C15_witness :
    pausedGame.isPaused = true ∧
    ∃ g', pausedGame.run 5000 3 = some g' ∧
      g'.board = pausedGame.board ∧ g'.currentTetromino = pausedGame.currentTetromino ∧
      g'.nextTetromino = pausedGame.nextTetromino ∧ g'.score = pausedGame.score ∧
      g'.level = pausedGame.level ∧ g'.clearedRows = pausedGame.clearedRows ∧
      g'.totalClearedRows = pausedGame.totalClearedRows ∧
      g'.fallSpeed = pausedGame.fallSpeed ∧ g'.lastFallTime = pausedGame.lastFallTime ∧
      g'.gameOver = pausedGame.gameOver :=
  ⟨by decide, C15_run_paused pausedGame 5000 3 (by decide)⟩

/-- C16 fails on the code: `keyAction` does not test `isPaused`.  In the
paused state reached by `init()` and the pause key, the key `6` moves the
current piece from `offsetX = 13` to `offsetX = 11`, the key `4` moves it to
`offsetX = 15`, the key `2` moves it to `offsetY = 19`, and the game is
still paused afterwards. -/
theorem C16_keyAction_moves_while_paused :
    pausedGame.isPaused = true ∧ pausedGame.currentTetromino.offsetX = 13 ∧
    pausedGame.currentTetromino.offsetY = 17 ∧
    (pausedGame.keyAction '6').currentTetromino.offsetX = 11 ∧
    (pausedGame.keyAction '4').currentTetromino.offsetX = 15 ∧
    (pausedGame.keyAction '2').currentTetromino.offsetY = 19 ∧
    (pausedGame.keyAction '6').isPaused = true := by
  decide

/-- The ticks of `run` that do not commit, in a game that is not paused:
before the fall interval has elapsed the state is unchanged; afterwards, if
`moveDown` succeeds, only the current piece and `lastFallTime` change, and
the next piece is unchanged when it is an object of its own. -/
theorem run_gravity_spec (g : Game) (currentTime rnd : Nat) (hp : g.isPaused = false) :
    ((currentTime + 2 ^ 32 - g.lastFallTime) % 2 ^ 32 < g.fallSpeed →
        g.run currentTime rnd = some g) ∧
      (g.fallSpeed ≤ (currentTime + 2 ^ 32 - g.lastFallTime) % 2 ^ 32 →
        (g.currentTetromino.moveDown g.board).1 = true →
        ∃ g', g.run currentTime rnd = some g' ∧
          g'.currentTetromino = (g.currentTetromino.moveDown g.board).2 ∧
          (1 ≤ g.currentTetromino.type → g.currentTetromino.type ≤ 7 →
            g.currentTetromino.rotation ≤ 3 → g.currentTetromino.offsetY < 256 →
            g'.currentTetromino
              = { g.currentTetromino with offsetY := g.currentTetromino.offsetY + 2 }) ∧
          g'.lastFallTime = currentTime ∧
          g'.board = g.board ∧ g'.score = g.score ∧ g'.level = g.level ∧
          g'.clearedRows = g.clearedRows ∧ g'.totalClearedRows = g.totalClearedRows ∧
          g'.fallSpeed = g.fallSpeed ∧ g'.isPaused = g.isPaused ∧
          g'.gameOver = g.gameOver ∧ g'.nextIsCurrent = g.nextIsCurrent ∧
          (g.nextIsCurrent = false → g'.nextTetromino = g.nextTetromino)) := by
  refine ⟨?_, ?_⟩
  · intro h
    unfold Game.run
    rw [hp, if_neg (by decide), if_neg (by omega)]
  · intro hfire hmove
    refine ⟨{ g.withCurrent (g.currentTetromino.moveDown g.board).2 with
      lastFallTime := currentTime }, ?_, rfl, ?_, rfl, rfl, rfl, rfl, rfl, rfl, rfl, rfl, rfl,
      rfl, ?_⟩
    · unfold Game.run
      rw [hp, if_neg (by decide), if_pos hfire]
      dsimp only
      rw [hmove]
      rfl
    · intro hk1 hk7 hr hy
      have hdown : (g.currentTetromino.moveDown g.board).2
          = { g.currentTetromino with offsetY := g.currentTetromino.offsetY + 2 } := by
        have hc : g.board.checkCollision g.currentTetromino g.currentTetromino.offsetX
            ((g.currentTetromino.offsetY + 2) % 256) g.currentTetromino.rotation = false := by
          unfold Tetromino.moveDown at hmove
          cases hcc : g.board.checkCollision g.currentTetromino g.currentTetromino.offsetX
            ((g.currentTetromino.offsetY + 2) % 256) g.currentTetromino.rotation
          · rfl
          · rw [hcc] at hmove; simp at hmove
        have hnowrap : (g.currentTetromino.offsetY + 2) % 256
            = g.currentTetromino.offsetY + 2 := by
          by_contra hw
          have := collision_above_board g.board g.currentTetromino.offsetX hk1 hk7 hr
            (show (g.currentTetromino.offsetY + 2) % 256 < 2 by omega)
          rw [hc] at this
          exact absurd this (by decide)
        unfold Tetromino.moveDown
        rw [hc, hnowrap]
        rfl
      show (g.withCurrent (g.currentTetromino.moveDown g.board).2).currentTetromino = _
      rw [← hdown]
      rfl
    · intro hd
      show (g.withCurrent (g.currentTetromino.moveDown g.board).2).nextTetromino = _
      unfold Game.withCurrent
      simp [hd]

/-! ## C18 to C20: scoring and levelling -/

theorem updateScore_level (g : Game) (r : Nat) : (g.updateScore r).level = g.level := by
  unfold Game.updateScore
  repeat' split
  all_goals rfl

/-- C18: for every level `L` and score with `score + 20 * L ≤ 65535`,
`updateScore r` adds `2 * L` for `r = 1`, `6 * L` for `r = 2`, `10 * L` for
`r = 3`, `20 * L` for `r = 4` and leaves the score unchanged for `r = 0`;
hence clearing 1, 2, 3 and 4 rows in four commits at level 1 from score 0
gives 38, and at level 2 gives 76. -/
theorem C18_updateScore (g : Game) (h : g.score + 20 * g.level ≤ 65535) :
    (g.updateScore 1).score = g.score + 2 * g.level ∧
    (g.updateScore 2).score = g.score + 6 * g.level ∧
    (g.updateScore 3).score = g.score + 10 * g.level ∧
    (g.updateScore 4).score = g.score + 20 * g.level ∧
    (g.updateScore 0).score = g.score ∧
    (g.score = 0 → g.level = 1 →
      ((((g.updateScore 1).updateScore 2).updateScore 3).updateScore 4).score = 38) ∧
    (g.score = 0 → g.level = 2 →
      ((((g.updateScore 1).updateScore 2).updateScore 3).updateScore 4).score = 76) ∧
    (g.score = 0 → g.level = 1 → g.clearedRows = 0 →
      ((((g.commitRows 1).commitRows 2).commitRows 3).commitRows 4).score = 38) := by
  have e1 : (g.updateScore 1).score = (g.score + 2 * g.level) % 65536 := rfl
  have e2 : (g.updateScore 2).score = (g.score + 6 * g.level) % 65536 := rfl
  have e3 : (g.updateScore 3).score = (g.score + 10 * g.level) % 65536 := rfl
  have e4 : (g.updateScore 4).score = (g.score + 20 * g.level) % 65536 := rfl
  refine ⟨by omega, by omega, by omega, by omega, rfl, ?_, ?_, ?_⟩
  · intro hs hl
    simp [Game.updateScore, hs, hl]
  · intro hs hl
    simp [Game.updateScore, hs, hl]
  · intro hs hl hc
    simp [Game.commitRows, Game.updateScore, Game.updateLevelAndSpeed, hs, hl, hc]

theorem C18_witness :
    (Game.init 1 4).score + 20 * (Game.init 1 4).level ≤ 65535 ∧
    (((Game.init 1 4).updateScore 1).score
        = (Game.init 1 4).score + 2 * (Game.init 1 4).level ∧
    ((Game.init 1 4).updateScore 2).score
        = (Game.init 1 4).score + 6 * (Game.init 1 4).level ∧
    ((Game.init 1 4).updateScore 3).score
        = (Game.init 1 4).score + 10 * (Game.init 1 4).level ∧
    ((Game.init 1 4).updateScore 4).score
        = (Game.init 1 4).score + 20 * (Game.init 1 4).level ∧
    ((Game.init 1 4).updateScore 0).score = (Game.init 1 4).score ∧
    ((Game.init 1 4).score = 0 → (Game.init 1 4).level = 1 →
      (((((Game.init 1 4).updateScore 1).updateScore 2).updateScore 3).updateScore 4).score
        = 38) ∧
    ((Game.init 1 4).score = 0 → (Game.init 1 4).level = 2 →
      (((((Game.init 1 4).updateScore 1).updateScore 2).updateScore 3).updateScore 4).score
        = 76) ∧
    ((Game.init 1 4).score = 0 → (Game.init 1 4).level = 1 →
      (Game.init 1 4).clearedRows = 0 →
      (((((Game.init 1 4).commitRows 1).commitRows 2).commitRows 3).commitRows 4).score
        = 38)) :=
  ⟨by decide, C18_updateScore (Game.init 1 4) (by decide)⟩

theorem updateScore_clearedRows (g : Game) (r : Nat) :
    (g.updateScore r).clearedRows = g.clearedRows := by
  unfold Game.updateScore
  repeat' split
  all_goals rfl

theorem updateScore_fallSpeed (g : Game) (r : Nat) :
    (g.updateScore r).fallSpeed = g.fallSpeed := by
  unfold Game.updateScore
  repeat' split
  all_goals rfl

/-- The level, the fall interval and the row counter of the level after one
commit. -/
theorem commitRows_fields (g : Game) (r : Nat) :
    (g.commitRows r).level
        = (if 10 ≤ (g.clearedRows + r) % 65536 then (g.level + 1) % 256 else g.level) ∧
      (g.commitRows r).fallSpeed
        = (if 10 ≤ (g.clearedRows + r) % 65536 then
            (if g.fallSpeed > 100 then g.fallSpeed - 100 else 100) else g.fallSpeed) ∧
      (g.commitRows r).clearedRows
        = (if 10 ≤ (g.clearedRows + r) % 65536 then
            ((g.clearedRows + r) % 65536 - 10) % 65536 else (g.clearedRows + r) % 65536) := by
  unfold Game.commitRows Game.updateLevelAndSpeed
  dsimp only
  rw [updateScore_clearedRows]
  by_cases h : 10 ≤ (g.clearedRows + r) % 65536
  · simp only [ge_iff_le, h, if_true]
    rw [updateScore_level, updateScore_fallSpeed]
    exact ⟨rfl, rfl, trivial⟩
  · simp only [ge_iff_le, h, if_false]
    rw [updateScore_level, updateScore_fallSpeed, updateScore_clearedRows]
    exact ⟨rfl, rfl, rfl⟩

theorem commits_zero (rs : List Nat) (hz : ∀ r ∈ rs, r = 0) : ∀ (g : Game),
    g.clearedRows < 10 →
    (rs.foldl Game.commitRows g).level = g.level ∧
      (rs.foldl Game.commitRows g).fallSpeed = g.fallSpeed ∧
      (rs.foldl Game.commitRows g).clearedRows = g.clearedRows := by
  induction rs with
  | nil => intro g _; exact ⟨rfl, rfl, rfl⟩
  | cons r rs ih =>
    intro g h
    have hr : r = 0 := hz r (List.mem_cons_self _ _)
    subst hr
    rw [List.foldl_cons]
    have hf := commitRows_fields g 0
    have e : (g.clearedRows + 0) % 65536 = g.clearedRows := by omega
    rw [e, if_neg (by omega), if_neg (by omega), if_neg (by omega)] at hf
    have ih' := ih (fun r hr => hz r (List.mem_cons_of_mem _ hr)) (g.commitRows 0)
      (by rw [hf.2.2]; exact h)
    rw [ih'.1, ih'.2.1, ih'.2.2]
    exact hf

theorem sum_zero_all_zero (rs : List Nat) (h : rs.sum = 0) : ∀ r ∈ rs, r = 0 := by
  induction rs with
  | nil => intro r hr; cases hr
  | cons a rs ih =>
    rw [List.sum_cons] at h
    intro r hr
    rcases List.mem_cons.1 hr with e | e
    · omega
    · exact ih (by omega) r e

theorem commits_to_ten (rs : List Nat) : ∀ (g : Game), g.level = 1 → g.fallSpeed = 1000 →
    g.clearedRows < 10 → g.clearedRows + rs.sum = 10 →
    (rs.foldl Game.commitRows g).level = 2 ∧ (rs.foldl Game.commitRows g).fallSpeed = 900 ∧
      (rs.foldl Game.commitRows g).clearedRows = 0 := by
  induction rs with
  | nil => intro g _ _ hc hs; simp at hs; omega
  | cons r rs ih =>
    intro g hl hf hc hs
    rw [List.sum_cons] at hs
    rw [List.foldl_cons]
    have hfl := commitRows_fields g r
    have e : (g.clearedRows + r) % 65536 = g.clearedRows + r := by omega
    rw [e] at hfl
    by_cases hlt : g.clearedRows + r < 10
    · rw [if_neg (by omega), if_neg (by omega), if_neg (by omega)] at hfl
      exact ih (g.commitRows r) (by rw [hfl.1]; exact hl) (by rw [hfl.2.1]; exact hf)
        (by rw [hfl.2.2]; exact hlt) (by rw [hfl.2.2]; omega)
    · have h10 : 10 ≤ g.clearedRows + r := by omega
      rw [if_pos h10, if_pos h10, if_pos h10] at hfl
      have hz : rs.sum = 0 := by omega
      have hc0 : (g.commitRows r).clearedRows = 0 := by rw [hfl.2.2]; omega
      have key := commits_zero rs (sum_zero_all_zero rs hz) (g.commitRows r) (by omega)
      rw [key.1, key.2.1, key.2.2, hfl.1, hfl.2.1, hc0, hl, hf]
      exact ⟨rfl, rfl, rfl⟩

/-- C19: `updateLevelAndSpeed`: when `clearedRows ≥ 10` it increments `level`
by 1 (as an 8-bit value), subtracts exactly 10 from `clearedRows` and lowers
`fallSpeed` by 100 but not below 100, for every `fallSpeed` that is a multiple
of 100 in `[100, 1000]`; when `clearedRows < 10` it changes nothing.  Starting
from level 1, `clearedRows` 0 and `fallSpeed` 1000, commits whose cleared rows
total exactly 10 end at level 2 with `fallSpeed` 900 and `clearedRows` 0. -/
theorem C19_updateLevelAndSpeed (g : Game) (hc : g.clearedRows < 65536) :
    (10 ≤ g.clearedRows →
      g.updateLevelAndSpeed.level = (g.level + 1) % 256 ∧
      (g.level < 255 → g.updateLevelAndSpeed.level = g.level + 1) ∧
      g.updateLevelAndSpeed.clearedRows + 10 = g.clearedRows ∧
      (∀ k, 1 ≤ k → k ≤ 10 → g.fallSpeed = 100 * k →
        g.updateLevelAndSpeed.fallSpeed = if k = 1 then 100 else g.fallSpeed - 100) ∧
      g.updateLevelAndSpeed.score = g.score ∧
      g.updateLevelAndSpeed.totalClearedRows = g.totalClearedRows ∧
      g.updateLevelAndSpeed.board = g.board) ∧
    (g.clearedRows < 10 → g.updateLevelAndSpeed = g) ∧
    (∀ rs : List Nat, rs.sum = 10 → g.level = 1 → g.clearedRows = 0 → g.fallSpeed = 1000 →
      (rs.foldl Game.commitRows g).level = 2 ∧ (rs.foldl Game.commitRows g).fallSpeed = 900 ∧
        (rs.foldl Game.commitRows g).clearedRows = 0) := by
  refine ⟨?_, ?_, ?_⟩
  · intro h10
    unfold Game.updateLevelAndSpeed
    rw [if_pos h10]
    dsimp only
    refine ⟨rfl, fun hl => by omega, by omega, ?_, rfl, rfl, rfl⟩
    intro k hk1 hk10 hf
    by_cases hk : k = 1
    · rw [if_pos hk, if_neg (by omega)]
    · rw [if_neg hk, if_pos (by omega)]
  · intro hlt
    unfold Game.updateLevelAndSpeed
    rw [if_neg (by omega)]
  · intro rs hs hl hc0 hf
    exact commits_to_ten rs g hl hf (by omega) (by omega)

theorem C19_witness :
    (Game.init 1 4).clearedRows < 65536 ∧
    ((10 ≤ (Game.init 1 4).clearedRows →
      (Game.init 1 4).updateLevelAndSpeed.level = ((Game.init 1 4).level + 1) % 256 ∧
      ((Game.init 1 4).level < 255 →
        (Game.init 1 4).updateLevelAndSpeed.level = (Game.init 1 4).level + 1) ∧
      (Game.init 1 4).updateLevelAndSpeed.clearedRows + 10 = (Game.init 1 4).clearedRows ∧
      (∀ k, 1 ≤ k → k ≤ 10 → (Game.init 1 4).fallSpeed = 100 * k →
        (Game.init 1 4).updateLevelAndSpeed.fallSpeed
          = if k = 1 then 100 else (Game.init 1 4).fallSpeed - 100) ∧
      (Game.init 1 4).updateLevelAndSpeed.score = (Game.init 1 4).score ∧
      (Game.init 1 4).updateLevelAndSpeed.totalClearedRows
        = (Game.init 1 4).totalClearedRows ∧
      (Game.init 1 4).updateLevelAndSpeed.board = (Game.init 1 4).board) ∧
    ((Game.init 1 4).clearedRows < 10 →
      (Game.init 1 4).updateLevelAndSpeed = Game.init 1 4) ∧
    (∀ rs : List Nat, rs.sum = 10 → (Game.init 1 4).level = 1 →
      (Game.init 1 4).clearedRows = 0 → (Game.init 1 4).fallSpeed = 1000 →
      (rs.foldl Game.commitRows (Game.init 1 4)).level = 2 ∧
        (rs.foldl Game.commitRows (Game.init 1 4)).fallSpeed = 900 ∧
        (rs.foldl Game.commitRows (Game.init 1 4)).clearedRows = 0)) :=
  ⟨by decide, C19_updateLevelAndSpeed (Game.init 1 4) (by decide)⟩

/-- C20, as stated, fails: at level 100 with score 65000, `updateScore 4`
adds 2000 in 16-bit arithmetic and leaves the score 1464. -/
theorem C20_counterexample :
    highScoreGame.score = 65000 ∧ highScoreGame.level = 100 ∧
    (highScoreGame.updateScore 4).score = 1464 ∧
    (highScoreGame.updateScore 4).score < highScoreGame.score := by
  decide

/-- C20, amended: for every state in which the addition does not overflow
the 16-bit score (`score + 20 * level ≤ 65535`) and every `rowsCleared`, the
score after `updateScore rowsCleared` is greater than or equal to the score
before. -/
theorem C20_score_monotone_amended (g : Game) (rowsCleared : Nat)
    (h : g.score + 20 * g.level ≤ 65535) :
    g.score ≤ (g.updateScore rowsCleared).score := by
  unfold Game.updateScore
  repeat' split
  all_goals (try dsimp only)
  all_goals omega

theorem C20_witness :
    (Game.init 1 4).score + 20 * (Game.init 1 4).level ≤ 65535 ∧
    (Game.init 1 4).score ≤ ((Game.init 1 4).updateScore 3).score :=
  ⟨by decide, C20_score_monotone_amended (Game.init 1 4) 3 (by decide)⟩

/-! ## C21 and C22: level and fall interval -/

/-- C21, as stated, fails: at level 255 with ten rows cleared,
`updateLevelAndSpeed` wraps the 8-bit level to 0, which is below the level
before and below the starting value 1. -/
theorem C21_counterexample :
    maxLevelGame.level = 255 ∧ maxLevelGame.clearedRows = 10 ∧
    maxLevelGame.updateLevelAndSpeed.level = 0 ∧
    maxLevelGame.updateLevelAndSpeed.level < maxLevelGame.level ∧
    maxLevelGame.updateLevelAndSpeed.level < 1 := by
  decide

/-- C21, amended: for every state with `level < 255` (or with
`clearedRows < 10`), the level after `updateLevelAndSpeed` is greater than or
equal to the level before, and it is at least 1 when it was at least 1
before. -/
theorem C21_level_monotone_amended (g : Game) (h : g.level < 255 ∨ g.clearedRows < 10) :
    g.level ≤ g.updateLevelAndSpeed.level ∧
      (1 ≤ g.level → 1 ≤ g.updateLevelAndSpeed.level) := by
  unfold Game.updateLevelAndSpeed
  by_cases hc : g.clearedRows ≥ 10
  · rw [if_pos hc]
    dsimp only
    omega
  · rw [if_neg hc]
    exact ⟨Nat.le_refl _, fun h1 => h1⟩

theorem C21_witness :
    ((Game.init 1 4).level < 255 ∨ (Game.init 1 4).clearedRows < 10) ∧
    ((Game.init 1 4).level ≤ (Game.init 1 4).updateLevelAndSpeed.level ∧
      (1 ≤ (Game.init 1 4).level → 1 ≤ (Game.init 1 4).updateLevelAndSpeed.level)) :=
  ⟨by decide, C21_level_monotone_amended (Game.init 1 4) (by decide)⟩

/-- One commit never raises the fall interval and keeps it a multiple of 100
in `[100, 1000]` when it was one. -/
theorem commitRows_fallSpeed (g : Game) (r : Nat)
    (h1 : ∃ k, 1 ≤ k ∧ k ≤ 10 ∧ g.fallSpeed = 100 * k) :
    (∃ k, 1 ≤ k ∧ k ≤ 10 ∧ (g.commitRows r).fallSpeed = 100 * k) ∧
      (g.commitRows r).fallSpeed ≤ g.fallSpeed ∧
      (g.fallSpeed = 100 → (g.commitRows r).fallSpeed = 100) := by
  obtain ⟨k, hk1, hk10, hk⟩ := h1
  rw [(commitRows_fields g r).2.1]
  by_cases h : 10 ≤ (g.clearedRows + r) % 65536
  · rw [if_pos h]
    by_cases h2 : g.fallSpeed > 100
    · rw [if_pos h2]
      exact ⟨⟨k - 1, by omega, by omega, by omega⟩, by omega, by omega⟩
    · rw [if_neg h2]
      exact ⟨⟨1, by omega, by omega, by omega⟩, by omega, by omega⟩
  · rw [if_neg h]
    exact ⟨⟨k, hk1, hk10, hk⟩, Nat.le_refl _, fun e => e⟩

theorem commits_fallSpeed (rs : List Nat) : ∀ (g : Game),
    (∃ k, 1 ≤ k ∧ k ≤ 10 ∧ g.fallSpeed = 100 * k) →
    (∃ k, 1 ≤ k ∧ k ≤ 10 ∧ (rs.foldl Game.commitRows g).fallSpeed = 100 * k) ∧
      (rs.foldl Game.commitRows g).fallSpeed ≤ g.fallSpeed := by
  induction rs with
  | nil => intro g h; exact ⟨h, Nat.le_refl _⟩
  | cons r rs ih =>
    intro g h
    rw [List.foldl_cons]
    have h1 := commitRows_fallSpeed g r h
    have h2 := ih (g.commitRows r) h1.1
    exact ⟨h2.1, Nat.le_trans h2.2 h1.2.1⟩

/-- C22: in every state reached from a new game (`fallSpeed` 1000) by any
sequence of commits, `fallSpeed` satisfies `100 ≤ fallSpeed ≤ 1000`, a further
commit never increases it, and once it equals 100 it stays 100 through every
later sequence of commits. -/
theorem C22_fallSpeed_bounds (g0 : Game) (rs : List Nat) (h0 : g0.fallSpeed = 1000) :
    100 ≤ (rs.foldl Game.commitRows g0).fallSpeed ∧
      (rs.foldl Game.commitRows g0).fallSpeed ≤ 1000 ∧
      (∀ r, ((rs.foldl Game.commitRows g0).commitRows r).fallSpeed
        ≤ (rs.foldl Game.commitRows g0).fallSpeed) ∧
      ((rs.foldl Game.commitRows g0).fallSpeed = 100 →
        ∀ rs' : List Nat,
          (rs'.foldl Game.commitRows (rs.foldl Game.commitRows g0)).fallSpeed = 100) := by
  have hb := commits_fallSpeed rs g0 ⟨10, by omega, by omega, by omega⟩
  obtain ⟨k, hk1, hk10, hk⟩ := hb.1
  refine ⟨by omega, by omega, fun r => (commitRows_fallSpeed _ r hb.1).2.1, ?_⟩
  intro h100 rs'
  have hb' := commits_fallSpeed rs' (rs.foldl Game.commitRows g0) hb.1
  obtain ⟨k', hk1', hk10', hk'⟩ := hb'.1
  omega

theorem C22_witness :
    (Game.init 1 4).fallSpeed = 1000 ∧
    (100 ≤ ([4, 4, 4].foldl Game.commitRows (Game.init 1 4)).fallSpeed ∧
      ([4, 4, 4].foldl Game.commitRows (Game.init 1 4)).fallSpeed ≤ 1000 ∧
      (∀ r, (([4, 4, 4].foldl Game.commitRows (Game.init 1 4)).commitRows r).fallSpeed
        ≤ ([4, 4, 4].foldl Game.commitRows (Game.init 1 4)).fallSpeed) ∧
      (([4, 4, 4].foldl Game.commitRows (Game.init 1 4)).fallSpeed = 100 →
        ∀ rs' : List Nat,
          (rs'.foldl Game.commitRows
            ([4, 4, 4].foldl Game.commitRows (Game.init 1 4))).fallSpeed = 100)) :=
  ⟨by decide, C22_fallSpeed_bounds (Game.init 1 4) [4, 4, 4] (by decide)⟩

/-! ## C23: the choice of the next kind -/

/-- C23: `createTetromino` maps the 18 buckets `0..17` of `random(18)` onto
the 7 kinds so that kind I gets exactly 1 bucket (bucket 0), kind O exactly 2
buckets (1 and 2) and each of the kinds T, J, L, S, Z exactly 3 buckets; every
bucket yields one of the 7 kinds (never the empty code), with rotation 0. -/
theorem C23_createTetromino_buckets :
    (List.range 18).filter (fun r => (Game.createTetromino r).type = 1) = [0] ∧
    (List.range 18).filter (fun r => (Game.createTetromino r).type = 2) = [1, 2] ∧
    (List.range 18).filter (fun r => (Game.createTetromino r).type = 3) = [3, 4, 5] ∧
    (List.range 18).filter (fun r => (Game.createTetromino r).type = 4) = [6, 7, 8] ∧
    (List.range 18).filter (fun r => (Game.createTetromino r).type = 5) = [9, 10, 11] ∧
    (List.range 18).filter (fun r => (Game.createTetromino r).type = 6) = [12, 13, 14] ∧
    (List.range 18).filter (fun r => (Game.createTetromino r).type = 7) = [15, 16, 17] ∧
    (∀ r, r < 18 → 1 ≤ (Game.createTetromino r).type ∧ (Game.createTetromino r).type ≤ 7 ∧
      (Game.createTetromino r).type ≠ NO_TETRO ∧ (Game.createTetromino r).rotation = 0) := by
  decide

/-! ## C25: the pause toggle -/

/-- C25: `keyAction 'B'` flips `isPaused` whether the game is running or
paused, two consecutive toggles restore the original state, and a toggle
leaves the board, the current piece, the next piece, score, level, the row
counters, `fallSpeed`, `lastFallTime` and `gameOver` unchanged. -/
theorem C25_pause_toggle (g : Game) :
    (g.keyAction 'B').isPaused = !g.isPaused ∧
    ((g.keyAction 'B').keyAction 'B') = g ∧
    (g.keyAction 'B').board = g.board ∧
    (g.keyAction 'B').currentTetromino = g.currentTetromino ∧
    (g.keyAction 'B').nextTetromino = g.nextTetromino ∧
    (g.keyAction 'B').score = g.score ∧ (g.keyAction 'B').level = g.level ∧
    (g.keyAction 'B').clearedRows = g.clearedRows ∧
    (g.keyAction 'B').totalClearedRows = g.totalClearedRows ∧
    (g.keyAction 'B').fallSpeed = g.fallSpeed ∧
    (g.keyAction 'B').lastFallTime = g.lastFallTime ∧
    (g.keyAction 'B').gameOver = g.gameOver := by
  have e : g.keyAction 'B' = g.togglePause := by
    unfold Game.keyAction
    rw [if_neg (by decide), if_neg (by decide), if_neg (by decide), if_neg (by decide),
      if_pos rfl]
  have e2 : ∀ h : Game, h.keyAction 'B' = h.togglePause := by
    intro h
    unfold Game.keyAction
    rw [if_neg (by decide), if_neg (by decide), if_neg (by decide), if_neg (by decide),
      if_pos rfl]
  refine ⟨by rw [e]; rfl, ?_, by rw [e]; rfl, by rw [e]; rfl, by rw [e]; rfl, by rw [e]; rfl,
    by rw [e]; rfl, by rw [e]; rfl, by rw [e]; rfl, by rw [e]; rfl, by rw [e]; rfl,
    by rw [e]; rfl⟩
  rw [e2, e2]
  unfold Game.togglePause
  cases g
  simp

/-! ## C26: the shapes are made of 2x2 blocks -/

/-- C26: for each of the 28 (kind, rotation) pairs with kind in `1..7`, the
decoded 8x8 bitmap has exactly 16 set bits and is a union of four 2x2 blocks
aligned to even rows and columns: bit `(row, col)` is set iff bit
`(row xor 1, col)` is set iff bit `(row, col xor 1)` is set. -/
theorem C26_shapes_two_by_two (k r : Nat) (hk1 : 1 ≤ k) (hk7 : k ≤ 7) (hr : r ≤ 3) :
    ((List.range 64).filter fun i => (shapeOf k r).testBit i).length = 16 ∧
    (∀ row, row < 8 → ∀ col, col < 8 →
      (shapeOf k r).testBit (8 * row + col) = (shapeOf k r).testBit (8 * (row ^^^ 1) + col) ∧
      (shapeOf k r).testBit (8 * row + col) = (shapeOf k r).testBit (8 * row + (col ^^^ 1))) ∧
    ((List.range 64).filter fun i =>
      (shapeOf k r).testBit i && decide (i / 8 % 2 = 0) && decide (i % 8 % 2 = 0)).length = 4 := by
  interval_cases k <;> interval_cases r <;> decide

theorem C26_witness :
    1 ≤ 5 ∧ 5 ≤ 7 ∧ 2 ≤ 3 ∧
    (((List.range 64).filter fun i => (shapeOf 5 2).testBit i).length = 16 ∧
    (∀ row, row < 8 → ∀ col, col < 8 →
      (shapeOf 5 2).testBit (8 * row + col) = (shapeOf 5 2).testBit (8 * (row ^^^ 1) + col) ∧
      (shapeOf 5 2).testBit (8 * row + col) = (shapeOf 5 2).testBit (8 * row + (col ^^^ 1))) ∧
    ((List.range 64).filter fun i =>
      (shapeOf 5 2).testBit i && decide (i / 8 % 2 = 0) && decide (i % 8 % 2 = 0)).length = 4) :=
  ⟨by decide, by decide, by decide,
    C26_shapes_two_by_two 5 2 (by decide) (by decide) (by decide)⟩

/-! ## C28: termination of `clearFullLines` -/

theorem clearLoop_fuel_add (k : Nat) : ∀ (fuel : Nat) (B : Board) (y c : Nat) (r : Board × Nat),
    B.clearLoop fuel y c = some r → B.clearLoop (fuel + k) y c = some r := by
  induction k with
  | zero => intro fuel B y c r h; exact h
  | succ k ih =>
    intro fuel B y c r h
    exact clearLoop_fuel_mono (fuel + k) B y c r (ih fuel B y c r h)

/-- C28: `clearFullLines` terminates on every board: the outer loop ends
within 41 passes, every larger fuel gives the same result, and the value
returned is the number of full display rows, each counted once.  When the top
display row is full, the pass at `y = 0` empties it and the 8-bit loop
variable, decremented to 254 and incremented again, makes the next pass start
at `y = 0` once more. -/
theorem C28_clearFullLines_terminates (b : Board) (hb : b.WF) :
    (∃ b', b.clearFullLines = some (b', (b.displayRows.filter fun r => rowIsFull r).length) ∧
      ∀ fuel, CLEAR_FUEL ≤ fuel →
        b.clearLoop fuel 0 0 = some (b', (b.displayRows.filter fun r => rowIsFull r).length)) ∧
    (b.isFullRow 0 = true →
      (0 + 256 - 2) % 256 = 254 ∧ (254 + 2) % 256 = 0 ∧
      ∀ fuel c, b.clearLoop (fuel + 1) 0 c = b.clearTop.clearLoop fuel 0 ((c + 1) % 256)) := by
  refine ⟨?_, ?_⟩
  · obtain ⟨b', hres, _, _⟩ := clearFullLines_spec hb
    rw [displayRows_filter_full]
    refine ⟨b', hres, fun fuel hf => ?_⟩
    have h := clearLoop_fuel_add (fuel - CLEAR_FUEL) CLEAR_FUEL b 0 0 _ hres
    rw [show CLEAR_FUEL + (fuel - CLEAR_FUEL) = fuel by omega] at h
    exact h
  · intro hfull
    refine ⟨rfl, rfl, fun fuel c => ?_⟩
    have hf : b.isFullAt 0 = true := by
      have := isFullAt_eq_isFullRow b (show 0 < 20 by decide)
      rw [show 2 * 0 = 0 from rfl] at this
      rw [this]; exact hfull
    have hs : b.shiftLoop SHIFT_FUEL 0 = some b := rfl
    conv => lhs; unfold Board.clearLoop
    rw [if_pos (by decide), if_pos hf, hs]

theorem C28_witness :
    topRowFull.WF ∧
    ((∃ b', topRowFull.clearFullLines
          = some (b', (topRowFull.displayRows.filter fun r => rowIsFull r).length) ∧
      ∀ fuel, CLEAR_FUEL ≤ fuel →
        topRowFull.clearLoop fuel 0 0
          = some (b', (topRowFull.displayRows.filter fun r => rowIsFull r).length)) ∧
    (topRowFull.isFullRow 0 = true →
      (0 + 256 - 2) % 256 = 254 ∧ (254 + 2) % 256 = 0 ∧
      ∀ fuel c, topRowFull.clearLoop (fuel + 1) 0 c
        = topRowFull.clearTop.clearLoop fuel 0 ((c + 1) % 256))) :=
  ⟨by decide, C28_clearFullLines_terminates topRowFull (by decide)⟩

/-- On `topRowFull` the top display row is full and exactly one row is
counted. -/
theorem topRowFull_facts :
    topRowFull.isFullRow 0 = true ∧
    (topRowFull.displayRows.filter fun r => rowIsFull r).length = 1 := by
  decide

/-! ## C24: `resetGame` -/

theorem storeFlat_WF {b : Board} (h : b.WF) (y x v : Nat) : (b.storeFlat y x v).WF := by
  unfold Board.storeFlat
  split
  · exact store_WF h _ _ _
  · exact h

theorem byte_storeFlat_zero {b : Board} (h : b.WF) (y' x : Nat) {y i : Nat} (hy : y < 40)
    (hi : i < 11) :
    (b.storeFlat y' x 0).byte y i
      = if y' * ROW_BYTES + x = y * ROW_BYTES + i then 0 else b.byte y i := by
  unfold Board.storeFlat
  unfold ROW_BYTES BOARD_HEIGHT BOARD_WIDTH
  by_cases hin : y' * ((28 * 3 + 7) / 8) + x < 40 * ((28 * 3 + 7) / 8)
  · rw [if_pos hin]
    rw [byte_store h (by omega) (Nat.mod_lt _ (by decide))]
    by_cases e : y' * ((28 * 3 + 7) / 8) + x = y * ((28 * 3 + 7) / 8) + i
    · rw [if_pos e, if_pos (by omega)]
    · rw [if_neg e, if_neg (by omega)]
  · rw [if_neg hin, if_neg (by omega)]

/-- The two loops of `Board::clear`, run over any list of index pairs: the
board stays well formed, a byte of the array addressed by one of the pairs is
0 afterwards, and every other byte keeps its value. -/
theorem clearFold_spec (l : List (Nat × Nat)) : ∀ (b : Board), b.WF →
    (l.foldl (fun acc yx => acc.storeFlat yx.1 yx.2 0) b).WF ∧
    ∀ y i, y < 40 → i < 11 →
      ((∃ p, p ∈ l ∧ p.1 * ROW_BYTES + p.2 = y * ROW_BYTES + i) →
        (l.foldl (fun acc yx => acc.storeFlat yx.1 yx.2 0) b).byte y i = 0) ∧
      (b.byte y i = 0 →
        (l.foldl (fun acc yx => acc.storeFlat yx.1 yx.2 0) b).byte y i = 0) := by
  induction l with
  | nil =>
    intro b h
    refine ⟨h, fun y i _ _ => ⟨?_, fun h0 => h0⟩⟩
    rintro ⟨p, hp, _⟩
    cases hp
  | cons q l ih =>
    intro b h
    have h1 := storeFlat_WF h q.1 q.2 0
    obtain ⟨hw, hb⟩ := ih (b.storeFlat q.1 q.2 0) h1
    rw [List.foldl_cons]
    refine ⟨hw, fun y i hy hi => ⟨?_, ?_⟩⟩
    · rintro ⟨p, hp, he⟩
      rcases List.mem_cons.1 hp with e | hp'
      · subst e
        apply (hb y i hy hi).2
        rw [byte_storeFlat_zero h _ _ hy hi, if_pos he]
      · exact (hb y i hy hi).1 ⟨p, hp', he⟩
    · intro h0
      apply (hb y i hy hi).2
      rw [byte_storeFlat_zero h _ _ hy hi]
      split
      · rfl
      · exact h0

theorem mem_clearIndices {y i : Nat} (hy : y < 40) (hi : i < 14) : (y, i) ∈ clearIndices := by
  unfold clearIndices BOARD_HEIGHT BOARD_WIDTH
  simp only [List.mem_flatMap, List.mem_map, List.mem_range]
  exact ⟨y, hy, i, hi, rfl⟩

theorem clear_WF {b : Board} (h : b.WF) : b.clear.WF :=
  (clearFold_spec clearIndices b h).1

theorem clear_byte {b : Board} (h : b.WF) {y i : Nat} (hy : y < 40) (hi : i < 11) :
    b.clear.byte y i = 0 :=
  ((clearFold_spec clearIndices b h).2 y i hy hi).1
    ⟨(y, i), mem_clearIndices hy (by omega), rfl⟩

/-- A cell of a row whose bytes are all 0 is empty. -/
theorem getFieldType_of_zero_row {b : Board} (h : b.WF) {x y : Nat} (hx : x < 28)
    (hz : ∀ i, i < 11 → b.byte y i = 0) : b.getFieldType x y = 0 := by
  apply Nat.eq_of_testBit_eq
  intro j
  rw [testBit_getFieldType h hx, Nat.zero_testBit]
  by_cases h3 : j < 3
  · unfold Board.rowBit
    rw [hz _ (by omega)]
    simp
  · simp [h3]

theorem clear_getFieldType {b : Board} (h : b.WF) {x y : Nat} (hx : x < 28) (hy : y < 40) :
    b.clear.getFieldType x y = NO_TETRO :=
  getFieldType_of_zero_row (clear_WF h) hx (fun _ hi => clear_byte h hy hi)

/-- C24: after `resetGame`, from any state with a well-formed board (game
over and paused states included), `score = 0`, `level = 1`,
`clearedRows = 0`, `totalClearedRows = 0`, `fallSpeed = 1000`,
`isPaused = false`, `gameOver = false`, and every board cell `x < 28`,
`y < 40` is empty. -/
theorem C24_resetGame (g : Game) (hb : g.board.WF) :
    g.resetGame.score = 0 ∧ g.resetGame.level = 1 ∧ g.resetGame.clearedRows = 0 ∧
    g.resetGame.totalClearedRows = 0 ∧ g.resetGame.fallSpeed = 1000 ∧
    g.resetGame.isPaused = false ∧ g.resetGame.gameOver = false ∧
    ∀ x y, x < BOARD_WIDTH → y < BOARD_HEIGHT →
      g.resetGame.board.getFieldType x y = NO_TETRO := by
  refine ⟨rfl, rfl, rfl, rfl, rfl, rfl, rfl, fun x y hx hy => ?_⟩
  have e : g.resetGame.board = g.board.clear := by
    unfold Game.resetGame
    dsimp only
  rw [e]
  exact clear_getFieldType hb hx hy

theorem C24_witness :
    gameOverState.board.WF ∧
    (gameOverState.resetGame.score = 0 ∧ gameOverState.resetGame.level = 1 ∧
    gameOverState.resetGame.clearedRows = 0 ∧
    gameOverState.resetGame.totalClearedRows = 0 ∧ gameOverState.resetGame.fallSpeed = 1000 ∧
    gameOverState.resetGame.isPaused = false ∧ gameOverState.resetGame.gameOver = false ∧
    ∀ x y, x < BOARD_WIDTH → y < BOARD_HEIGHT →
      gameOverState.resetGame.board.getFieldType x y = NO_TETRO) :=
  ⟨by decide, C24_resetGame gameOverState (by decide)⟩

/-! ## C29: the byte indices written by `Board::Board()` and `Board::clear()` -/

/-- C29 fails: the inner loop of `Board::Board()` and of `Board::clear()`
runs `x` up to `(BOARD_WIDTH + 1) / 2 - 1 = 13`, whereas a row of `field` has
`ROW_BYTES = 11` bytes.  In each of the 40 rows the three stores with
`x = 11, 12, 13` fall outside the row (120 stores in all); for `y < 39` they
land on bytes `0 .. 2` of row `y + 1`, and for `y = 39` the three of them
land behind the last byte of the array.  The store `field[0][11] = 0`, for
one, overwrites byte 0 of row 1. -/
theorem C29_clear_writes_outside_row :
    (BOARD_WIDTH + 1) / 2 = 14 ∧ ROW_BYTES = 11 ∧
    (∀ y, y < BOARD_HEIGHT →
      (y, 11) ∈ clearIndices ∧ (y, 12) ∈ clearIndices ∧ (y, 13) ∈ clearIndices) ∧
    ¬ (∀ p, p ∈ clearIndices → p.2 < ROW_BYTES) ∧
    ¬ (∀ p, p ∈ clearIndices → p.1 * ROW_BYTES + p.2 < BOARD_HEIGHT * ROW_BYTES) ∧
    topRowFull.byte 1 0 = 255 ∧ (topRowFull.storeFlat 0 11 0).byte 1 0 = 0 := by
  have hm : ∀ y, y < BOARD_HEIGHT →
      (y, 11) ∈ clearIndices ∧ (y, 12) ∈ clearIndices ∧ (y, 13) ∈ clearIndices :=
    fun y hy => ⟨mem_clearIndices hy (by decide), mem_clearIndices hy (by decide),
      mem_clearIndices hy (by decide)⟩
  refine ⟨by decide, by decide, hm, fun h => ?_, fun h => ?_, by decide, by decide⟩
  · exact absurd (h (39, 13) (hm 39 (by decide)).2.2) (by decide)
  · exact absurd (h (39, 13) (hm 39 (by decide)).2.2) (by decide)

/-! ## C27: the current piece of a running game never collides -/

theorem createTetromino_valid {r : Nat} (hr : r < 18) : (Game.createTetromino r).Valid := by
  interval_cases r <;> decide

theorem setOffset_valid {t : Tetromino} (h : t.Valid) (x y : Nat) : (t.setOffset x y).Valid := by
  obtain ⟨h1, h2, h3, _, _⟩ := h
  exact ⟨h1, h2, h3, Nat.mod_lt _ (by decide), Nat.mod_lt _ (by decide)⟩

/-- The collision test reads only the kind of the piece passed in. -/
theorem checkCollision_type (b : Board) {t t' : Tetromino} (h : t.type = t'.type)
    (tx ty r : Nat) : b.checkCollision t tx ty r = b.checkCollision t' tx ty r := by
  unfold Board.checkCollision
  rw [h]

theorem empty_no_collision_at_start {k : Nat} (hk1 : 1 ≤ k) (hk7 : k ≤ 7) (c : Nat) :
    Board.empty.checkCollision ⟨k, c, 0, 13, 17⟩ 13 17 0 = false := by
  rw [checkCollision_type Board.empty (show (⟨k, c, 0, 13, 17⟩ : Tetromino).type
    = (⟨k, 0, 0, 13, 17⟩ : Tetromino).type from rfl)]
  interval_cases k <;> decide

/-- Each of the four moves keeps a valid piece valid and keeps it free of
collisions. -/
theorem moves_preserve (b : Board) (t : Tetromino) (hv : t.Valid) (go : Bool)
    (hc : go = false → b.checkCollision t t.offsetX t.offsetY t.rotation = false) :
    (((t.moveLeft b).2.Valid ∧ (go = false → b.checkCollision (t.moveLeft b).2
        (t.moveLeft b).2.offsetX (t.moveLeft b).2.offsetY (t.moveLeft b).2.rotation = false)) ∧
      ((t.moveRight b).2.Valid ∧ (go = false → b.checkCollision (t.moveRight b).2
        (t.moveRight b).2.offsetX (t.moveRight b).2.offsetY (t.moveRight b).2.rotation = false))) ∧
    (((t.moveDown b).2.Valid ∧ (go = false → b.checkCollision (t.moveDown b).2
        (t.moveDown b).2.offsetX (t.moveDown b).2.offsetY (t.moveDown b).2.rotation = false)) ∧
      ((t.rotate b).2.Valid ∧ (go = false → b.checkCollision (t.rotate b).2
        (t.rotate b).2.offsetX (t.rotate b).2.offsetY (t.rotate b).2.rotation = false))) := by
  obtain ⟨h1, h2, h3, h4, h5⟩ := hv
  refine ⟨⟨?_, ?_⟩, ⟨?_, ?_⟩⟩
  · unfold Tetromino.moveLeft
    by_cases h : b.checkCollision t ((t.offsetX + 256 - 2) % 256) t.offsetY t.rotation = true
    · rw [if_pos h]; exact ⟨⟨h1, h2, h3, h4, h5⟩, hc⟩
    · rw [if_neg h]
      refine ⟨⟨h1, h2, h3, Nat.mod_lt _ (by decide), h5⟩, fun _ => ?_⟩
      rw [checkCollision_type b (show ({ t with offsetX := (t.offsetX + 256 - 2) % 256 }
        : Tetromino).type = t.type from rfl)]
      exact Bool.eq_false_iff.2 h
  · unfold Tetromino.moveRight
    by_cases h : b.checkCollision t ((t.offsetX + 2) % 256) t.offsetY t.rotation = true
    · rw [if_pos h]; exact ⟨⟨h1, h2, h3, h4, h5⟩, hc⟩
    · rw [if_neg h]
      refine ⟨⟨h1, h2, h3, Nat.mod_lt _ (by decide), h5⟩, fun _ => ?_⟩
      rw [checkCollision_type b (show ({ t with offsetX := (t.offsetX + 2) % 256 }
        : Tetromino).type = t.type from rfl)]
      exact Bool.eq_false_iff.2 h
  · unfold Tetromino.moveDown
    by_cases h : b.checkCollision t t.offsetX ((t.offsetY + 2) % 256) t.rotation = true
    · rw [if_pos h]; exact ⟨⟨h1, h2, h3, h4, h5⟩, hc⟩
    · rw [if_neg h]
      refine ⟨⟨h1, h2, h3, h4, Nat.mod_lt _ (by decide)⟩, fun _ => ?_⟩
      rw [checkCollision_type b (show ({ t with offsetY := (t.offsetY + 2) % 256 }
        : Tetromino).type = t.type from rfl)]
      exact Bool.eq_false_iff.2 h
  · unfold Tetromino.rotate
    dsimp only
    by_cases h : b.checkCollision t t.offsetX t.offsetY (((t.rotation + 1) % 4) % 256) = true
    · rw [if_pos h]; exact ⟨⟨h1, h2, h3, h4, h5⟩, hc⟩
    · rw [if_neg h]
      refine ⟨⟨h1, h2, ?_, h4, h5⟩, fun _ => ?_⟩
      · show (t.rotation + 1) % 4 % 256 ≤ 3
        omega
      · rw [checkCollision_type b (show ({ t with rotation := (t.rotation + 1) % 4 % 256 }
          : Tetromino).type = t.type from rfl)]
        exact Bool.eq_false_iff.2 h

theorem withCurrent_inv {g : Game} (hg : g.Inv) {t : Tetromino} (hv : t.Valid)
    (hc : g.gameOver = false → g.board.checkCollision t t.offsetX t.offsetY t.rotation = false) :
    (g.withCurrent t).Inv := by
  obtain ⟨_, hn, ha, _⟩ := hg
  refine ⟨hv, ?_, ha, hc⟩
  unfold Game.withCurrent
  dsimp only
  split
  · exact hv
  · exact hn

theorem init_inv {r1 r2 : Nat} (h1 : r1 < 18) (h2 : r2 < 18) : (Game.init r1 r2).Inv := by
  have hv := createTetromino_valid h1
  refine ⟨setOffset_valid hv 13 17, createTetromino_valid h2, rfl, fun _ => ?_⟩
  exact empty_no_collision_at_start hv.1 hv.2.1 _

theorem keyAction_inv {g : Game} (hg : g.Inv) (key : Char) : (g.keyAction key).Inv := by
  have hm := moves_preserve g.board g.currentTetromino hg.1 g.gameOver hg.2.2.2
  unfold Game.keyAction
  split
  · exact withCurrent_inv hg hm.1.1.1 hm.1.1.2
  split
  · exact withCurrent_inv hg hm.2.2.1 hm.2.2.2
  split
  · exact withCurrent_inv hg hm.1.2.1 hm.1.2.2
  split
  · exact withCurrent_inv hg hm.2.1.1 hm.2.1.2
  split
  · exact hg
  · exact hg

theorem commitRows_board (g : Game) (n : Nat) : (g.commitRows n).board = g.board := by
  unfold Game.commitRows Game.updateLevelAndSpeed Game.updateScore
  dsimp only
  repeat' split
  all_goals rfl

theorem run_inv {g g' : Game} (hg : g.Inv) {currentTime rnd : Nat} (hrnd : rnd < 18)
    (hrun : g.run currentTime rnd = some g') : g'.Inv := by
  have hm := (moves_preserve g.board g.currentTetromino hg.1 g.gameOver hg.2.2.2).2.1
  unfold Game.run at hrun
  by_cases hp : g.isPaused = true
  · rw [if_pos hp] at hrun
    cases hrun; exact hg
  rw [if_neg hp] at hrun
  by_cases hf : (currentTime + 2 ^ 32 - g.lastFallTime) % 2 ^ 32 ≥ g.fallSpeed
  swap
  · rw [if_neg hf] at hrun
    cases hrun; exact hg
  rw [if_pos hf] at hrun
  dsimp only at hrun
  by_cases hmv : (g.currentTetromino.moveDown g.board).1 = true
  · simp only [hmv, Bool.not_true, Bool.false_eq_true, if_false] at hrun
    cases hrun
    exact withCurrent_inv hg hm.1 hm.2
  · simp only [hmv, Bool.not_false, if_true] at hrun
    cases hcl : (g.board.placeTetromino g.currentTetromino).clearFullLines with
    | none => rw [hcl] at hrun; cases hrun
    | some res =>
      obtain ⟨board2, n⟩ := res
      rw [hcl] at hrun
      dsimp only at hrun
      by_cases ha : g.nextIsCurrent = true
      · rw [if_pos ha] at hrun; cases hrun
      · rw [if_neg ha] at hrun
        have hcur := setOffset_valid hg.2.1 13 17
        by_cases hc : board2.checkCollision (g.nextTetromino.setOffset 13 17)
            (g.nextTetromino.setOffset 13 17).offsetX (g.nextTetromino.setOffset 13 17).offsetY
            (g.nextTetromino.setOffset 13 17).rotation = true
        · rw [if_pos hc] at hrun
          cases hrun
          exact ⟨hcur, hcur, rfl, fun h => by cases h⟩
        · rw [if_neg hc] at hrun
          cases hrun
          have hgo : g.gameOver = false := by
            rw [← hg.2.2.1]; exact Bool.eq_false_iff.2 ha
          refine ⟨hcur, createTetromino_valid hrnd, ?_, fun _ => ?_⟩
          · show false = (Game.commitRows _ n).gameOver
            rw [commitRows_gameOver]; exact hgo.symm
          · show (Game.commitRows _ n).board.checkCollision _ _ _ _ = false
            rw [commitRows_board]
            exact Bool.eq_false_iff.2 hc

theorem reachable_inv {g : Game} (h : Reachable g) : g.Inv := by
  induction h with
  | init r1 r2 h1 h2 => exact init_inv h1 h2
  | run g g' currentTime rnd hrnd _ hrun ih => exact run_inv ih hrnd hrun
  | key g key _ ih => exact keyAction_inv ih key

/-- C27: in every state reachable from `init` (empty board, current piece at
offset `(13, 17)`, rotation 0) by `run()` ticks and `keyAction` calls, as
long as `gameOver` is false the current piece does not collide:
`checkCollision(current, offsetX, offsetY, rotation)` is false.  Hence every
cell of the piece (the cells `placeTetromino` would write on a commit) lies
within the board, at the unwrapped position `offset - board offset + (col,
row)`, and is empty. -/
theorem C27_reachable_no_collision (g : Game) (hr : Reachable g) (hgo : g.gameOver = false) :
    g.board.checkCollision g.currentTetromino g.currentTetromino.offsetX
        g.currentTetromino.offsetY g.currentTetromino.rotation = false ∧
    ∀ i, i < 64 →
      shapeBit (shapeOf g.currentTetromino.type g.currentTetromino.rotation) i = true →
      ((g.currentTetromino.offsetX + 256 - BOARD_OFFSET_X) % 256 + i % 8) % 256 < BOARD_WIDTH ∧
      ((g.currentTetromino.offsetY + 256 - BOARD_OFFSET_Y) % 256 + i / 8) % 256 < BOARD_HEIGHT ∧
      g.board.getFieldType
        (((g.currentTetromino.offsetX + 256 - BOARD_OFFSET_X) % 256 + i % 8) % 256)
        (((g.currentTetromino.offsetY + 256 - BOARD_OFFSET_Y) % 256 + i / 8) % 256)
          = NO_TETRO := by
  obtain ⟨hv, _, _, hc⟩ := reachable_inv hr
  have hc' := hc hgo
  refine ⟨hc', fun i hi hs => ?_⟩
  rw [shapeBit_eq_testBit _ hi] at hs
  have h := no_collision_cells hv.1 hv.2.1 hv.2.2.1 hv.2.2.2.1 hv.2.2.2.2 hc' hi hs
  exact ⟨h.2.2.1, h.2.2.2.1, h.2.2.2.2⟩

theorem C27_witness :
    Reachable (Game.init 1 4) ∧ (Game.init 1 4).gameOver = false ∧
    ((Game.init 1 4).board.checkCollision (Game.init 1 4).currentTetromino
        (Game.init 1 4).currentTetromino.offsetX
        (Game.init 1 4).currentTetromino.offsetY (Game.init 1 4).currentTetromino.rotation = false ∧
    ∀ i, i < 64 →
      shapeBit (shapeOf (Game.init 1 4).currentTetromino.type
        (Game.init 1 4).currentTetromino.rotation) i = true →
      (((Game.init 1 4).currentTetromino.offsetX + 256 - BOARD_OFFSET_X) % 256 + i % 8) % 256
        < BOARD_WIDTH ∧
      (((Game.init 1 4).currentTetromino.offsetY + 256 - BOARD_OFFSET_Y) % 256 + i / 8) % 256
        < BOARD_HEIGHT ∧
      (Game.init 1 4).board.getFieldType
        ((((Game.init 1 4).currentTetromino.offsetX + 256 - BOARD_OFFSET_X) % 256 + i % 8) % 256)
        ((((Game.init 1 4).currentTetromino.offsetY + 256 - BOARD_OFFSET_Y) % 256 + i / 8) % 256)
          = NO_TETRO) :=
  ⟨Reachable.init 1 4 (by decide) (by decide), rfl,
    C27_reachable_no_collision (Game.init 1 4) (Reachable.init 1 4 (by decide) (by decide)) rfl⟩

/-! ## C30: the board operations respect the precondition of the cell accesses -/

theorem getFieldTypeChk_eq (b : Board) {x y : Nat} (hx : x < 28) (hy : y < 40) :
    b.getFieldTypeChk x y = some (b.getFieldType x y) := by
  unfold Board.getFieldTypeChk BOARD_WIDTH BOARD_HEIGHT
  rw [if_pos ⟨hx, hy⟩]

theorem setFieldChk_eq (b : Board) {x y : Nat} (hx : x < 28) (hy : y < 40) (c : Nat) :
    b.setFieldChk x y c = some (b.setField x y c) := by
  unfold Board.setFieldChk BOARD_WIDTH BOARD_HEIGHT
  rw [if_pos ⟨hx, hy⟩]

/-- A checked fold whose steps all succeed yields the plain fold. -/
theorem foldlM_eq_some {α β : Type} (f : α → β → α) (g : α → β → Option α) (l : List β)
    (h : ∀ a x, x ∈ l → g a x = some (f a x)) :
    ∀ a, l.foldlM g a = some (l.foldl f a) := by
  induction l with
  | nil => intro a; rfl
  | cons x xs ih =>
    intro a
    rw [List.foldlM_cons, h a x (List.mem_cons_self _ _), List.foldl_cons]
    exact ih (fun a' x' hx' => h a' x' (List.mem_cons_of_mem _ hx')) (f a x)

theorem collidesAtChk_eq (b : Board) (shape boardX boardY i : Nat) :
    b.collidesAtChk shape boardX boardY i = some (b.collidesAt shape boardX boardY i) := by
  unfold Board.collidesAtChk Board.collidesAt
  by_cases hs : shapeBit shape i = true
  · rw [if_pos hs, if_pos hs]
    dsimp only
    by_cases ho : (boardX + i % 8) % 256 ≥ BOARD_WIDTH ∨ (boardY + i / 8) % 256 ≥ BOARD_HEIGHT
    · rw [if_pos ho, if_pos ho]
    · rw [if_neg ho, if_neg ho]
      have hx : (boardX + i % 8) % 256 < 28 := by
        unfold BOARD_WIDTH at ho; omega
      have hy : (boardY + i / 8) % 256 < 40 := by
        unfold BOARD_HEIGHT at ho; omega
      rw [getFieldTypeChk_eq b hx hy, Option.some_bind]
      split <;> rfl
  · rw [if_neg hs, if_neg hs]

theorem checkCollisionLoopChk_eq (b : Board) (shape boardX boardY : Nat) (l : List Nat) :
    b.checkCollisionLoopChk shape boardX boardY l
      = some (l.any (b.collidesAt shape boardX boardY)) := by
  induction l with
  | nil => rfl
  | cons i is ih =>
    unfold Board.checkCollisionLoopChk
    rw [collidesAtChk_eq, Option.some_bind, List.any_cons, ih]
    cases b.collidesAt shape boardX boardY i <;> simp

theorem checkCollisionChk_eq (b : Board) (t : Tetromino) (tx ty r : Nat) :
    b.checkCollisionChk t tx ty r = some (b.checkCollision t tx ty r) := by
  unfold Board.checkCollisionChk Board.checkCollision
  exact checkCollisionLoopChk_eq b _ _ _ _

theorem placeAtChk_eq (b : Board) (shape boardX boardY type i : Nat) :
    b.placeAtChk shape boardX boardY type i = some (b.placeAt shape boardX boardY type i) := by
  unfold Board.placeAtChk Board.placeAt
  by_cases hs : shapeBit shape i = true
  · rw [if_pos hs, if_pos hs]
    dsimp only
    by_cases ho : (boardX + i % 8) % 256 < BOARD_WIDTH ∧ (boardY + i / 8) % 256 < BOARD_HEIGHT
    · rw [if_pos ho, if_pos ho]
      exact setFieldChk_eq b ho.1 ho.2 _
    · rw [if_neg ho, if_neg ho]
  · rw [if_neg hs, if_neg hs]

theorem placeTetrominoChk_eq (b : Board) (t : Tetromino) :
    b.placeTetrominoChk t = some (b.placeTetromino t) := by
  unfold Board.placeTetrominoChk Board.placeTetromino
  exact foldlM_eq_some _ _ _ (fun a x _ => placeAtChk_eq a _ _ _ _ x) b

theorem isFullLoopChk_eq (b : Board) {y : Nat} (hy : y + 1 < 40) (l : List Nat)
    (hl : ∀ x, x ∈ l → x < 28) :
    b.isFullLoopChk y l = some (l.all fun x =>
      !(b.getFieldType x y == NO_TETRO || b.getFieldType x ((y + 1) % 256) == NO_TETRO)) := by
  induction l with
  | nil => rfl
  | cons x xs ih =>
    have hx := hl x (List.mem_cons_self _ _)
    have hy1 : (y + 1) % 256 < 40 := by omega
    unfold Board.isFullLoopChk Board.emptyCellChk
    rw [getFieldTypeChk_eq b hx (by omega), Option.some_bind,
      getFieldTypeChk_eq b hx hy1, List.all_cons,
      ih (fun x' hx' => hl x' (List.mem_cons_of_mem _ hx'))]
    cases h1 : (b.getFieldType x y == NO_TETRO)
    · cases h2 : (b.getFieldType x ((y + 1) % 256) == NO_TETRO) <;> simp [h2]
    · simp

theorem isFullAtChk_eq (b : Board) {y : Nat} (hy : y + 1 < 40) :
    b.isFullAtChk y = some (b.isFullAt y) := by
  unfold Board.isFullAtChk Board.isFullAt
  exact isFullLoopChk_eq b hy _ (fun x hx => List.mem_range.1 hx)

theorem shiftCellChk_eq (b : Board) {row x : Nat} (h2 : 2 ≤ row) (hr : row + 1 < 40)
    (hx : x < 28) : b.shiftCellChk row x = some (b.shiftCell row x) := by
  have hr1 : (row + 1) % 256 < 40 := by omega
  unfold Board.shiftCellChk Board.shiftCell
  rw [getFieldTypeChk_eq b hx (show row - 2 < 40 by omega), Option.some_bind,
    setFieldChk_eq b hx (show row < 40 by omega), Option.some_bind,
    getFieldTypeChk_eq _ hx (show row - 1 < 40 by omega), Option.some_bind,
    setFieldChk_eq _ hx hr1, Option.some_bind,
    getFieldTypeChk_eq _ hx (show row < 40 by omega), Option.some_bind,
    getFieldTypeChk_eq _ hx hr1, Option.some_bind]

theorem shiftRowChk_eq (b : Board) {row : Nat} (h2 : 2 ≤ row) (hr : row + 1 < 40) :
    b.shiftRowChk row = some (b.shiftRow row) := by
  unfold Board.shiftRowChk Board.shiftRow
  exact foldlM_eq_some _ _ _
    (fun a x hx => shiftCellChk_eq a h2 hr (List.mem_range.1 hx)) b

theorem shiftLoopChk_eq (fuel : Nat) : ∀ (b : Board) (row : Nat), row % 2 = 0 → row < 40 →
    b.shiftLoopChk fuel row = b.shiftLoop fuel row := by
  induction fuel with
  | zero => intro b row _ _; rfl
  | succ fuel ih =>
    intro b row he hr
    unfold Board.shiftLoopChk Board.shiftLoop
    by_cases h1 : row > 1
    · rw [if_pos h1, if_pos h1, shiftRowChk_eq b (by omega) (by omega), Option.some_bind]
      exact ih _ _ (by omega) (by omega)
    · rw [if_neg h1, if_neg h1]

theorem clearTopChk_eq (b : Board) : b.clearTopChk = some b.clearTop := by
  unfold Board.clearTopChk Board.clearTop
  refine foldlM_eq_some _ _ _ (fun a x hx => ?_) b
  have hx' := List.mem_range.1 hx
  rw [setFieldChk_eq a hx' (by decide), Option.some_bind, setFieldChk_eq _ hx' (by decide)]

theorem clearLoopChk_eq (fuel : Nat) : ∀ (b : Board) (y c : Nat), y % 2 = 0 →
    b.clearLoopChk fuel y c = b.clearLoop fuel y c := by
  induction fuel with
  | zero => intro b y c _; rfl
  | succ fuel ih =>
    intro b y c he
    unfold Board.clearLoopChk Board.clearLoop
    by_cases hy : y < BOARD_HEIGHT
    · rw [if_pos hy, if_pos hy]
      have hy' : y < 40 := hy
      rw [isFullAtChk_eq b (show y + 1 < 40 by omega), Option.some_bind]
      by_cases hf : b.isFullAt y = true
      · rw [if_pos hf, if_pos hf, shiftLoopChk_eq _ b y he hy']
        cases hs : b.shiftLoop SHIFT_FUEL y with
        | none => rfl
        | some b1 =>
          rw [Option.some_bind, clearTopChk_eq, Option.some_bind]
          dsimp only
          exact ih _ _ _ (by omega)
      · rw [if_neg hf, if_neg hf]
        exact ih _ _ _ (by omega)
    · rw [if_neg hy, if_neg hy]

/-- C30: for every board, every piece and every position, `checkCollision`,
`placeTetromino` and `clearFullLines` call `getFieldType` and `setField` only
with `x < 28` and `y < 40`: run with checked cell accesses, each of the three
operations completes without a violated precondition and yields the result
of the unchecked operation.  This holds for every kind and rotation value,
the kinds `1 .. 7` and rotations `0 .. 3` included, and every offset. -/
theorem C30_cell_accesses_in_bounds (b : Board) (hb : b.WF) (t : Tetromino)
    (tx ty r : Nat) :
    b.checkCollisionChk t tx ty r = some (b.checkCollision t tx ty r) ∧
    b.placeTetrominoChk t = some (b.placeTetromino t) ∧
    ∃ res, b.clearFullLines = some res ∧ b.clearFullLinesChk = some res := by
  refine ⟨checkCollisionChk_eq b t tx ty r, placeTetrominoChk_eq b t, ?_⟩
  obtain ⟨b', h, _⟩ := clearFullLines_spec hb
  refine ⟨_, h, ?_⟩
  unfold Board.clearFullLinesChk
  rw [clearLoopChk_eq CLEAR_FUEL b 0 0 rfl]
  exact h

theorem C30_witness :
    towerBoard.WF ∧
    (towerBoard.checkCollisionChk ((Game.createTetromino 1).setOffset 13 17) 255 0 3
      = some (towerBoard.checkCollision ((Game.createTetromino 1).setOffset 13 17) 255 0 3) ∧
    towerBoard.placeTetrominoChk ((Game.createTetromino 1).setOffset 13 17)
      = some (towerBoard.placeTetromino ((Game.createTetromino 1).setOffset 13 17)) ∧
    ∃ res, towerBoard.clearFullLines = some res ∧ towerBoard.clearFullLinesChk = some res) :=
  ⟨by decide,
    C30_cell_accesses_in_bounds towerBoard (by decide)
      ((Game.createTetromino 1).setOffset 13 17) 255 0 3⟩

/-! ## C39: the board after the constructor and after `clear` -/

/-- C39: after `Board::Board()` and after `Board::clear()`, run on any
contents of the 40 x 11 byte array, `getFieldType(x, y) = NO_TETRO` for
every `x < 28` and `y < 40`. -/
theorem C39_construct_clear_empty (b : Board) (hb : b.WF) (x y : Nat)
    (hx : x < BOARD_WIDTH) (hy : y < BOARD_HEIGHT) :
    b.construct.getFieldType x y = NO_TETRO ∧ b.clear.getFieldType x y = NO_TETRO := by
  have e : b.construct = b.clear := by
    unfold Board.construct Board.clear
    rfl
  rw [e]
  exact ⟨clear_getFieldType hb hx hy, clear_getFieldType hb hx hy⟩

theorem C39_witness :
    towerBoard.WF ∧ 27 < BOARD_WIDTH ∧ 39 < BOARD_HEIGHT ∧
    (towerBoard.construct.getFieldType 27 39 = NO_TETRO ∧
      towerBoard.clear.getFieldType 27 39 = NO_TETRO) :=
  ⟨by decide, by decide, by decide,
    C39_construct_clear_empty towerBoard (by decide) 27 39 (by decide) (by decide)⟩

/-! ## C35: a new piece on an empty board -/

/-- C35: for each of the 7 kinds, `checkCollision` at the spawn position
(offset `(13, 17)`, rotation 0) on an empty board returns false; every
rotation-0 shape has its rows `0 .. 3` (bits `0 .. 31`) empty, so that the
cells of the piece start at board row 0; a new game never starts in the
game-over condition. -/
theorem C35_spawn_no_collision (t : Tetromino) (hk1 : 1 ≤ t.type) (hk7 : t.type ≤ 7) :
    Board.empty.checkCollision t 13 17 0 = false ∧
    (∀ i, i < 32 → (shapeOf t.type 0).testBit i = false) ∧
    (∀ r1 r2, r1 < 18 → r2 < 18 →
      (Game.init r1 r2).gameOver = false ∧
      (Game.init r1 r2).board.checkCollision (Game.init r1 r2).currentTetromino
        (Game.init r1 r2).currentTetromino.offsetX (Game.init r1 r2).currentTetromino.offsetY
        (Game.init r1 r2).currentTetromino.rotation = false) := by
  refine ⟨?_, ?_, fun r1 r2 h1 h2 => ⟨rfl, (init_inv h1 h2).2.2.2 rfl⟩⟩
  · rw [checkCollision_type Board.empty (show t.type
      = (⟨t.type, 0, 0, 13, 17⟩ : Tetromino).type from rfl)]
    exact empty_no_collision_at_start hk1 hk7 0
  · generalize t.type = k at hk1 hk7
    interval_cases k <;> decide

theorem C35_witness :
    1 ≤ ((Game.createTetromino 9).setOffset 13 17).type ∧
    ((Game.createTetromino 9).setOffset 13 17).type ≤ 7 ∧
    (Board.empty.checkCollision ((Game.createTetromino 9).setOffset 13 17) 13 17 0 = false ∧
    (∀ i, i < 32 → (shapeOf ((Game.createTetromino 9).setOffset 13 17).type 0).testBit i = false) ∧
    (∀ r1 r2, r1 < 18 → r2 < 18 →
      (Game.init r1 r2).gameOver = false ∧
      (Game.init r1 r2).board.checkCollision (Game.init r1 r2).currentTetromino
        (Game.init r1 r2).currentTetromino.offsetX (Game.init r1 r2).currentTetromino.offsetY
        (Game.init r1 r2).currentTetromino.rotation = false)) :=
  ⟨by decide, by decide,
    C35_spawn_no_collision ((Game.createTetromino 9).setOffset 13 17) (by decide) (by decide)⟩

/-! ## C38: the score of a commit that raises the level -/

theorem commitRows_score (g : Game) (r : Nat) :
    (g.commitRows r).score =
      if r = 1 then (g.score + 2 * g.level) % 65536
      else if r = 2 then (g.score + 6 * g.level) % 65536
      else if r = 3 then (g.score + 10 * g.level) % 65536
      else if r = 4 then (g.score + 20 * g.level) % 65536
      else g.score := by
  unfold Game.commitRows Game.updateLevelAndSpeed Game.updateScore
  dsimp only
  by_cases h1 : r = 1
  · subst h1; simp only [if_true, Nat.lt_irrefl, gt_iff_lt, Nat.zero_lt_one]
    split <;> rfl
  by_cases h2 : r = 2
  · subst h2; simp only [h1, if_true, if_false, gt_iff_lt, Nat.zero_lt_two]
    split <;> rfl
  by_cases h3 : r = 3
  · subst h3; simp only [h1, h2, if_true, if_false, gt_iff_lt, Nat.zero_lt_succ]
    split <;> rfl
  by_cases h4 : r = 4
  · subst h4; simp only [h1, h2, h3, if_true, if_false, gt_iff_lt, Nat.zero_lt_succ]
    split <;> rfl
  simp only [h1, h2, h3, h4, if_false]
  repeat' split
  all_goals rfl

/-- The state that a commit tick of `run` returns, field by field. -/
theorem run_commit_fields {g g' : Game} {currentTime rnd : Nat}
    (hrun : g.run currentTime rnd = some g') (hp : g.isPaused = false)
    (hfire : g.fallSpeed ≤ (currentTime + 2 ^ 32 - g.lastFallTime) % 2 ^ 32)
    (hland : (g.currentTetromino.moveDown g.board).1 = false) :
    g.nextIsCurrent = false ∧
    ∃ board2 n, (g.board.placeTetromino g.currentTetromino).clearFullLines = some (board2, n) ∧
      g'.board = board2 ∧
      g'.currentTetromino = g.nextTetromino.setOffset 13 17 ∧
      g'.score = (g.commitRows n).score ∧ g'.level = (g.commitRows n).level ∧
      g'.clearedRows = (g.commitRows n).clearedRows ∧
      g'.totalClearedRows = (g.commitRows n).totalClearedRows ∧
      g'.fallSpeed = (g.commitRows n).fallSpeed := by
  have hb : ∀ (h : Game) (B : Board) (n : Nat),
      (({ h with board := B }).commitRows n).board = B ∧
      (({ h with board := B }).commitRows n).score = (h.commitRows n).score ∧
      (({ h with board := B }).commitRows n).level = (h.commitRows n).level ∧
      (({ h with board := B }).commitRows n).clearedRows = (h.commitRows n).clearedRows ∧
      (({ h with board := B }).commitRows n).totalClearedRows
        = (h.commitRows n).totalClearedRows ∧
      (({ h with board := B }).commitRows n).fallSpeed = (h.commitRows n).fallSpeed := by
    intro h B n
    unfold Game.commitRows Game.updateLevelAndSpeed Game.updateScore
    dsimp only
    repeat' split
    all_goals exact ⟨rfl, rfl, rfl, rfl, rfl, rfl⟩
  have hp' : ¬ g.isPaused = true := by rw [hp]; decide
  have hf : (currentTime + 2 ^ 32 - g.lastFallTime) % 2 ^ 32 ≥ g.fallSpeed := hfire
  unfold Game.run at hrun
  rw [if_neg hp', if_pos hf] at hrun
  dsimp only at hrun
  simp only [hland, Bool.not_false, if_true] at hrun
  cases hcl : (g.board.placeTetromino g.currentTetromino).clearFullLines with
  | none => rw [hcl] at hrun; cases hrun
  | some res =>
    obtain ⟨board2, n⟩ := res
    rw [hcl] at hrun
    dsimp only at hrun
    by_cases ha : g.nextIsCurrent = true
    · rw [if_pos ha] at hrun; cases hrun
    · rw [if_neg ha] at hrun
      obtain ⟨h1, h2, h3, h4, h5, h6⟩ := hb g board2 n
      refine ⟨Bool.eq_false_iff.2 ha, board2, n, rfl, ?_⟩
      split at hrun
      · cases hrun
        exact ⟨h1, rfl, h2, h3, h4, h5, h6⟩
      · cases hrun
        exact ⟨h1, rfl, h2, h3, h4, h5, h6⟩

/-- A commit tick of `run` on a well-formed board, with the two pieces being
different objects, returns. -/
theorem run_commit_returns (g : Game) (currentTime rnd : Nat) (hb : g.board.WF)
    (hp : g.isPaused = false) (hdist : g.nextIsCurrent = false)
    (hfire : g.fallSpeed ≤ (currentTime + 2 ^ 32 - g.lastFallTime) % 2 ^ 32)
    (hland : (g.currentTetromino.moveDown g.board).1 = false) :
    ∃ g', g.run currentTime rnd = some g' := by
  obtain ⟨board2, hclear, _, _⟩ := clearFullLines_spec (placeTetromino_WF hb g.currentTetromino)
  unfold Game.run
  simp only [hp, hland, hclear, hdist, ge_iff_le, hfire, if_true, Bool.not_false,
    Bool.false_eq_true, if_false]
  split
  · exact ⟨_, rfl⟩
  · exact ⟨_, rfl⟩

/-- C38: in a commit tick of `run()` (gravity fires, `moveDown` fails) that
clears `n` rows, the score grows by the `n`-row factor times the level
before the commit, also when the same commit raises the level:
`updateScore` runs before `updateLevelAndSpeed`, so with
`clearedRows + n >= 10` the level afterwards is `level + 1` while the score
was computed with `level`, and differs from the value computed with the new
level. -/
theorem C38_score_uses_level_before (g : Game) (currentTime rnd : Nat) (hb : g.board.WF)
    (hp : g.isPaused = false) (hdist : g.nextIsCurrent = false)
    (hfire : g.fallSpeed ≤ (currentTime + 2 ^ 32 - g.lastFallTime) % 2 ^ 32)
    (hland : (g.currentTetromino.moveDown g.board).1 = false) :
    ∃ board2 n g',
      (g.board.placeTetromino g.currentTetromino).clearFullLines = some (board2, n) ∧
      g.run currentTime rnd = some g' ∧
      (n = 1 → g'.score = (g.score + 2 * g.level) % 65536) ∧
      (n = 2 → g'.score = (g.score + 6 * g.level) % 65536) ∧
      (n = 3 → g'.score = (g.score + 10 * g.level) % 65536) ∧
      (n = 4 → g'.score = (g.score + 20 * g.level) % 65536) ∧
      (10 ≤ (g.clearedRows + n) % 65536 → g'.level = (g.level + 1) % 256) ∧
      (10 ≤ (g.clearedRows + n) % 65536 → g.level < 255 →
        g'.level = g.level + 1 ∧
        ∀ f, 0 < f → f ≤ 20 → g'.score = (g.score + f * g.level) % 65536 →
          g'.score ≠ (g.score + f * g'.level) % 65536) := by
  obtain ⟨g', hrun⟩ := run_commit_returns g currentTime rnd hb hp hdist hfire hland
  obtain ⟨_, board2, n, hcl, _, _, hs, hl, _⟩ := run_commit_fields hrun hp hfire hland
  have hsc := commitRows_score g n
  have hlv := (commitRows_fields g n).1
  rw [← hs] at hsc
  rw [← hl] at hlv
  refine ⟨board2, n, g', hcl, hrun, ?_, ?_, ?_, ?_, ?_, ?_⟩
  · intro h; rw [hsc, if_pos h]
  · intro h; subst h; rw [hsc]; rfl
  · intro h; subst h; rw [hsc]; rfl
  · intro h; subst h; rw [hsc]; rfl
  · intro h; rw [hlv, if_pos h]
  · intro h hl255
    have e : g'.level = g.level + 1 := by
      rw [hlv, if_pos h]; omega
    refine ⟨e, fun f hf0 hf20 hf => ?_⟩
    rw [hf, e, Nat.mul_succ]
    generalize f * g.level = a
    omega

/-! ## C36: the row counters and the level -/

theorem commitRows_total (g : Game) (r : Nat) :
    (g.commitRows r).totalClearedRows = (g.totalClearedRows + r) % 65536 := by
  unfold Game.commitRows Game.updateLevelAndSpeed Game.updateScore
  dsimp only
  repeat' split
  all_goals rfl

/-- One commit of at most 4 rows keeps the relation between the three
counters, below 2550 rows in total. -/
theorem commitRows_counters (g : Game) (r : Nat) (hr : r ≤ 4)
    (hc : g.clearedRows < 10) (hl : 1 ≤ g.level)
    (ht : g.totalClearedRows = 10 * (g.level - 1) + g.clearedRows)
    (hs : g.totalClearedRows + r < 2550) :
    (g.commitRows r).clearedRows < 10 ∧ 1 ≤ (g.commitRows r).level ∧
    (g.commitRows r).totalClearedRows
      = 10 * ((g.commitRows r).level - 1) + (g.commitRows r).clearedRows ∧
    (g.commitRows r).totalClearedRows = g.totalClearedRows + r := by
  obtain ⟨h1, _, h3⟩ := commitRows_fields g r
  have h4 := commitRows_total g r
  have e : (g.clearedRows + r) % 65536 = g.clearedRows + r := by omega
  rw [e] at h1 h3
  rw [h1, h3, h4]
  by_cases hup : 10 ≤ g.clearedRows + r
  · rw [if_pos hup, if_pos hup]
    omega
  · rw [if_neg hup, if_neg hup]
    omega

theorem commits_counters (rs : List Nat) (h4 : ∀ r ∈ rs, r ≤ 4) : ∀ (g : Game),
    g.clearedRows < 10 → 1 ≤ g.level →
    g.totalClearedRows = 10 * (g.level - 1) + g.clearedRows →
    g.totalClearedRows + rs.sum < 2550 →
    (rs.foldl Game.commitRows g).clearedRows < 10 ∧ 1 ≤ (rs.foldl Game.commitRows g).level ∧
    (rs.foldl Game.commitRows g).totalClearedRows
      = 10 * ((rs.foldl Game.commitRows g).level - 1)
        + (rs.foldl Game.commitRows g).clearedRows ∧
    (rs.foldl Game.commitRows g).totalClearedRows = g.totalClearedRows + rs.sum := by
  induction rs with
  | nil => intro g hc hl ht _; exact ⟨hc, hl, ht, by simp⟩
  | cons r rs ih =>
    intro g hc hl ht hs
    rw [List.sum_cons] at hs
    rw [List.foldl_cons, List.sum_cons]
    obtain ⟨k1, k2, k3, k4⟩ := commitRows_counters g r (h4 r (List.mem_cons_self _ _)) hc hl ht
      (by omega)
    obtain ⟨j1, j2, j3, j4⟩ := ih (fun r' hr' => h4 r' (List.mem_cons_of_mem _ hr'))
      (g.commitRows r) k1 k2 k3 (by omega)
    exact ⟨j1, j2, j3, by omega⟩

/-- C36: from a new game (level 1, both row counters 0), after any sequence
of commits that each clear at most 4 rows and clear fewer than 2550 rows in
total, `clearedRows < 10` and
`totalClearedRows = 10 * (level - 1) + clearedRows`; the total is the sum of
the rows cleared and the level is between 1 and 255. -/
theorem C36_counters_invariant (g0 : Game) (rs : List Nat) (hl : g0.level = 1)
    (hc : g0.clearedRows = 0) (ht : g0.totalClearedRows = 0)
    (h4 : ∀ r ∈ rs, r ≤ 4) (hs : rs.sum < 2550) :
    (rs.foldl Game.commitRows g0).clearedRows < 10 ∧
    (rs.foldl Game.commitRows g0).totalClearedRows
      = 10 * ((rs.foldl Game.commitRows g0).level - 1)
        + (rs.foldl Game.commitRows g0).clearedRows ∧
    (rs.foldl Game.commitRows g0).totalClearedRows = rs.sum ∧
    1 ≤ (rs.foldl Game.commitRows g0).level ∧ (rs.foldl Game.commitRows g0).level ≤ 255 := by
  obtain ⟨j1, j2, j3, j4⟩ := commits_counters rs h4 g0 (by omega) (by omega)
    (by rw [ht, hl, hc]) (by omega)
  refine ⟨j1, j3, by omega, j2, ?_⟩
  omega

theorem C36_witness :
    (Game.init 1 4).level = 1 ∧ (Game.init 1 4).clearedRows = 0 ∧
    (Game.init 1 4).totalClearedRows = 0 ∧
    (∀ r ∈ [4, 4, 3, 0, 1], r ≤ 4) ∧ [4, 4, 3, 0, 1].sum < 2550 ∧
    (([4, 4, 3, 0, 1].foldl Game.commitRows (Game.init 1 4)).clearedRows < 10 ∧
    ([4, 4, 3, 0, 1].foldl Game.commitRows (Game.init 1 4)).totalClearedRows
      = 10 * (([4, 4, 3, 0, 1].foldl Game.commitRows (Game.init 1 4)).level - 1)
        + ([4, 4, 3, 0, 1].foldl Game.commitRows (Game.init 1 4)).clearedRows ∧
    ([4, 4, 3, 0, 1].foldl Game.commitRows (Game.init 1 4)).totalClearedRows
      = [4, 4, 3, 0, 1].sum ∧
    1 ≤ ([4, 4, 3, 0, 1].foldl Game.commitRows (Game.init 1 4)).level ∧
    ([4, 4, 3, 0, 1].foldl Game.commitRows (Game.init 1 4)).level ≤ 255) :=
  ⟨rfl, rfl, rfl, by decide, by decide,
    C36_counters_invariant (Game.init 1 4) [4, 4, 3, 0, 1] rfl rfl rfl (by decide) (by decide)⟩

/-! ## C34: `pgm_read_qword` reverses the 64 bits -/

theorem testBit_masks (j : Nat) :
    (0xF0 : Nat).testBit j = (decide (4 ≤ j) && decide (j < 8)) ∧
    (0x0F : Nat).testBit j = decide (j < 4) ∧
    (0xCC : Nat).testBit j = (decide (j < 8) && decide (2 ≤ j % 4)) ∧
    (0x33 : Nat).testBit j = (decide (j < 8) && decide (j % 4 < 2)) ∧
    (0xAA : Nat).testBit j = (decide (j < 8) && decide (j % 2 = 1)) ∧
    (0x55 : Nat).testBit j = (decide (j < 8) && decide (j % 2 = 0)) := by
  by_cases h : j < 8
  · interval_cases j <;> decide
  · have hj : 8 ≤ j := by omega
    have hp : 256 ≤ 2 ^ j :=
      calc 256 = 2 ^ 8 := by decide
        _ ≤ 2 ^ j := Nat.pow_le_pow_right (by decide) hj
    have hz : ∀ n, n < 256 → n.testBit j = false := fun n hn =>
      Nat.testBit_lt_two_pow (Nat.lt_of_lt_of_le hn hp)
    rw [hz _ (by decide), hz _ (by decide), hz _ (by decide), hz _ (by decide),
      hz _ (by decide), hz _ (by decide)]
    simp [h]
    omega

theorem reverseByte_testBit (B : Nat) {j : Nat} (hj : j < 8) :
    (reverseByte B).testBit j = B.testBit (7 - j) := by
  unfold reverseByte
  simp only [testBit_mod_256, Nat.testBit_or, Nat.testBit_and, Nat.testBit_shiftRight,
    Nat.testBit_shiftLeft, (testBit_masks _).1, (testBit_masks _).2.1, (testBit_masks _).2.2.1,
    (testBit_masks _).2.2.2.1, (testBit_masks _).2.2.2.2.1, (testBit_masks _).2.2.2.2.2]
  interval_cases j <;> simp

theorem pgm_read_byte_testBit (w row : Nat) {j : Nat} (hj : j < 8) :
    (pgm_read_byte w row).testBit j = w.testBit (8 * row + j) := by
  unfold pgm_read_byte
  rw [testBit_mod_256, Nat.testBit_shiftRight]
  simp [hj]

theorem pgm_read_qword_step_testBit (w q row : Nat) {i : Nat} (hi : i < 64) :
    (pgm_read_qword_step w q row).testBit i =
      (q.testBit i || (decide ((7 - row) * 8 ≤ i) && decide (i - (7 - row) * 8 < 8) &&
        w.testBit (8 * row + (7 - (i - (7 - row) * 8))))) := by
  have e : pgm_read_qword_step w q row
      = (q ||| (reverseByte (pgm_read_byte w row) <<< ((7 - row) * 8))) % 2 ^ 64 := rfl
  rw [e, Nat.testBit_mod_two_pow, Nat.testBit_or, Nat.testBit_shiftLeft]
  simp only [hi, decide_True, Bool.true_and, ge_iff_le]
  by_cases h8 : i - (7 - row) * 8 < 8
  · rw [reverseByte_testBit _ h8, pgm_read_byte_testBit _ _ (by omega)]
    simp [h8]
  · have hz : (reverseByte (pgm_read_byte w row)).testBit (i - (7 - row) * 8) = false := by
      apply testBit_byte_high
      · unfold reverseByte
        exact Nat.mod_lt _ (by decide)
      · omega
    rw [hz]
    simp [h8]

theorem pgm_read_qword_fold_testBit (w : Nat) {i : Nat} (hi : i < 64) (l : List Nat) :
    ∀ q, (l.foldl (pgm_read_qword_step w) q).testBit i =
      (q.testBit i || l.any fun row =>
        decide ((7 - row) * 8 ≤ i) && decide (i - (7 - row) * 8 < 8) &&
          w.testBit (8 * row + (7 - (i - (7 - row) * 8)))) := by
  induction l with
  | nil => intro q; simp
  | cons row rows ih =>
    intro q
    rw [List.foldl_cons, ih, pgm_read_qword_step_testBit w q row hi, List.any_cons,
      Bool.or_assoc]

/-- Bit `i` of the word returned by `pgm_read_qword` is bit `63 - i` of the
stored word. -/
theorem pgm_read_qword_testBit (w : Nat) {i : Nat} (hi : i < 64) :
    (pgm_read_qword w).testBit i = w.testBit (63 - i) := by
  unfold pgm_read_qword
  rw [pgm_read_qword_fold_testBit w hi, Nat.zero_testBit, Bool.false_or, Bool.eq_iff_iff]
  simp only [List.any_eq_true, List.mem_range, Bool.and_eq_true, decide_eq_true_eq]
  constructor
  · rintro ⟨row, hrow, ⟨h1, h2⟩, h3⟩
    have e : 8 * row + (7 - (i - (7 - row) * 8)) = 63 - i := by omega
    rw [e] at h3
    exact h3
  · intro h
    refine ⟨7 - i / 8, by omega, ⟨by omega, by omega⟩, ?_⟩
    have e : 8 * (7 - i / 8) + (7 - (i - (7 - (7 - i / 8)) * 8)) = 63 - i := by omega
    rw [e]
    exact h

theorem pgm_read_qword_lt (w : Nat) : pgm_read_qword w < 2 ^ 64 := by
  unfold pgm_read_qword
  have e : List.range 8 = List.range 7 ++ [7] := by decide
  rw [e, List.foldl_append]
  exact Nat.mod_lt _ (by decide)

/-- C34: `pgm_read_qword` applied to a stored 64-bit word `w`, whose bytes it
reads in little-endian order, returns the 64-bit bit reversal of `w`: bit
`8 * row + col` of the result is bit `63 - (8 * row + col)` of `w`, that is
digit `8 * row + col` of the 64-digit binary literal read from the left; the
result is again a 64-bit word, and applying the reversal twice gives back
`w`. -/
theorem C34_pgm_read_qword_reverses (w : Nat) (hw : w < 2 ^ 64) :
    (∀ row col, row < 8 → col < 8 →
      (pgm_read_qword w).testBit (8 * row + col) = w.testBit (63 - (8 * row + col))) ∧
    (∀ row, row < 8 → pgm_read_byte w row = w / 2 ^ (8 * row) % 256) ∧
    pgm_read_qword w < 2 ^ 64 ∧
    pgm_read_qword (pgm_read_qword w) = w := by
  refine ⟨fun row col hr hc => pgm_read_qword_testBit w (by omega), ?_, pgm_read_qword_lt w, ?_⟩
  · intro row _
    unfold pgm_read_byte
    rw [Nat.shiftRight_eq_div_pow]
  · apply Nat.eq_of_testBit_eq
    intro i
    by_cases hi : i < 64
    · rw [pgm_read_qword_testBit _ hi, pgm_read_qword_testBit _ (by omega)]
      congr 1
      omega
    · have hp : 2 ^ 64 ≤ 2 ^ i := Nat.pow_le_pow_right (by decide) (by omega)
      rw [Nat.testBit_lt_two_pow (Nat.lt_of_lt_of_le (pgm_read_qword_lt _) hp),
        Nat.testBit_lt_two_pow (Nat.lt_of_lt_of_le hw hp)]

theorem C34_witness :
    tableWord 2 1 < 2 ^ 64 ∧
    ((∀ row col, row < 8 → col < 8 →
      (pgm_read_qword (tableWord 2 1)).testBit (8 * row + col)
        = (tableWord 2 1).testBit (63 - (8 * row + col))) ∧
    (∀ row, row < 8 → pgm_read_byte (tableWord 2 1) row = tableWord 2 1 / 2 ^ (8 * row) % 256) ∧
    pgm_read_qword (tableWord 2 1) < 2 ^ 64 ∧
    pgm_read_qword (pgm_read_qword (tableWord 2 1)) = tableWord 2 1) :=
  ⟨by decide, C34_pgm_read_qword_reverses (tableWord 2 1) (by decide)⟩

/-! ## C33: successive rotations of a shape -/

/-- C33: for every kind `k` in `1 .. 7` and rotation `r` in `0 .. 3`, the
occupied cells of shape `(k, (r + 1) mod 4)` are the occupied cells of shape
`(k, r)` turned by a quarter with `rotateCell`, the same map for all kinds,
and then moved by a translation `d`; the rotation index returns to `r` after
four steps of `rotate`, and with it the bitmap. -/
theorem C33_rotation_quarter_turn (k r : Nat) (hk1 : 1 ≤ k) (hk7 : k ≤ 7) (hr : r ≤ 3) :
    (∃ d : Int × Int,
      (∀ p ∈ occupiedCells (shapeOf k ((r + 1) % 4)),
        p ∈ (occupiedCells (shapeOf k r)).map fun q => translateCell d (rotateCell q)) ∧
      (∀ p ∈ (occupiedCells (shapeOf k r)).map fun q => translateCell d (rotateCell q),
        p ∈ occupiedCells (shapeOf k ((r + 1) % 4)))) ∧
    shapeOf k (((((r + 1) % 4 % 256 + 1) % 4 % 256 + 1) % 4 % 256 + 1) % 4 % 256)
      = shapeOf k r := by
  refine ⟨?_, ?_⟩
  swap
  · have e : ((((r + 1) % 4 % 256 + 1) % 4 % 256 + 1) % 4 % 256 + 1) % 4 % 256 = r := by omega
    rw [e]
  interval_cases k <;> interval_cases r
  · exact ⟨(0, -2), by decide⟩
  · exact ⟨(0, 0), by decide⟩
  · exact ⟨(0, -2), by decide⟩
  · exact ⟨(0, 0), by decide⟩
  · exact ⟨(2, -2), by decide⟩
  · exact ⟨(2, -2), by decide⟩
  · exact ⟨(2, -2), by decide⟩
  · exact ⟨(2, -2), by decide⟩
  · exact ⟨(0, -2), by decide⟩
  · exact ⟨(0, -2), by decide⟩
  · exact ⟨(0, -2), by decide⟩
  · exact ⟨(0, -2), by decide⟩
  · exact ⟨(0, -2), by decide⟩
  · exact ⟨(2, -2), by decide⟩
  · exact ⟨(0, -2), by decide⟩
  · exact ⟨(2, -2), by decide⟩
  · exact ⟨(2, -2), by decide⟩
  · exact ⟨(2, 0), by decide⟩
  · exact ⟨(2, -2), by decide⟩
  · exact ⟨(2, 0), by decide⟩
  · exact ⟨(0, -4), by decide⟩
  · exact ⟨(0, -2), by decide⟩
  · exact ⟨(0, -4), by decide⟩
  · exact ⟨(0, -2), by decide⟩
  · exact ⟨(2, -2), by decide⟩
  · exact ⟨(2, 0), by decide⟩
  · exact ⟨(2, -2), by decide⟩
  · exact ⟨(2, 0), by decide⟩

theorem C33_witness :
    1 ≤ 3 ∧ 3 ≤ 7 ∧ 1 ≤ 3 ∧
    ((∃ d : Int × Int,
      (∀ p ∈ occupiedCells (shapeOf 3 ((1 + 1) % 4)),
        p ∈ (occupiedCells (shapeOf 3 1)).map fun q => translateCell d (rotateCell q)) ∧
      (∀ p ∈ (occupiedCells (shapeOf 3 1)).map fun q => translateCell d (rotateCell q),
        p ∈ occupiedCells (shapeOf 3 ((1 + 1) % 4)))) ∧
    shapeOf 3 (((((1 + 1) % 4 % 256 + 1) % 4 % 256 + 1) % 4 % 256 + 1) % 4 % 256)
      = shapeOf 3 1) :=
  ⟨by decide, by decide, by decide,
    C33_rotation_quarter_turn 3 1 (by decide) (by decide) (by decide)⟩

/-! ## C31: `clearFullLines` is idempotent -/

/-- On a board without a full display row the outer loop only steps through
the rows and returns the board as it is. -/
theorem clearLoop_none_full (b : Board) (hn : ∀ d, d < 20 → b.isFullRow d = false) :
    ∀ (fuel d c : Nat), d ≤ 20 → 20 - d < fuel → b.clearLoop fuel (2 * d) c = some (b, c) := by
  intro fuel
  induction fuel with
  | zero => intro d c _ h; omega
  | succ fuel ih =>
    intro d c hd hf
    unfold Board.clearLoop
    by_cases h : 2 * d < BOARD_HEIGHT
    · have hd' : d < 20 := by unfold BOARD_HEIGHT at h; omega
      have hfull : ¬ b.isFullAt (2 * d) = true := by
        rw [isFullAt_eq_isFullRow b hd', hn d hd']; decide
      rw [if_pos h, if_neg hfull]
      have e : (2 * d + 2) % 256 = 2 * (d + 1) := by omega
      rw [e]
      exact ih (d + 1) c (by omega) (by omega)
    · rw [if_neg h]

/-- C31: for every board, after `clearFullLines` no display row is full, and
a second call of `clearFullLines` returns 0 and the very same board, so
every cell is unchanged. -/
theorem C31_clearFullLines_idempotent (b : Board) (hb : b.WF) :
    ∃ b' n, b.clearFullLines = some (b', n) ∧
      (∀ d, d < 20 → b'.isFullRow d = false) ∧
      (b'.displayRows.filter fun r => rowIsFull r) = [] ∧
      b'.clearFullLines = some (b', 0) ∧
      (∀ b'' m, b'.clearFullLines = some (b'', m) →
        m = 0 ∧ ∀ x y, b''.getFieldType x y = b'.getFieldType x y) := by
  obtain ⟨b', hres, _, hrows⟩ := clearFullLines_spec hb
  have hlen := fullCount_add_keptRows b 20
  have hn : ∀ d, d < 20 → b'.isFullRow d = false := by
    intro d hd
    unfold Board.isFullRow
    rw [hrows d hd]
    by_cases hc : d < b.fullCount 20
    · rw [if_pos hc]; exact emptyDisplayRow_not_full
    · rw [if_neg hc]
      exact keptRows_getD_not_full b 20 (by omega)
  have h2 : b'.clearFullLines = some (b', 0) :=
    clearLoop_none_full b' hn CLEAR_FUEL 0 0 (by omega) (by unfold CLEAR_FUEL BOARD_HEIGHT; omega)
  refine ⟨b', _, hres, hn, ?_, h2, ?_⟩
  · rw [List.filter_eq_nil_iff]
    intro r hr
    unfold Board.displayRows DISPLAY_ROWS BOARD_HEIGHT at hr
    obtain ⟨d, hd, rfl⟩ := List.mem_map.1 hr
    have := hn d (List.mem_range.1 hd)
    unfold Board.isFullRow at this
    rw [this]; decide
  · intro b'' m h
    rw [h2] at h
    cases h
    exact ⟨rfl, fun _ _ => rfl⟩

theorem C31_witness :
    bottomRowFull.WF ∧
    ∃ b' n, bottomRowFull.clearFullLines = some (b', n) ∧
      (∀ d, d < 20 → b'.isFullRow d = false) ∧
      (b'.displayRows.filter fun r => rowIsFull r) = [] ∧
      b'.clearFullLines = some (b', 0) ∧
      (∀ b'' m, b'.clearFullLines = some (b'', m) →
        m = 0 ∧ ∀ x y, b''.getFieldType x y = b'.getFieldType x y) :=
  ⟨by decide, C31_clearFullLines_idempotent bottomRowFull (by decide)⟩

/-! ## C37: the moves never wrap a piece around a board edge -/

/-- A position at which a piece does not collide lies in a narrow band: the
8-bit offsets are at most 30 and between 14 and 60. -/
theorem no_collision_offsets {b : Board} {t : Tetromino} {tx ty r : Nat}
    (hk1 : 1 ≤ t.type) (hk7 : t.type ≤ 7) (hr : r ≤ 3) (hx : tx < 256) (hy : ty < 256)
    (hc : b.checkCollision t tx ty r = false) : tx ≤ 30 ∧ 14 ≤ ty ∧ ty ≤ 60 := by
  obtain ⟨j, hj, hjs, hjc⟩ := shape_has_low_col hk1 hk7 hr
  obtain ⟨e1, e2, h1, h2, _⟩ := no_collision_cells hk1 hk7 hr hx hy hc hj hjs
  omega

/-- C37: for every board and every valid piece whose current position is
non-colliding, a successful `moveLeft`, `moveRight` or `moveDown` changes the
coordinate by exactly 2 as an integer.  The cells tested at a non-colliding
position are those at the integer position `offset - (3, 21) + (col, row)`,
so the 8-bit subtractions `targetX - 3` and `targetY - 21` move no cell
through a board edge.  From any position, colliding or not, `moveLeft` from
`offsetX <= 1` and `moveDown` from `offsetY >= 254` fail. -/
theorem C37_moves_no_wrap (b : Board) (t : Tetromino) (hv : t.Valid) :
    (b.checkCollision t t.offsetX t.offsetY t.rotation = false →
      ((t.moveLeft b).1 = true → (t.moveLeft b).2.offsetX + 2 = t.offsetX) ∧
      ((t.moveRight b).1 = true → (t.moveRight b).2.offsetX = t.offsetX + 2) ∧
      ((t.moveDown b).1 = true → (t.moveDown b).2.offsetY = t.offsetY + 2)) ∧
    (t.offsetX ≤ 1 → (t.moveLeft b).1 = false) ∧
    (254 ≤ t.offsetY → (t.moveDown b).1 = false) ∧
    (∀ tx ty, tx < 256 → ty < 256 → b.checkCollision t tx ty t.rotation = false →
      ∀ i, i < 64 → (shapeOf t.type t.rotation).testBit i = true →
        ((((tx + 256 - BOARD_OFFSET_X) % 256 + i % 8) % 256 : Nat) : Int)
          = (tx : Int) - 3 + (i % 8 : Nat) ∧
        ((((ty + 256 - BOARD_OFFSET_Y) % 256 + i / 8) % 256 : Nat) : Int)
          = (ty : Int) - 21 + (i / 8 : Nat)) := by
  obtain ⟨hk1, hk7, hr, hx, hy⟩ := hv
  have hleft : b.checkCollision t ((t.offsetX + 256 - 2) % 256) t.offsetY t.rotation = false →
      2 ≤ t.offsetX := by
    intro h
    have := no_collision_offsets hk1 hk7 hr (Nat.mod_lt _ (by decide)) hy h
    omega
  have hdown : b.checkCollision t t.offsetX ((t.offsetY + 2) % 256) t.rotation = false →
      t.offsetY < 254 := by
    intro h
    have := no_collision_offsets hk1 hk7 hr hx (Nat.mod_lt _ (by decide)) h
    omega
  refine ⟨fun hc => ⟨?_, ?_, ?_⟩, ?_, ?_, ?_⟩
  · unfold Tetromino.moveLeft
    by_cases h : b.checkCollision t ((t.offsetX + 256 - 2) % 256) t.offsetY t.rotation = true
    · rw [if_pos h]; intro h'; cases h'
    · rw [if_neg h]
      intro _
      have := hleft (Bool.eq_false_iff.2 h)
      show (t.offsetX + 256 - 2) % 256 + 2 = t.offsetX
      omega
  · have h0 := no_collision_offsets hk1 hk7 hr hx hy hc
    unfold Tetromino.moveRight
    by_cases h : b.checkCollision t ((t.offsetX + 2) % 256) t.offsetY t.rotation = true
    · rw [if_pos h]; intro h'; cases h'
    · rw [if_neg h]
      intro _
      show (t.offsetX + 2) % 256 = t.offsetX + 2
      omega
  · unfold Tetromino.moveDown
    by_cases h : b.checkCollision t t.offsetX ((t.offsetY + 2) % 256) t.rotation = true
    · rw [if_pos h]; intro h'; cases h'
    · rw [if_neg h]
      intro _
      have := hdown (Bool.eq_false_iff.2 h)
      show (t.offsetY + 2) % 256 = t.offsetY + 2
      omega
  · intro hx1
    unfold Tetromino.moveLeft
    by_cases h : b.checkCollision t ((t.offsetX + 256 - 2) % 256) t.offsetY t.rotation = true
    · rw [if_pos h]
    · have := hleft (Bool.eq_false_iff.2 h)
      omega
  · intro hy254
    unfold Tetromino.moveDown
    by_cases h : b.checkCollision t t.offsetX ((t.offsetY + 2) % 256) t.rotation = true
    · rw [if_pos h]
    · have := hdown (Bool.eq_false_iff.2 h)
      omega
  · intro tx ty htx hty h i hi hs
    obtain ⟨e1, e2, _⟩ := no_collision_cells hk1 hk7 hr htx hty h hi hs
    exact ⟨e1, e2⟩

theorem C37_witness :
    (Game.init 9 4).currentTetromino.Valid ∧
    (((Game.init 9 4).board.checkCollision (Game.init 9 4).currentTetromino
        (Game.init 9 4).currentTetromino.offsetX (Game.init 9 4).currentTetromino.offsetY
        (Game.init 9 4).currentTetromino.rotation = false →
      (((Game.init 9 4).currentTetromino.moveLeft (Game.init 9 4).board).1 = true →
        ((Game.init 9 4).currentTetromino.moveLeft (Game.init 9 4).board).2.offsetX + 2
          = (Game.init 9 4).currentTetromino.offsetX) ∧
      (((Game.init 9 4).currentTetromino.moveRight (Game.init 9 4).board).1 = true →
        ((Game.init 9 4).currentTetromino.moveRight (Game.init 9 4).board).2.offsetX
          = (Game.init 9 4).currentTetromino.offsetX + 2) ∧
      (((Game.init 9 4).currentTetromino.moveDown (Game.init 9 4).board).1 = true →
        ((Game.init 9 4).currentTetromino.moveDown (Game.init 9 4).board).2.offsetY
          = (Game.init 9 4).currentTetromino.offsetY + 2)) ∧
    ((Game.init 9 4).currentTetromino.offsetX ≤ 1 →
      ((Game.init 9 4).currentTetromino.moveLeft (Game.init 9 4).board).1 = false) ∧
    (254 ≤ (Game.init 9 4).currentTetromino.offsetY →
      ((Game.init 9 4).currentTetromino.moveDown (Game.init 9 4).board).1 = false) ∧
    (∀ tx ty, tx < 256 → ty < 256 →
      (Game.init 9 4).board.checkCollision (Game.init 9 4).currentTetromino tx ty
        (Game.init 9 4).currentTetromino.rotation = false →
      ∀ i, i < 64 →
        (shapeOf (Game.init 9 4).currentTetromino.type
          (Game.init 9 4).currentTetromino.rotation).testBit i = true →
        ((((tx + 256 - BOARD_OFFSET_X) % 256 + i % 8) % 256 : Nat) : Int)
          = (tx : Int) - 3 + (i % 8 : Nat) ∧
        ((((ty + 256 - BOARD_OFFSET_Y) % 256 + i / 8) % 256 : Nat) : Int)
          = (ty : Int) - 21 + (i / 8 : Nat))) :=
  ⟨by decide,
    C37_moves_no_wrap (Game.init 9 4).board (Game.init 9 4).currentTetromino (by decide)⟩

/-! ## C32: odd offsets and a board made of 2 x 2 blocks -/

theorem xor_one_cases : ∀ n, n < 64 →
    (n % 2 = 0 ∧ n ^^^ 1 = n + 1) ∨ (n % 2 = 1 ∧ (n ^^^ 1) + 1 = n) := by
  decide

/-- Every decoded shape is a union of 2 x 2 blocks aligned to even rows and
columns. -/
theorem shape_block_bits {k r : Nat} (hk1 : 1 ≤ k) (hk7 : k ≤ 7) (hr : r ≤ 3) :
    ∀ row, row < 8 → ∀ col, col < 8 →
      (shapeOf k r).testBit (8 * row + col) = (shapeOf k r).testBit (8 * (row ^^^ 1) + col) ∧
      (shapeOf k r).testBit (8 * row + col) = (shapeOf k r).testBit (8 * row + (col ^^^ 1)) := by
  interval_cases k <;> interval_cases r <;> decide

theorem block_neighbour_coord {bx c c' x x' : Nat} (hbx : bx % 2 = 0) (hc : c < 8)
    (hx : (bx + c) % 256 = x) (hx40 : x < 40)
    (cc : (c % 2 = 0 ∧ c' = c + 1) ∨ (c % 2 = 1 ∧ c' + 1 = c))
    (cx : (x % 2 = 0 ∧ x' = x + 1) ∨ (x % 2 = 1 ∧ x' + 1 = x)) :
    (bx + c') % 256 = x' ∧ c' < 8 := by
  omega

/-- The set of cells written by `placeTetromino` at odd offsets is closed
under the two neighbour maps of the aligned 2 x 2 blocks. -/
theorem placed_cells_blocks {t : Tetromino} (hv : t.Valid) (hox : t.offsetX % 2 = 1)
    (hoy : t.offsetY % 2 = 1) {x y : Nat}
    (h : ∃ i, i < 64 ∧ (shapeOf t.type t.rotation).testBit i = true ∧
      ((t.offsetX + 256 - 3) % 256 + i % 8) % 256 < 28 ∧
      ((t.offsetY + 256 - 21) % 256 + i / 8) % 256 < 40 ∧
      ((t.offsetX + 256 - 3) % 256 + i % 8) % 256 = x ∧
      ((t.offsetY + 256 - 21) % 256 + i / 8) % 256 = y) :
    (∃ i, i < 64 ∧ (shapeOf t.type t.rotation).testBit i = true ∧
      ((t.offsetX + 256 - 3) % 256 + i % 8) % 256 < 28 ∧
      ((t.offsetY + 256 - 21) % 256 + i / 8) % 256 < 40 ∧
      ((t.offsetX + 256 - 3) % 256 + i % 8) % 256 = x ^^^ 1 ∧
      ((t.offsetY + 256 - 21) % 256 + i / 8) % 256 = y) ∧
    (∃ i, i < 64 ∧ (shapeOf t.type t.rotation).testBit i = true ∧
      ((t.offsetX + 256 - 3) % 256 + i % 8) % 256 < 28 ∧
      ((t.offsetY + 256 - 21) % 256 + i / 8) % 256 < 40 ∧
      ((t.offsetX + 256 - 3) % 256 + i % 8) % 256 = x ∧
      ((t.offsetY + 256 - 21) % 256 + i / 8) % 256 = y ^^^ 1) := by
  obtain ⟨hk1, hk7, hr, hox256, hoy256⟩ := hv
  obtain ⟨i, hi, hs, h1, h2, h3, h4⟩ := h
  have hc8 : i % 8 < 8 := Nat.mod_lt _ (by decide)
  have hr8 : i / 8 < 8 := by omega
  have hb := shape_block_bits hk1 hk7 hr (i / 8) hr8 (i % 8) hc8
  have ei : 8 * (i / 8) + i % 8 = i := by omega
  rw [ei, hs] at hb
  have hbx : (t.offsetX + 256 - 3) % 256 % 2 = 0 := by omega
  have hby : (t.offsetY + 256 - 21) % 256 % 2 = 0 := by omega
  rw [h3] at h1
  rw [h4] at h2
  have cx := xor_one_cases x (by omega)
  have cy := xor_one_cases y (by omega)
  have cc := xor_one_cases (i % 8) (by omega)
  have cr := xor_one_cases (i / 8) (by omega)
  have kx := block_neighbour_coord hbx hc8 h3 (by omega) cc cx
  have ky := block_neighbour_coord hby hr8 h4 h2 cr cy
  have hx1 : x ^^^ 1 < 28 := by omega
  have hy1 : y ^^^ 1 < 40 := by omega
  generalize i % 8 ^^^ 1 = c' at kx hb
  generalize i / 8 ^^^ 1 = r' at ky hb
  generalize (t.offsetX + 256 - 3) % 256 = bx at kx h3
  generalize (t.offsetY + 256 - 21) % 256 = by0 at ky h4
  clear cx cy cc cr hbx hby hox hoy hox256 hoy256 hk1 hk7 hr
  constructor
  · refine ⟨8 * (i / 8) + c', by omega, hb.2.symm, ?_⟩
    have e1 : (8 * (i / 8) + c') % 8 = c' := by omega
    have e2 : (8 * (i / 8) + c') / 8 = i / 8 := by omega
    rw [e1, e2, kx.1, h4]
    exact ⟨hx1, h2, rfl, rfl⟩
  · refine ⟨8 * r' + i % 8, by omega, hb.1.symm, ?_⟩
    have e1 : (8 * r' + i % 8) % 8 = i % 8 := by omega
    have e2 : (8 * r' + i % 8) / 8 = r' := by omega
    rw [e1, e2, ky.1, h3]
    exact ⟨h1, hy1, rfl, rfl⟩

theorem xor_one_xor_one (n : Nat) : n ^^^ 1 ^^^ 1 = n := by
  rw [Nat.xor_assoc]
  simp

theorem placeTetromino_uniform {b : Board} (hb : b.WF) (hu : b.Uniform) {t : Tetromino}
    (hv : t.Valid) (hox : t.offsetX % 2 = 1) (hoy : t.offsetY % 2 = 1) :
    (b.placeTetromino t).Uniform := by
  intro x hx y hy
  have hx28 : x < 28 := hx
  have hy40 : y < 40 := hy
  have cx := xor_one_cases x (by omega)
  have cy := xor_one_cases y (by omega)
  have hx1 : x ^^^ 1 < 28 := by omega
  have hy1 : y ^^^ 1 < 40 := by omega
  rw [placeTetromino_getFieldType hb t hx28 y, placeTetromino_getFieldType hb t hx1 y,
    placeTetromino_getFieldType hb t hx28 (y ^^^ 1)]
  by_cases hw : ∃ i, i < 64 ∧ (shapeOf t.type t.rotation).testBit i = true ∧
      ((t.offsetX + 256 - 3) % 256 + i % 8) % 256 < 28 ∧
      ((t.offsetY + 256 - 21) % 256 + i / 8) % 256 < 40 ∧
      ((t.offsetX + 256 - 3) % 256 + i % 8) % 256 = x ∧
      ((t.offsetY + 256 - 21) % 256 + i / 8) % 256 = y
  · obtain ⟨w1, w2⟩ := placed_cells_blocks hv hox hoy hw
    rw [if_pos hw, if_pos w1, if_pos w2]
    exact ⟨rfl, rfl⟩
  · have n1 : ¬ ∃ i, i < 64 ∧ (shapeOf t.type t.rotation).testBit i = true ∧
        ((t.offsetX + 256 - 3) % 256 + i % 8) % 256 < 28 ∧
        ((t.offsetY + 256 - 21) % 256 + i / 8) % 256 < 40 ∧
        ((t.offsetX + 256 - 3) % 256 + i % 8) % 256 = x ^^^ 1 ∧
        ((t.offsetY + 256 - 21) % 256 + i / 8) % 256 = y := by
      intro h
      have := (placed_cells_blocks hv hox hoy h).1
      rw [xor_one_xor_one] at this
      exact hw this
    have n2 : ¬ ∃ i, i < 64 ∧ (shapeOf t.type t.rotation).testBit i = true ∧
        ((t.offsetX + 256 - 3) % 256 + i % 8) % 256 < 28 ∧
        ((t.offsetY + 256 - 21) % 256 + i / 8) % 256 < 40 ∧
        ((t.offsetX + 256 - 3) % 256 + i % 8) % 256 = x ∧
        ((t.offsetY + 256 - 21) % 256 + i / 8) % 256 = y ^^^ 1 := by
      intro h
      have := (placed_cells_blocks hv hox hoy h).2
      rw [xor_one_xor_one] at this
      exact hw this
    rw [if_neg hw, if_neg n1, if_neg n2]
    exact hu x hx y hy

theorem storageRow_getD (b : Board) {x : Nat} (hx : x < 28) (y : Nat) :
    (b.storageRow y).getD x 0 = b.getFieldType x y := by
  unfold Board.storageRow BOARD_WIDTH
  simp [List.getD_eq_getElem?_getD, List.getElem?_map, List.getElem?_range hx]

theorem uniform_iff_rows (b : Board) :
    b.Uniform ↔ ∀ d, d < 20 → rowIsUniform (b.displayRow d) := by
  constructor
  · intro hu d hd
    unfold Board.displayRow
    refine ⟨?_, fun x hx => ?_⟩
    · apply storageRow_congr
      intro x hx
      have h := (hu x hx (2 * d) (by unfold BOARD_HEIGHT; omega)).2
      have c := xor_one_cases (2 * d) (by omega)
      have e : 2 * d ^^^ 1 = 2 * d + 1 := by omega
      rw [e] at h
      exact h
    · have hx28 : x < 28 := hx
      have c := xor_one_cases x (by omega)
      show (b.storageRow (2 * d)).getD x 0 = (b.storageRow (2 * d)).getD (x ^^^ 1) 0
      rw [storageRow_getD b hx28, storageRow_getD b (by omega)]
      exact (hu x hx (2 * d) (by unfold BOARD_HEIGHT; omega)).1
  · intro hr x hx y hy
    have hx28 : x < 28 := hx
    have hy40 : y < 40 := hy
    have cx := xor_one_cases x (by omega)
    have cy := xor_one_cases y (by omega)
    have hx1 : x ^^^ 1 < 28 := by omega
    obtain ⟨h1, h2⟩ := hr (y / 2) (by omega)
    unfold Board.displayRow at h1 h2
    dsimp only at h1 h2
    have a1 := h2 x hx
    rw [storageRow_getD b hx28, storageRow_getD b hx1] at a1
    have a2 := congrArg (fun l => l.getD x 0) h1
    have a3 := congrArg (fun l => l.getD (x ^^^ 1) 0) h1
    dsimp only at a2 a3
    rw [storageRow_getD b hx28, storageRow_getD b hx28] at a2
    rw [storageRow_getD b hx1, storageRow_getD b hx1] at a3
    rcases cy with ⟨ce, cy⟩ | ⟨co, cy⟩
    · have e0 : 2 * (y / 2) = y := by omega
      have e1 : y ^^^ 1 = y + 1 := cy
      rw [e0] at a1 a2 a3
      rw [e1]
      exact ⟨a1, a2⟩
    · have e0 : 2 * (y / 2) + 1 = y := by omega
      have e1 : y ^^^ 1 = 2 * (y / 2) := by omega
      rw [e0] at a2 a3
      rw [e1]
      exact ⟨by rw [← a2, ← a3]; exact a1, a2.symm⟩

theorem emptyDisplayRow_uniform : rowIsUniform emptyDisplayRow := by decide

theorem keptRows_getD_lt (b : Board) (m : Nat) {j : Nat} (hj : j < (b.keptRows m).length) :
    (b.keptRows m).getD j 0 < m := by
  rw [List.getD_eq_getElem _ _ hj]
  have hmem : (b.keptRows m)[j] ∈ b.keptRows m := List.getElem_mem _
  unfold Board.keptRows at hmem
  exact List.mem_range.1 (List.mem_filter.1 hmem).1

theorem clearFullLines_uniform {b b' : Board} {n : Nat} (hb : b.WF) (hu : b.Uniform)
    (h : b.clearFullLines = some (b', n)) : b'.WF ∧ b'.Uniform := by
  obtain ⟨b2, hres, hwf, hrows⟩ := clearFullLines_spec hb
  rw [h] at hres
  cases hres
  refine ⟨hwf, (uniform_iff_rows b').2 fun d hd => ?_⟩
  have hlen := fullCount_add_keptRows b 20
  rw [hrows d hd]
  by_cases hc : d < b.fullCount 20
  · rw [if_pos hc]; exact emptyDisplayRow_uniform
  · rw [if_neg hc]
    exact (uniform_iff_rows b).1 hu _ (keptRows_getD_lt b 20 (by omega))

theorem empty_WF_uniform : Board.empty.WF ∧ Board.empty.Uniform := by
  refine ⟨by decide, fun x hx y hy => ?_⟩
  have hz : ∀ x' y', x' < 28 → Board.empty.getFieldType x' y' = 0 := by
    intro x' y' hx'
    apply getFieldType_of_zero_row (by decide) hx'
    intro i _
    unfold Board.byte Board.empty
    simp only [List.getD_eq_getElem?_getD, List.getElem?_replicate]
    split
    · simp only [Option.getD_some, List.getElem?_replicate]
      split <;> rfl
    · rfl
  have hx28 : x < 28 := hx
  have c := xor_one_cases x (by omega)
  rw [hz x y hx28, hz (x ^^^ 1) y (by omega), hz x (y ^^^ 1) hx28]
  exact ⟨rfl, rfl⟩

theorem withCurrent_aligned {g : Game} (hg : g.Aligned) {t : Tetromino}
    (hx : t.offsetX % 2 = 1) (hy : t.offsetY % 2 = 1) : (g.withCurrent t).Aligned :=
  ⟨hx, hy, hg.2.2.1, hg.2.2.2⟩

/-- Each of the four moves keeps both offsets odd. -/
theorem moves_parity (b : Board) (t : Tetromino) (hx : t.offsetX % 2 = 1)
    (hy : t.offsetY % 2 = 1) :
    (((t.moveLeft b).2.offsetX % 2 = 1 ∧ (t.moveLeft b).2.offsetY % 2 = 1) ∧
      ((t.moveRight b).2.offsetX % 2 = 1 ∧ (t.moveRight b).2.offsetY % 2 = 1)) ∧
    (((t.moveDown b).2.offsetX % 2 = 1 ∧ (t.moveDown b).2.offsetY % 2 = 1) ∧
      ((t.rotate b).2.offsetX % 2 = 1 ∧ (t.rotate b).2.offsetY % 2 = 1)) := by
  refine ⟨⟨?_, ?_⟩, ⟨?_, ?_⟩⟩
  · unfold Tetromino.moveLeft
    split
    · exact ⟨hx, hy⟩
    · refine ⟨?_, hy⟩
      show (t.offsetX + 256 - 2) % 256 % 2 = 1
      omega
  · unfold Tetromino.moveRight
    split
    · exact ⟨hx, hy⟩
    · refine ⟨?_, hy⟩
      show (t.offsetX + 2) % 256 % 2 = 1
      omega
  · unfold Tetromino.moveDown
    split
    · exact ⟨hx, hy⟩
    · refine ⟨hx, ?_⟩
      show (t.offsetY + 2) % 256 % 2 = 1
      omega
  · unfold Tetromino.rotate
    dsimp only
    split
    · exact ⟨hx, hy⟩
    · exact ⟨hx, hy⟩

theorem setOffset_spawn_odd (t : Tetromino) :
    (t.setOffset 13 17).offsetX % 2 = 1 ∧ (t.setOffset 13 17).offsetY % 2 = 1 := by
  constructor
  · show 13 % 256 % 2 = 1
    decide
  · show 17 % 256 % 2 = 1
    decide

theorem init_aligned (r1 r2 : Nat) : (Game.init r1 r2).Aligned :=
  ⟨(setOffset_spawn_odd _).1, (setOffset_spawn_odd _).2, empty_WF_uniform.1,
    empty_WF_uniform.2⟩

theorem keyAction_aligned {g : Game} (hg : g.Aligned) (key : Char) :
    (g.keyAction key).Aligned := by
  have hm := moves_parity g.board g.currentTetromino hg.1 hg.2.1
  unfold Game.keyAction
  split
  · exact withCurrent_aligned hg hm.1.1.1 hm.1.1.2
  split
  · exact withCurrent_aligned hg hm.2.2.1 hm.2.2.2
  split
  · exact withCurrent_aligned hg hm.1.2.1 hm.1.2.2
  split
  · exact withCurrent_aligned hg hm.2.1.1 hm.2.1.2
  split
  · exact hg
  · exact hg

theorem run_aligned {g g' : Game} (hg : g.Aligned) (hv : g.currentTetromino.Valid)
    {currentTime rnd : Nat} (hrun : g.run currentTime rnd = some g') : g'.Aligned := by
  have hm := (moves_parity g.board g.currentTetromino hg.1 hg.2.1).2.1
  by_cases hp : g.isPaused = true
  · unfold Game.run at hrun
    rw [if_pos hp] at hrun
    cases hrun; exact hg
  by_cases hf : (currentTime + 2 ^ 32 - g.lastFallTime) % 2 ^ 32 ≥ g.fallSpeed
  swap
  · unfold Game.run at hrun
    rw [if_neg hp, if_neg hf] at hrun
    cases hrun; exact hg
  by_cases hmv : (g.currentTetromino.moveDown g.board).1 = true
  · unfold Game.run at hrun
    rw [if_neg hp, if_pos hf] at hrun
    dsimp only at hrun
    simp only [hmv, Bool.not_true, Bool.false_eq_true, if_false] at hrun
    cases hrun
    exact withCurrent_aligned hg hm.1 hm.2
  · obtain ⟨_, board2, n, hcl, hb2, hcur, _⟩ := run_commit_fields hrun
      (Bool.eq_false_iff.2 hp) hf (Bool.eq_false_iff.2 hmv)
    have hpl := placeTetromino_uniform hg.2.2.1 hg.2.2.2 hv hg.1 hg.2.1
    have hcu := clearFullLines_uniform (placeTetromino_WF hg.2.2.1 g.currentTetromino) hpl hcl
    unfold Game.Aligned
    rw [hb2, hcur]
    exact ⟨(setOffset_spawn_odd _).1, (setOffset_spawn_odd _).2, hcu.1, hcu.2⟩

theorem reachable_aligned {g : Game} (h : Reachable g) : g.Aligned := by
  induction h with
  | init r1 r2 _ _ => exact init_aligned r1 r2
  | run g g' currentTime rnd _ hg hrun ih => exact run_aligned ih (reachable_inv hg).1 hrun
  | key g key _ ih => exact keyAction_aligned ih key

/-- C32: in every state reachable from `init` by `run()` ticks and
`keyAction` calls, the offsets of the current piece are odd, so that its
board-relative position `offset - (3, 21)` is even in both coordinates, and
the board is uniform on the aligned 2 x 2 blocks: for all `x < 28`,
`y < 40`, cell `(x, y)` equals cell `(x xor 1, y)` and cell `(x, y xor 1)`. -/
theorem C32_reachable_aligned (g : Game) (hr : Reachable g) :
    g.currentTetromino.offsetX % 2 = 1 ∧ g.currentTetromino.offsetY % 2 = 1 ∧
    ((g.currentTetromino.offsetX + 256 - BOARD_OFFSET_X) % 256) % 2 = 0 ∧
    ((g.currentTetromino.offsetY + 256 - BOARD_OFFSET_Y) % 256) % 2 = 0 ∧
    ∀ x y, x < BOARD_WIDTH → y < BOARD_HEIGHT →
      g.board.getFieldType x y = g.board.getFieldType (x ^^^ 1) y ∧
      g.board.getFieldType x y = g.board.getFieldType x (y ^^^ 1) := by
  obtain ⟨h1, h2, _, h4⟩ := reachable_aligned hr
  refine ⟨h1, h2, ?_, ?_, fun x y hx hy => h4 x hx y hy⟩
  · unfold BOARD_OFFSET_X; omega
  · unfold BOARD_OFFSET_Y; omega

theorem C32_witness :
    Reachable ((Game.init 1 4).keyAction '6') ∧
    (((Game.init 1 4).keyAction '6').currentTetromino.offsetX % 2 = 1 ∧
    ((Game.init 1 4).keyAction '6').currentTetromino.offsetY % 2 = 1 ∧
    ((((Game.init 1 4).keyAction '6').currentTetromino.offsetX + 256 - BOARD_OFFSET_X) % 256)
      % 2 = 0 ∧
    ((((Game.init 1 4).keyAction '6').currentTetromino.offsetY + 256 - BOARD_OFFSET_Y) % 256)
      % 2 = 0 ∧
    ∀ x y, x < BOARD_WIDTH → y < BOARD_HEIGHT →
      ((Game.init 1 4).keyAction '6').board.getFieldType x y
        = ((Game.init 1 4).keyAction '6').board.getFieldType (x ^^^ 1) y ∧
      ((Game.init 1 4).keyAction '6').board.getFieldType x y
        = ((Game.init 1 4).keyAction '6').board.getFieldType x (y ^^^ 1)) :=
  ⟨Reachable.key _ '6' (Reachable.init 1 4 (by decide) (by decide)),
    C32_reachable_aligned ((Game.init 1 4).keyAction '6')
      (Reachable.key _ '6' (Reachable.init 1 4 (by decide) (by decide)))⟩

/-! ## C13: the commit tick of `run` in the states of a game -/

/-- What a commit tick of `run` leaves in the next-piece slot: either the
game is over and both pointers name the promoted piece, or a new piece has
been created. -/
theorem run_commit_next {g g' : Game} {currentTime rnd : Nat}
    (hrun : g.run currentTime rnd = some g') (hp : g.isPaused = false)
    (hfire : g.fallSpeed ≤ (currentTime + 2 ^ 32 - g.lastFallTime) % 2 ^ 32)
    (hland : (g.currentTetromino.moveDown g.board).1 = false) :
    g'.nextIsCurrent = true ∨ g'.nextTetromino = Game.createTetromino rnd := by
  have hp' : ¬ g.isPaused = true := by rw [hp]; decide
  have hf : (currentTime + 2 ^ 32 - g.lastFallTime) % 2 ^ 32 ≥ g.fallSpeed := hfire
  unfold Game.run at hrun
  rw [if_neg hp', if_pos hf] at hrun
  dsimp only at hrun
  simp only [hland, Bool.not_false, if_true] at hrun
  cases hcl : (g.board.placeTetromino g.currentTetromino).clearFullLines with
  | none => rw [hcl] at hrun; cases hrun
  | some res =>
    obtain ⟨board2, n⟩ := res
    rw [hcl] at hrun
    dsimp only at hrun
    by_cases ha : g.nextIsCurrent = true
    · rw [if_pos ha] at hrun; cases hrun
    · rw [if_neg ha] at hrun
      split at hrun
      · cases hrun
        exact Or.inl rfl
      · cases hrun
        exact Or.inr rfl

theorem withCurrent_next_rotation {g : Game} (t : Tetromino)
    (h : g.nextIsCurrent = false → g.nextTetromino.rotation = 0) :
    (g.withCurrent t).nextIsCurrent = false → (g.withCurrent t).nextTetromino.rotation = 0 := by
  intro hd
  have hd' : g.nextIsCurrent = false := hd
  unfold Game.withCurrent
  dsimp only
  rw [hd']
  exact h hd'

/-- In every state of a game the next piece, as long as it is an object of
its own, still has the rotation 0 it was created with. -/
theorem reachable_next_rotation {g : Game} (h : Reachable g) :
    g.nextIsCurrent = false → g.nextTetromino.rotation = 0 := by
  induction h with
  | init r1 r2 _ _ => intro _; rfl
  | run g g' currentTime rnd _ _ hrun ih =>
    by_cases hp : g.isPaused = true
    · unfold Game.run at hrun
      rw [if_pos hp] at hrun
      cases hrun; exact ih
    by_cases hf : (currentTime + 2 ^ 32 - g.lastFallTime) % 2 ^ 32 ≥ g.fallSpeed
    swap
    · unfold Game.run at hrun
      rw [if_neg hp, if_neg hf] at hrun
      cases hrun; exact ih
    by_cases hmv : (g.currentTetromino.moveDown g.board).1 = true
    · unfold Game.run at hrun
      rw [if_neg hp, if_pos hf] at hrun
      dsimp only at hrun
      simp only [hmv, Bool.not_true, Bool.false_eq_true, if_false] at hrun
      cases hrun
      exact withCurrent_next_rotation _ ih
    · rcases run_commit_next hrun (Bool.eq_false_iff.2 hp) hf (Bool.eq_false_iff.2 hmv)
        with h1 | h1
      · intro h2
        rw [h1] at h2
        cases h2
      · intro _
        rw [h1]
        rfl
  | key g key _ ih =>
    unfold Game.keyAction
    split
    · exact withCurrent_next_rotation _ ih
    split
    · exact withCurrent_next_rotation _ ih
    split
    · exact withCurrent_next_rotation _ ih
    split
    · exact withCurrent_next_rotation _ ih
    split
    · exact ih
    · exact ih

/-- C13: in every state of a running game (reachable from `init` by `run()`
ticks and `keyAction` calls, not paused, `gameOver` false), a `run()` tick
where gravity fires and `moveDown` fails writes the current piece into the
board, runs `clearFullLines` on the result, and makes the previous next piece
the current piece at offset `(13, 17)` with rotation 0; `gameOver` becomes
true exactly when `checkCollision` of that piece at `(13, 17)`, rotation 0,
against the post-clear board is true, and otherwise `gameOver` stays false
and a new next piece is generated. -/
theorem C13_run_commit (g : Game) (currentTime rnd : Nat) (hr : Reachable g)
    (hp : g.isPaused = false) (hgo : g.gameOver = false)
    (hfire : g.fallSpeed ≤ (currentTime + 2 ^ 32 - g.lastFallTime) % 2 ^ 32)
    (hland : (g.currentTetromino.moveDown g.board).1 = false) :
    ∃ board2 rowsCleared g',
      (g.board.placeTetromino g.currentTetromino).clearFullLines = some (board2, rowsCleared) ∧
      g.run currentTime rnd = some g' ∧
      g'.board = board2 ∧
      g'.currentTetromino = { g.nextTetromino with offsetX := 13, offsetY := 17 } ∧
      g'.currentTetromino.rotation = 0 ∧
      (g'.gameOver = true ↔ board2.checkCollision g'.currentTetromino 13 17 0 = true) ∧
      (g'.gameOver = false →
        g'.nextTetromino = Game.createTetromino rnd ∧ g'.nextIsCurrent = false) := by
  have hdist : g.nextIsCurrent = false := by
    rw [(reachable_inv hr).2.2.1]; exact hgo
  exact run_commit_spec g currentTime rnd (reachable_aligned hr).2.2.1 hp hgo hdist
    (reachable_next_rotation hr hdist) hfire hland

/-- One press of the key `2` moves the O piece of a new game down by one
step, from `offsetY = 17 + 2 * k` for `k < 18`. -/
theorem fallingGame_step (k : Nat) (hk : k < 18) :
    (fallingGame (17 + 2 * k)).keyAction '2' = fallingGame (17 + 2 * (k + 1)) := by
  interval_cases k <;> decide

theorem fallingGame_reachable (k : Nat) (hk : k ≤ 18) : Reachable (fallingGame (17 + 2 * k)) := by
  induction k with
  | zero => exact Reachable.init 1 4 (by decide) (by decide)
  | succ k ih =>
    rw [← fallingGame_step k (by omega)]
    exact Reachable.key _ '2' (ih (by omega))

/-- The sample state `landedGame` is the state of a new game after eighteen
presses of the key `2`. -/
theorem landedGame_reachable : Reachable landedGame :=
  fallingGame_reachable 18 (by decide)

theorem C13_witness :
    Reachable landedGame ∧ landedGame.isPaused = false ∧ landedGame.gameOver = false ∧
    landedGame.fallSpeed ≤ (1000 + 2 ^ 32 - landedGame.lastFallTime) % 2 ^ 32 ∧
    (landedGame.currentTetromino.moveDown landedGame.board).1 = false ∧
    ∃ board2 rowsCleared g',
      (landedGame.board.placeTetromino landedGame.currentTetromino).clearFullLines
        = some (board2, rowsCleared) ∧
      landedGame.run 1000 7 = some g' ∧
      g'.board = board2 ∧
      g'.currentTetromino = { landedGame.nextTetromino with offsetX := 13, offsetY := 17 } ∧
      g'.currentTetromino.rotation = 0 ∧
      (g'.gameOver = true ↔ board2.checkCollision g'.currentTetromino 13 17 0 = true) ∧
      (g'.gameOver = false →
        g'.nextTetromino = Game.createTetromino 7 ∧ g'.nextIsCurrent = false) :=
  ⟨landedGame_reachable, by decide, by decide, by decide, by decide,
    C13_run_commit landedGame 1000 7 landedGame_reachable (by decide) (by decide)
      (by decide) (by decide)⟩

/-! ## C38: a commit that clears a row and raises the level -/

/-- In `levelUpGame` the commit of the O piece completes exactly one display
row. -/
theorem levelUpGame_rows :
    ((levelUpGame.board.placeTetromino levelUpGame.currentTetromino).displayRows.filter
      fun r => rowIsFull r).length = 1 := by
  decide

theorem C38_witness :
    levelUpGame.board.WF ∧ levelUpGame.isPaused = false ∧ levelUpGame.nextIsCurrent = false ∧
    levelUpGame.fallSpeed ≤ (1000 + 2 ^ 32 - levelUpGame.lastFallTime) % 2 ^ 32 ∧
    (levelUpGame.currentTetromino.moveDown levelUpGame.board).1 = false ∧
    levelUpGame.score = 100 ∧ levelUpGame.level = 3 ∧ levelUpGame.clearedRows = 9 ∧
    ∃ board2 g',
      (levelUpGame.board.placeTetromino levelUpGame.currentTetromino).clearFullLines
        = some (board2, 1) ∧
      levelUpGame.run 1000 7 = some g' ∧
      g'.score = 106 ∧ g'.level = 4 ∧
      g'.score = (levelUpGame.score + 2 * levelUpGame.level) % 65536 ∧
      g'.score ≠ (levelUpGame.score + 2 * g'.level) % 65536 := by
  refine ⟨by decide, by decide, by decide, by decide, by decide, rfl, rfl, rfl, ?_⟩
  obtain ⟨board2, n, g', hcl, hrun, h1, _, _, _, hl, hne⟩ :=
    C38_score_uses_level_before levelUpGame 1000 7 (by decide) (by decide) (by decide)
      (by decide) (by decide)
  obtain ⟨b', hres, _, _⟩ := clearFullLines_spec
    (placeTetromino_WF (show levelUpGame.board.WF by decide) levelUpGame.currentTetromino)
  have hn : n = 1 := by
    rw [hcl] at hres
    have e := congrArg (fun o => o.map Prod.snd) hres
    simp only [Option.map_some'] at e
    have e' : n = (levelUpGame.board.placeTetromino levelUpGame.currentTetromino).fullCount 20 :=
      Option.some.inj e
    rw [e', ← displayRows_filter_full]
    exact levelUpGame_rows
  subst hn
  have hs := h1 rfl
  have hup : 10 ≤ (levelUpGame.clearedRows + 1) % 65536 := by decide
  have hl4 := hl hup
  obtain ⟨hl5, hne'⟩ := hne hup (by decide)
  refine ⟨board2, g', hcl, hrun, ?_, ?_, hs, hne' 2 (by decide) (by decide) hs⟩
  · rw [hs]; rfl
  · rw [hl4]; rfl

/-! ## C17: gravity ticks and the next piece -/

/-- C17, as stated, fails for the next piece: in `gameOverState`, which is
not paused, both pointers name one object, and a `run()` tick after the fall
interval in which `moveDown` succeeds moves the next piece from
`offsetY = 17` to `offsetY = 19` together with the current piece. -/
theorem C17_counterexample :
    gameOverState.isPaused = false ∧
    gameOverState.fallSpeed ≤ (41000 + 2 ^ 32 - gameOverState.lastFallTime) % 2 ^ 32 ∧
    (gameOverState.currentTetromino.moveDown gameOverState.board).1 = true ∧
    gameOverState.nextTetromino.offsetY = 17 ∧
    (gameOverState.run 41000 0).map (fun g => g.nextTetromino.offsetY) = some 19 ∧
    (gameOverState.run 41000 0).map (fun g => decide (g.nextTetromino = gameOverState.nextTetromino))
      = some false := by
  decide

/-- C17, amended: when the game is not paused, a `run()` tick with
`(currentTime - lastFallTime) mod 2^32 < fallSpeed` leaves the whole state
unchanged; a tick with elapsed time at least `fallSpeed` in which the one
`moveDown` succeeds changes only the current piece's `offsetY`, by `+2` for a
valid piece, and `lastFallTime`, which becomes `currentTime`, while board,
score, level, counters and flags stay unchanged.  The next piece stays
unchanged when it is an object of its own, which is the case in every state
of a game in which `gameOver` is false; when both pointers name one object
the next piece is the moved current piece. -/
theorem C17_run_gravity_amended (g : Game) (currentTime rnd : Nat) (hp : g.isPaused = false) :
    ((currentTime + 2 ^ 32 - g.lastFallTime) % 2 ^ 32 < g.fallSpeed →
        g.run currentTime rnd = some g) ∧
      (g.fallSpeed ≤ (currentTime + 2 ^ 32 - g.lastFallTime) % 2 ^ 32 →
        (g.currentTetromino.moveDown g.board).1 = true →
        ∃ g', g.run currentTime rnd = some g' ∧
          g'.currentTetromino = (g.currentTetromino.moveDown g.board).2 ∧
          (1 ≤ g.currentTetromino.type → g.currentTetromino.type ≤ 7 →
            g.currentTetromino.rotation ≤ 3 → g.currentTetromino.offsetY < 256 →
            g'.currentTetromino
              = { g.currentTetromino with offsetY := g.currentTetromino.offsetY + 2 }) ∧
          g'.lastFallTime = currentTime ∧
          g'.board = g.board ∧ g'.score = g.score ∧ g'.level = g.level ∧
          g'.clearedRows = g.clearedRows ∧ g'.totalClearedRows = g.totalClearedRows ∧
          g'.fallSpeed = g.fallSpeed ∧ g'.isPaused = g.isPaused ∧
          g'.gameOver = g.gameOver ∧ g'.nextIsCurrent = g.nextIsCurrent ∧
          (g.nextIsCurrent = false → g'.nextTetromino = g.nextTetromino) ∧
          (g.nextIsCurrent = true → g'.nextTetromino = g'.currentTetromino) ∧
          (Reachable g → g.gameOver = false → g'.nextTetromino = g.nextTetromino)) := by
  obtain ⟨h1, h2⟩ := run_gravity_spec g currentTime rnd hp
  refine ⟨h1, fun hfire hmove => ?_⟩
  obtain ⟨g', hrun, a1, a2, a3, a4, a5, a6, a7, a8, a9, a10, a11, a12, a13⟩ := h2 hfire hmove
  refine ⟨g', hrun, a1, a2, a3, a4, a5, a6, a7, a8, a9, a10, a11, a12, a13, ?_, ?_⟩
  · intro ha
    have hrun2 : g.run currentTime rnd
        = some { g.withCurrent (g.currentTetromino.moveDown g.board).2 with
            lastFallTime := currentTime } := by
      unfold Game.run
      rw [hp, if_neg (by decide), if_pos hfire]
      dsimp only
      rw [hmove]
      rfl
    rw [hrun] at hrun2
    have e := Option.some.inj hrun2
    rw [e]
    show (g.withCurrent (g.currentTetromino.moveDown g.board).2).nextTetromino
      = (g.withCurrent (g.currentTetromino.moveDown g.board).2).currentTetromino
    unfold Game.withCurrent
    dsimp only
    rw [if_pos ha]
  · intro hr hgo
    apply a13
    rw [(reachable_inv hr).2.2.1]
    exact hgo

theorem C17_witness :
    (Game.init 1 4).isPaused = false ∧
    (Game.init 1 4).fallSpeed ≤ (1000 + 2 ^ 32 - (Game.init 1 4).lastFallTime) % 2 ^ 32 ∧
    ((Game.init 1 4).currentTetromino.moveDown (Game.init 1 4).board).1 = true ∧
    (((1000 + 2 ^ 32 - (Game.init 1 4).lastFallTime) % 2 ^ 32 < (Game.init 1 4).fallSpeed →
        (Game.init 1 4).run 1000 0 = some (Game.init 1 4)) ∧
      ((Game.init 1 4).fallSpeed ≤ (1000 + 2 ^ 32 - (Game.init 1 4).lastFallTime) % 2 ^ 32 →
        ((Game.init 1 4).currentTetromino.moveDown (Game.init 1 4).board).1 = true →
        ∃ g', (Game.init 1 4).run 1000 0 = some g' ∧
          g'.currentTetromino
            = ((Game.init 1 4).currentTetromino.moveDown (Game.init 1 4).board).2 ∧
          (1 ≤ (Game.init 1 4).currentTetromino.type →
            (Game.init 1 4).currentTetromino.type ≤ 7 →
            (Game.init 1 4).currentTetromino.rotation ≤ 3 →
            (Game.init 1 4).currentTetromino.offsetY < 256 →
            g'.currentTetromino
              = { (Game.init 1 4).currentTetromino with
                  offsetY := (Game.init 1 4).currentTetromino.offsetY + 2 }) ∧
          g'.lastFallTime = 1000 ∧
          g'.board = (Game.init 1 4).board ∧ g'.score = (Game.init 1 4).score ∧
          g'.level = (Game.init 1 4).level ∧
          g'.clearedRows = (Game.init 1 4).clearedRows ∧
          g'.totalClearedRows = (Game.init 1 4).totalClearedRows ∧
          g'.fallSpeed = (Game.init 1 4).fallSpeed ∧
          g'.isPaused = (Game.init 1 4).isPaused ∧
          g'.gameOver = (Game.init 1 4).gameOver ∧
          g'.nextIsCurrent = (Game.init 1 4).nextIsCurrent ∧
          ((Game.init 1 4).nextIsCurrent = false →
            g'.nextTetromino = (Game.init 1 4).nextTetromino) ∧
          ((Game.init 1 4).nextIsCurrent = true → g'.nextTetromino = g'.currentTetromino) ∧
          (Reachable (Game.init 1 4) → (Game.init 1 4).gameOver = false →
            g'.nextTetromino = (Game.init 1 4).nextTetromino))) :=
  ⟨by decide, by decide, by decide,
    C17_run_gravity_amended (Game.init 1 4) 1000 0 (by decide)⟩

/-! ## C14: `run` while `gameOver` is true -/

/-- The bookkeeping of a commit neither reads nor writes `gameOver`. -/
theorem commitRows_set_gameOver (h : Game) (n : Nat) (v : Bool) :
    ({ h with gameOver := v }).commitRows n = { h.commitRows n with gameOver := v } := by
  unfold Game.commitRows Game.updateLevelAndSpeed Game.updateScore
  dsimp only
  repeat' split
  all_goals rfl

/-- The method `run` never reads `gameOver`: on a state in which the flag is
true it does what it does on the same state with the flag false, and the
flag is true afterwards. -/
theorem run_gameOver_twin (g : Game) (currentTime rnd : Nat) (hgo : g.gameOver = true) :
    g.run currentTime rnd
      = (({ g with gameOver := false }).run currentTime rnd).map
          fun (g' : Game) => { g' with gameOver := true } := by
  obtain ⟨board, cur, next, nic, score, level, cr, tcr, fs, lft, paused, go⟩ := g
  simp only at hgo
  subst hgo
  unfold Game.run
  dsimp only
  by_cases hp : paused = true
  · rw [if_pos hp, if_pos hp]; rfl
  rw [if_neg hp, if_neg hp]
  by_cases hf : (currentTime + 2 ^ 32 - lft) % 2 ^ 32 ≥ fs
  swap
  · rw [if_neg hf, if_neg hf]; rfl
  rw [if_pos hf, if_pos hf]
  by_cases hm : (!(cur.moveDown board).1) = true
  swap
  · rw [if_neg hm, if_neg hm]; rfl
  rw [if_pos hm, if_pos hm]
  cases hcl : (board.placeTetromino cur).clearFullLines with
  | none => rfl
  | some res =>
    obtain ⟨board2, n⟩ := res
    dsimp only
    by_cases ha : nic = true
    · rw [if_pos ha, if_pos ha]; rfl
    · rw [if_neg ha, if_neg ha]
      have e := commitRows_set_gameOver
        ⟨board2, cur, next, nic, score, level, cr, tcr, fs, lft, paused, true⟩ n false
      dsimp only at e
      rw [e]
      have hgo2 : (Game.commitRows
          ⟨board2, cur, next, nic, score, level, cr, tcr, fs, lft, paused, true⟩ n).gameOver
            = true := by
        rw [commitRows_gameOver]
      by_cases hc : board2.checkCollision (next.setOffset 13 17) (next.setOffset 13 17).offsetX
          (next.setOffset 13 17).offsetY (next.setOffset 13 17).rotation = true
      · rw [if_pos hc, if_pos hc]; rfl
      · rw [if_neg hc, if_neg hc, Option.map_some']
        apply congrArg some
        dsimp only
        rw [hgo2]

/-- C14, amended: `run()` does not test `gameOver`.  While `gameOver` is true
a call to `run()` leaves the whole state unchanged when the game is paused or
when less than `fallSpeed` has elapsed since `lastFallTime`.  Otherwise it
performs the gravity step as in the running state, its result being that of
the same state with `gameOver` false, with the flag true: if `moveDown`
succeeds the current piece moves down (by 2 for a valid piece) and
`lastFallTime` becomes `currentTime`, while board, score, level and counters
are unchanged; if `moveDown` fails the piece is committed, which, with both
pointers naming one object as after a game over, uses the deleted piece and
yields no state, and otherwise writes the piece into the board and promotes
the next piece.  Whenever `run()` returns a state, `gameOver` is true in
it. -/
theorem C14_run_gameOver_amended (g : Game) (currentTime rnd : Nat)
    (hgo : g.gameOver = true) :
    ((g.isPaused = true ∨ (currentTime + 2 ^ 32 - g.lastFallTime) % 2 ^ 32 < g.fallSpeed) →
        g.run currentTime rnd = some g) ∧
    (g.isPaused = false → g.fallSpeed ≤ (currentTime + 2 ^ 32 - g.lastFallTime) % 2 ^ 32 →
      (g.currentTetromino.moveDown g.board).1 = true →
      ∃ g', g.run currentTime rnd = some g' ∧
        g'.currentTetromino = (g.currentTetromino.moveDown g.board).2 ∧
        (g.currentTetromino.Valid →
          g'.currentTetromino
            = { g.currentTetromino with offsetY := g.currentTetromino.offsetY + 2 }) ∧
        g'.lastFallTime = currentTime ∧
        g'.board = g.board ∧ g'.score = g.score ∧ g'.level = g.level ∧
        g'.clearedRows = g.clearedRows ∧ g'.totalClearedRows = g.totalClearedRows ∧
        g'.fallSpeed = g.fallSpeed ∧ g'.isPaused = false ∧ g'.gameOver = true) ∧
    (g.isPaused = false → g.fallSpeed ≤ (currentTime + 2 ^ 32 - g.lastFallTime) % 2 ^ 32 →
      (g.currentTetromino.moveDown g.board).1 = false → g.nextIsCurrent = true →
      g.run currentTime rnd = none) ∧
    (g.isPaused = false → g.fallSpeed ≤ (currentTime + 2 ^ 32 - g.lastFallTime) % 2 ^ 32 →
      (g.currentTetromino.moveDown g.board).1 = false → g.nextIsCurrent = false →
      g.board.WF →
      ∃ board2 n g',
        (g.board.placeTetromino g.currentTetromino).clearFullLines = some (board2, n) ∧
        g.run currentTime rnd = some g' ∧ g'.board = board2 ∧
        g'.currentTetromino = g.nextTetromino.setOffset 13 17 ∧ g'.gameOver = true) ∧
    g.run currentTime rnd
      = (({ g with gameOver := false }).run currentTime rnd).map
          (fun (g' : Game) => { g' with gameOver := true }) ∧
    (∀ g', g.run currentTime rnd = some g' → g'.gameOver = true) := by
  have htwin := run_gameOver_twin g currentTime rnd hgo
  have hstay : ∀ g', g.run currentTime rnd = some g' → g'.gameOver = true := by
    intro g' hrun
    rw [htwin] at hrun
    cases h0 : ({ g with gameOver := false } : Game).run currentTime rnd with
    | none => rw [h0] at hrun; cases hrun
    | some x =>
      rw [h0, Option.map_some'] at hrun
      cases hrun
      rfl
  refine ⟨?_, ?_, ?_, ?_, htwin, hstay⟩
  · intro h
    unfold Game.run
    by_cases hp : g.isPaused = true
    · rw [if_pos hp]
    · rw [if_neg hp]
      rcases h with h | h
      · exact absurd h hp
      · rw [if_neg (by omega)]
  · intro hp hfire hmove
    obtain ⟨g', hrun, a1, a2, a3, a4, a5, a6, a7, a8, a9, a10, _, _, _⟩ :=
      (run_gravity_spec g currentTime rnd hp).2 hfire hmove
    refine ⟨g', hrun, a1, fun hv => a2 hv.1 hv.2.1 hv.2.2.1 hv.2.2.2.2, a3, a4, a5, a6, a7, a8,
      a9, ?_, hstay g' hrun⟩
    rw [a10]; exact hp
  · intro hp hfire hland ha
    have hp' : ¬ g.isPaused = true := by rw [hp]; decide
    have hf : (currentTime + 2 ^ 32 - g.lastFallTime) % 2 ^ 32 ≥ g.fallSpeed := hfire
    unfold Game.run
    rw [if_neg hp', if_pos hf]
    dsimp only
    simp only [hland, Bool.not_false, if_true]
    cases (g.board.placeTetromino g.currentTetromino).clearFullLines with
    | none => rfl
    | some res =>
      dsimp only
      rw [if_pos ha]
  · intro hp hfire hland hdist hb
    obtain ⟨g', hrun⟩ := run_commit_returns g currentTime rnd hb hp hdist hfire hland
    obtain ⟨_, board2, n, hcl, h1, h2, _⟩ := run_commit_fields hrun hp hfire hland
    exact ⟨board2, n, g', hcl, hrun, h1, h2, hstay g' hrun⟩

theorem C14_witness :
    gameOverState.gameOver = true ∧ gameOverState.isPaused = false ∧
    gameOverState.fallSpeed ≤ (41000 + 2 ^ 32 - gameOverState.lastFallTime) % 2 ^ 32 ∧
    (gameOverState.currentTetromino.moveDown gameOverState.board).1 = true ∧
    (((gameOverState.isPaused = true ∨
          (41000 + 2 ^ 32 - gameOverState.lastFallTime) % 2 ^ 32 < gameOverState.fallSpeed) →
        gameOverState.run 41000 0 = some gameOverState) ∧
    (gameOverState.isPaused = false →
      gameOverState.fallSpeed ≤ (41000 + 2 ^ 32 - gameOverState.lastFallTime) % 2 ^ 32 →
      (gameOverState.currentTetromino.moveDown gameOverState.board).1 = true →
      ∃ g', gameOverState.run 41000 0 = some g' ∧
        g'.currentTetromino = (gameOverState.currentTetromino.moveDown gameOverState.board).2 ∧
        (gameOverState.currentTetromino.Valid →
          g'.currentTetromino
            = { gameOverState.currentTetromino with
                offsetY := gameOverState.currentTetromino.offsetY + 2 }) ∧
        g'.lastFallTime = 41000 ∧
        g'.board = gameOverState.board ∧ g'.score = gameOverState.score ∧
        g'.level = gameOverState.level ∧
        g'.clearedRows = gameOverState.clearedRows ∧
        g'.totalClearedRows = gameOverState.totalClearedRows ∧
        g'.fallSpeed = gameOverState.fallSpeed ∧ g'.isPaused = false ∧ g'.gameOver = true) ∧
    (gameOverState.isPaused = false →
      gameOverState.fallSpeed ≤ (41000 + 2 ^ 32 - gameOverState.lastFallTime) % 2 ^ 32 →
      (gameOverState.currentTetromino.moveDown gameOverState.board).1 = false →
      gameOverState.nextIsCurrent = true →
      gameOverState.run 41000 0 = none) ∧
    (gameOverState.isPaused = false →
      gameOverState.fallSpeed ≤ (41000 + 2 ^ 32 - gameOverState.lastFallTime) % 2 ^ 32 →
      (gameOverState.currentTetromino.moveDown gameOverState.board).1 = false →
      gameOverState.nextIsCurrent = false →
      gameOverState.board.WF →
      ∃ board2 n g',
        (gameOverState.board.placeTetromino gameOverState.currentTetromino).clearFullLines
          = some (board2, n) ∧
        gameOverState.run 41000 0 = some g' ∧ g'.board = board2 ∧
        g'.currentTetromino = gameOverState.nextTetromino.setOffset 13 17 ∧
        g'.gameOver = true) ∧
    gameOverState.run 41000 0
      = (({ gameOverState with gameOver := false }).run 41000 0).map
          (fun (g' : Game) => { g' with gameOver := true }) ∧
    (∀ g', gameOverState.run 41000 0 = some g' → g'.gameOver = true)) :=
  ⟨by decide, by decide, by decide, by decide,
    C14_run_gameOver_amended gameOverState 41000 0 (by decide)⟩

end Tetris
